import Mathlib

/-!
Verification of the keel Dockerfile analysis pipeline against its
natural-language specification.

The Go sources are shallowly embedded: strings are `List Char` (Go reads
input rune by rune; byte offsets of valid UTF-8 text are in order-preserving
bijection with rune indices, so positions are modelled as rune indices),
stateful loops are fueled structural recursions returning `Option` (`none`
means the fuel ran out; sufficiency lemmas show the chosen fuel always
suffices), and Go's `unicode.IsLetter/IsDigit/ToUpper/ToLower` are modelled
by their ASCII restrictions (every concrete input evaluated here is ASCII,
and the universally quantified theorems do not depend on the letter class).
-/

/-! ## Go string helpers (package strings / path) -/

abbrev Str := List Char

def nulChar : Char := '\x00'

/-- Go `unicode.IsSpace` restricted to ASCII. -/
def goIsSpace (c : Char) : Bool :=
  c = ' ' || c = '\t' || c = '\n' || c = '\x0b' || c = '\x0c' || c = '\r'

def strToUpper (s : Str) : Str := s.map Char.toUpper

def strToLower (s : Str) : Str := s.map Char.toLower

/-- Go `strings.Contains s sub`. -/
def strContainsSub : Str → Str → Bool
  | [], sub => sub.isEmpty
  | c :: rest, sub => sub.isPrefixOf (c :: rest) || strContainsSub rest sub

/-- Go `strings.Index s sub` (rune index of first occurrence, -1 as `none`). -/
def strIndexOfSub : Str → Str → Option Nat
  | [], sub => if sub.isEmpty then some 0 else none
  | c :: rest, sub =>
    if sub.isPrefixOf (c :: rest) then some 0
    else (strIndexOfSub rest sub).map (· + 1)

/-- Go `strings.TrimPrefix`. -/
def strTrimPre (s pre : Str) : Str :=
  if pre.isPrefixOf s then s.drop pre.length else s

/-- Go `strings.TrimSuffix`. -/
def strTrimSuf (s suf : Str) : Str :=
  if suf.isSuffixOf s then s.take (s.length - suf.length) else s

/-- Go `strings.TrimSpace` (ASCII space class). -/
def strTrimSpace (s : Str) : Str :=
  ((s.dropWhile goIsSpace).reverse.dropWhile goIsSpace).reverse

/-- Go `strings.Split s sep` for a non-empty separator, with fuel. -/
def strSplitSubF (sep : Str) : Nat → Str → List Str
  | 0, s => [s]
  | fuel + 1, s =>
    match strIndexOfSub s sep with
    | none => [s]
    | some i => s.take i :: strSplitSubF sep fuel (s.drop (i + sep.length))

def strSplitSub (s sep : Str) : List Str := strSplitSubF sep (s.length + 1) s

/-- Go `strings.SplitN s sep 2`. -/
def strSplitFirst (s sep : Str) : List Str :=
  match strIndexOfSub s sep with
  | none => [s]
  | some i => [s.take i, s.drop (i + sep.length)]

/-- Go `strings.Replace s old new 1` (first occurrence only). -/
def strReplaceFirst (s old new : Str) : Str :=
  match strIndexOfSub s old with
  | none => s
  | some i => s.take i ++ new ++ s.drop (i + old.length)

/-- Go `strings.FieldsFunc` (maximal runs of non-separators). -/
def strFieldsBy (f : Char → Bool) : Str → List Str
  | [] => []
  | c :: rest =>
    if f c then strFieldsBy f rest
    else
      match strFieldsBy f rest with
      | [] => [[c]]
      | w :: ws => if rest ≠ [] && !f (rest.headI) then (c :: w) :: ws else [c] :: w :: ws

def strJoin (parts : List Str) (sep : Str) : Str := sep.intercalate parts

/-- Split on `/`, keeping empty components (helper for `pathClean`). -/
def splitSlash : Str → List Str
  | [] => [[]]
  | c :: rest =>
    if c = '/' then [] :: splitSlash rest
    else
      match splitSlash rest with
      | [] => [[c]]
      | w :: ws => (c :: w) :: ws

/-- The `..`-resolving stack of Go `path.Clean`. -/
def cleanStack (rooted : Bool) (st : List Str) (comps : List Str) : List Str :=
  comps.foldl (fun (st : List Str) c =>
    if c = ['.', '.'] then
      match st with
      | [] => if rooted then [] else [c]
      | top :: rest => if top = ['.', '.'] then c :: st else rest
    else c :: st) st

/-- Go `path.Clean` (Plan 9 lexical cleaning, as documented for package path). -/
def pathClean (p : Str) : Str :=
  if p = [] then ['.']
  else
    let rooted := p.headI = '/'
    let comps := (splitSlash p).filter (fun c => c ≠ [] && c ≠ ['.'])
    let stack := cleanStack rooted [] comps
    let body := strJoin stack.reverse ['/']
    if rooted then '/' :: body
    else if body = [] then ['.']
    else body

/-! ## Lexer data model (internal/lexer) -/

structure Pos where
  line : Nat
  column : Nat
  offset : Nat
deriving DecidableEq, Repr, Inhabited

inductive TokType where
  | eof | newline | comment | whitespace
  | kwFrom | kwRun | kwCmd | kwLabel | kwMaintainer | kwExpose | kwEnv
  | kwAdd | kwCopy | kwEntrypoint | kwVolume | kwUser | kwWorkdir | kwArg
  | kwOnbuild | kwStopsignal | kwHealthcheck | kwShell
  | strLit | word | varLit | heredoc | heredocStart | heredocEnd
  | equals | colon | atSign | comma | lbracket | rbracket | backslash
  | flag | escapeDirective
deriving DecidableEq, Repr, Inhabited

structure Token where
  type : TokType
  literal : Str
  pos : Pos
  endPos : Pos
deriving DecidableEq, Repr, Inhabited

/-- The zero value of Go's `lexer.Token` (used by the parser past the end). -/
def zeroToken : Token := ⟨.eof, [], ⟨0, 0, 0⟩, ⟨0, 0, 0⟩⟩

def lookupKeyword (s : Str) : TokType :=
  if s = "FROM".toList then .kwFrom
  else if s = "RUN".toList then .kwRun
  else if s = "CMD".toList then .kwCmd
  else if s = "LABEL".toList then .kwLabel
  else if s = "MAINTAINER".toList then .kwMaintainer
  else if s = "EXPOSE".toList then .kwExpose
  else if s = "ENV".toList then .kwEnv
  else if s = "ADD".toList then .kwAdd
  else if s = "COPY".toList then .kwCopy
  else if s = "ENTRYPOINT".toList then .kwEntrypoint
  else if s = "VOLUME".toList then .kwVolume
  else if s = "USER".toList then .kwUser
  else if s = "WORKDIR".toList then .kwWorkdir
  else if s = "ARG".toList then .kwArg
  else if s = "ONBUILD".toList then .kwOnbuild
  else if s = "STOPSIGNAL".toList then .kwStopsignal
  else if s = "HEALTHCHECK".toList then .kwHealthcheck
  else if s = "SHELL".toList then .kwShell
  else .word

def TokType.isInstructionType (t : TokType) : Bool :=
  match t with
  | .kwFrom | .kwRun | .kwCmd | .kwLabel | .kwMaintainer | .kwExpose | .kwEnv
  | .kwAdd | .kwCopy | .kwEntrypoint | .kwVolume | .kwUser | .kwWorkdir
  | .kwArg | .kwOnbuild | .kwStopsignal | .kwHealthcheck | .kwShell => true
  | _ => false

def Token.isInstruction (t : Token) : Bool := t.type.isInstructionType

/-- Go `isWordChar` (unicode letter/digit approximated by ASCII). -/
def isWordChar (c : Char) : Bool :=
  c.isAlpha || c.isDigit || c = '_' || c = '-' || c = '.' || c = '/'

/-- Go `isVarChar`. -/
def isVarChar (c : Char) : Bool := c.isAlpha || c.isDigit || c = '_'

/-! ## Lexer state and fueled loops -/

structure LexSt where
  input : Str
  pos : Nat
  line : Nat
  col : Nat
  escapeChar : Char
  atLineStart : Bool
  inInstr : Bool
deriving Repr

/-- The current character (`l.ch`), 0 past the end. -/
def curr (s : LexSt) : Char := s.input.getD s.pos nulChar

def peekChar (s : LexSt) : Char := s.input.getD (s.pos + 1) nulChar

/-- Go `Lexer.readChar`: advance one rune; line/column track the new char. -/
def readChar (s : LexSt) : LexSt :=
  let p := s.pos + 1
  if s.input.getD p nulChar = '\n' then
    { s with pos := p, line := s.line + 1, col := 0 }
  else
    { s with pos := p, col := s.col + 1 }

/-- Go `lexer.New` (constructor plus its initial `readChar`). -/
def initLexSt (input : Str) : LexSt :=
  if input.getD 0 nulChar = '\n' then
    ⟨input, 0, 2, 0, '\\', true, false⟩
  else
    ⟨input, 0, 1, 1, '\\', true, false⟩

def posOf (s : LexSt) : Pos := ⟨s.line, s.col, s.pos⟩

def sliceStr (input : Str) (a b : Nat) : Str := (input.drop a).take (b - a)

def mkTok (s : LexSt) (start : Pos) (t : TokType) (lit : Str) : Token :=
  ⟨t, lit, start, posOf s⟩

/-- Fuel that always suffices for any loop over the input. -/
def bigFuel (s : LexSt) : Nat := s.input.length + 3

def skipWhitespaceF : Nat → LexSt → Option LexSt
  | 0, _ => none
  | fuel + 1, s =>
    if curr s = ' ' ∨ curr s = '\t' ∨ curr s = '\r' then
      skipWhitespaceF fuel (readChar s)
    else some s

def readBareWordF : Nat → LexSt → Option LexSt
  | 0, _ => none
  | fuel + 1, s =>
    if isWordChar (curr s) then readBareWordF fuel (readChar s) else some s

def consumeToEolF : Nat → LexSt → Option LexSt
  | 0, _ => none
  | fuel + 1, s =>
    if curr s ≠ nulChar ∧ curr s ≠ '\n' then consumeToEolF fuel (readChar s)
    else some s

def readStringLoopF (quote esc : Char) : Nat → LexSt → Option LexSt
  | 0, _ => none
  | fuel + 1, s =>
    if curr s = nulChar then some s
    else if curr s = esc ∧ (peekChar s = quote ∨ peekChar s = esc) then
      readStringLoopF quote esc fuel (readChar (readChar s))
    else if curr s = quote then some (readChar s)
    else if curr s = '\n' then some s
    else readStringLoopF quote esc fuel (readChar s)

def readVarBraceF : Nat → Nat → LexSt → Option LexSt
  | 0, _, _ => none
  | fuel + 1, depth, s =>
    if curr s ≠ nulChar ∧ depth > 0 then
      let d := if curr s = '\x7b' then depth + 1
               else if curr s = '\x7d' then depth - 1 else depth
      readVarBraceF fuel d (readChar s)
    else some s

def readVarPlainF : Nat → LexSt → Option LexSt
  | 0, _ => none
  | fuel + 1, s =>
    if isVarChar (curr s) then readVarPlainF fuel (readChar s) else some s

def readFlagNameF : Nat → LexSt → Option LexSt
  | 0, _ => none
  | fuel + 1, s =>
    if isWordChar (curr s) ∨ curr s = '-' then readFlagNameF fuel (readChar s)
    else some s

def readFlagQuotedF (quote esc : Char) : Nat → LexSt → Option LexSt
  | 0, _ => none
  | fuel + 1, s =>
    if curr s ≠ nulChar ∧ curr s ≠ quote ∧ curr s ≠ '\n' then
      let s1 := if curr s = esc then readChar s else s
      readFlagQuotedF quote esc fuel (readChar s1)
    else some s

def readFlagBareF : Nat → LexSt → Option LexSt
  | 0, _ => none
  | fuel + 1, s =>
    if curr s ≠ nulChar ∧ curr s ≠ ' ' ∧ curr s ≠ '\t' ∧ curr s ≠ '\n' then
      readFlagBareF fuel (readChar s)
    else some s

def skipTabsF : Nat → LexSt → Option LexSt
  | 0, _ => none
  | fuel + 1, s =>
    if curr s = '\t' then skipTabsF fuel (readChar s) else some s

def skipSpacesTabsF : Nat → LexSt → Option LexSt
  | 0, _ => none
  | fuel + 1, s =>
    if curr s = ' ' ∨ curr s = '\t' then skipSpacesTabsF fuel (readChar s)
    else some s

def heredocDelimQuotedF (quote : Char) : Nat → LexSt → Option LexSt
  | 0, _ => none
  | fuel + 1, s =>
    if curr s ≠ nulChar ∧ curr s ≠ quote ∧ curr s ≠ '\n' then
      heredocDelimQuotedF quote fuel (readChar s)
    else some s

/-- The heredoc body loop of Go `readHeredocStart`: accumulate lines until a
line that (after optional tab stripping) is the delimiter. -/
def heredocContentF (delim : Str) (stripTabs : Bool) : Nat → LexSt → Option LexSt
  | 0, _ => none
  | fuel + 1, s =>
    if curr s = nulChar then some s
    else do
      let s1 ← if stripTabs then skipTabsF (bigFuel s) s else some s
      let wordStart := s1.pos
      let s2 ← readBareWordF (bigFuel s) s1
      let w := sliceStr s.input wordStart s2.pos
      let s3 ← skipSpacesTabsF (bigFuel s) s2
      if w = delim ∧ (curr s3 = '\n' ∨ curr s3 = nulChar) then
        some (if curr s3 = '\n' then readChar s3 else s3)
      else do
        let s4 ← consumeToEolF (bigFuel s) s3
        heredocContentF delim stripTabs fuel
          (if curr s4 = '\n' then readChar s4 else s4)

/-! ## Lexer token readers -/

def readStringTok (s : LexSt) (start : Pos) : Option (Token × LexSt) := do
  let quote := curr s
  let startOff := s.pos
  let s1 := readChar s
  let s2 ← readStringLoopF quote s.escapeChar (bigFuel s) s1
  some (mkTok s2 start .strLit (sliceStr s.input startOff s2.pos), s2)

def readVariableTok (s : LexSt) (start : Pos) : Option (Token × LexSt) := do
  let startOff := s.pos
  let s1 := readChar s
  let s3 ←
    if curr s1 = '\x7b' then readVarBraceF (bigFuel s) 1 (readChar s1)
    else readVarPlainF (bigFuel s) s1
  some (mkTok s3 start .varLit (sliceStr s.input startOff s3.pos), s3)

def readFlagTok (s : LexSt) (start : Pos) : Option (Token × LexSt) := do
  let startOff := s.pos
  let s1 := readChar (readChar s)
  let s2 ← readFlagNameF (bigFuel s) s1
  let s5 ←
    if curr s2 = '=' then
      let s3 := readChar s2
      if curr s3 = '"' ∨ curr s3 = '\'' then do
        let quote := curr s3
        let s4 ← readFlagQuotedF quote s.escapeChar (bigFuel s) (readChar s3)
        some (if curr s4 = quote then readChar s4 else s4)
      else readFlagBareF (bigFuel s) s3
    else some s2
  some (mkTok s5 start .flag (sliceStr s.input startOff s5.pos), s5)

def readHeredocTok (s : LexSt) (start : Pos) : Option (Token × LexSt) := do
  let startOff := s.pos
  let s1 := readChar (readChar s)
  let stripTabs := curr s1 = '-'
  let s2 := if curr s1 = '-' then readChar s1 else s1
  let (delim, s5) ←
    if curr s2 = '"' ∨ curr s2 = '\'' then do
      let quote := curr s2
      let s3 := readChar s2
      let delimStart := s3.pos
      let s4 ← heredocDelimQuotedF quote (bigFuel s) s3
      some (sliceStr s.input delimStart s4.pos,
            if curr s4 = quote then readChar s4 else s4)
    else do
      let delimStart := s2.pos
      let s4 ← readBareWordF (bigFuel s) s2
      some (sliceStr s.input delimStart s4.pos, s4)
  let s6 ← consumeToEolF (bigFuel s) s5
  let s7 := if curr s6 = '\n' then readChar s6 else s6
  let s8 ← heredocContentF delim stripTabs (bigFuel s) s7
  some (mkTok s8 start .heredoc (sliceStr s.input startOff s8.pos), s8)

def readWordTok (s : LexSt) (start : Pos) : Option (Token × LexSt) := do
  let wordStart := s.pos
  let s1 ← readBareWordF (bigFuel s) s
  let lit := sliceStr s.input wordStart s1.pos
  if s1.atLineStart then
    let tt := lookupKeyword (strToUpper lit)
    if tt ≠ .word then
      let s2 := { s1 with atLineStart := false, inInstr := true }
      some (mkTok s2 start tt lit, s2)
    else
      let s2 := { s1 with atLineStart := false }
      some (mkTok s2 start .word lit, s2)
  else
    let s2 := { s1 with atLineStart := false }
    some (mkTok s2 start .word lit, s2)

/-- The escape-directive probe of Go `readComment`. The outer `Option` is
fuel; `some none` means the comment is not an escape directive (Go restores
its saved position in that case). -/
def escProbe (s : LexSt) : Option (Option LexSt) := do
  let p1 := readChar s
  let p2 ← skipWhitespaceF (bigFuel s) p1
  let wStart := p2.pos
  let p3 ← readBareWordF (bigFuel s) p2
  let w := sliceStr s.input wStart p3.pos
  if strToLower w = "escape".toList then
    let p4 ← skipWhitespaceF (bigFuel s) p3
    if curr p4 = '=' then
      let p5 := readChar p4
      let p6 ← skipWhitespaceF (bigFuel s) p5
      if curr p6 ≠ nulChar ∧ curr p6 ≠ '\n' then
        let p7 := { p6 with escapeChar := curr p6 }
        let p8 ← consumeToEolF (bigFuel s) p7
        some (some p8)
      else some none
    else some none
  else some none

def readCommentRegular (s : LexSt) (start : Pos) (startOff : Nat) :
    Option (Token × LexSt) := do
  let s9 ← consumeToEolF (bigFuel s) s
  some (mkTok s9 start .comment (sliceStr s.input startOff s9.pos), s9)

def readCommentTok (s : LexSt) (start : Pos) : Option (Token × LexSt) :=
  let startOff := s.pos
  let startLine := s.line
  if s.line = 1 ∨ (s.line = 2 ∧ startLine = 1) then
    match escProbe s with
    | none => none
    | some none => readCommentRegular s start startOff
    | some (some p8) =>
      some (mkTok p8 start .escapeDirective (sliceStr s.input startOff p8.pos), p8)
  else readCommentRegular s start startOff

/-- Go `Lexer.NextToken`, with fuel for the line-continuation recursion. -/
def nextTokenF : Nat → LexSt → Option (Token × LexSt)
  | 0, _ => none
  | fuel + 1, s0 => do
    let s ← skipWhitespaceF (bigFuel s0) s0
    let start := posOf s
    if curr s = nulChar then
      some (mkTok s start .eof [], s)
    else if curr s = '\n' then
      let s1 := { readChar s with atLineStart := true, inInstr := false }
      some (mkTok s1 start .newline ['\n'], s1)
    else if curr s = '#' then
      readCommentTok s start
    else if curr s = s.escapeChar ∧ peekChar s = '\n' then
      nextTokenF fuel (readChar (readChar s))
    else if curr s = '<' ∧ peekChar s = '<' then
      readHeredocTok s start
    else if curr s = '=' then
      let s1 := readChar s; some (mkTok s1 start .equals ['='], s1)
    else if curr s = ':' then
      let s1 := readChar s; some (mkTok s1 start .colon [':'], s1)
    else if curr s = '@' then
      let s1 := readChar s; some (mkTok s1 start .atSign ['@'], s1)
    else if curr s = ',' then
      let s1 := readChar s; some (mkTok s1 start .comma [','], s1)
    else if curr s = '[' then
      let s1 := readChar s; some (mkTok s1 start .lbracket ['['], s1)
    else if curr s = ']' then
      let s1 := readChar s; some (mkTok s1 start .rbracket [']'], s1)
    else if curr s = s.escapeChar then
      let s1 := readChar s; some (mkTok s1 start .backslash [s.escapeChar], s1)
    else if curr s = '"' ∨ curr s = '\'' then
      readStringTok s start
    else if curr s = '$' then
      readVariableTok s start
    else if curr s = '-' ∧ peekChar s = '-' then
      readFlagTok s start
    else if isWordChar (curr s) then
      readWordTok s start
    else
      let c := curr s
      let s1 := readChar s
      some (mkTok s1 start .word [c], s1)

/-- Go `Lexer.Tokenize`: collect tokens until (and including) the first EOF. -/
def tokenizeF : Nat → LexSt → Option (List Token)
  | 0, _ => none
  | fuel + 1, s => do
    let (t, s') ← nextTokenF (bigFuel s) s
    if t.type = .eof then some [t]
    else do
      let ts ← tokenizeF fuel s'
      some (t :: ts)

def tokenize (input : Str) : List Token :=
  (tokenizeF (input.length + 3) (initLexSt input)).getD []

/-! ## Parser AST (internal/parser/ast.go) -/

structure KV where
  key : Str
  value : Str
deriving DecidableEq, Repr, Inhabited

structure HeredocV where
  delimiter : Str
  content : Str
  stripTabs : Bool
deriving DecidableEq, Repr, Inhabited

structure FromI where
  startPos : Pos := default
  endPos : Pos := default
  rawText : Str := []
  image : Str := []
  tag : Str := []
  digest : Str := []
  platform : Str := []
  asName : Str := []
deriving DecidableEq, Repr, Inhabited

structure RunI where
  startPos : Pos := default
  endPos : Pos := default
  command : Str := []
  args : List Str := []
  isExec : Bool := false
  heredoc : Option HeredocV := none
  mount : Str := []
  network : Str := []
  security : Str := []
deriving DecidableEq, Repr, Inhabited

structure CmdI where
  startPos : Pos := default
  endPos : Pos := default
  command : Str := []
  args : List Str := []
  isExec : Bool := false
deriving DecidableEq, Repr, Inhabited

structure EntryI where
  startPos : Pos := default
  endPos : Pos := default
  command : Str := []
  args : List Str := []
  isExec : Bool := false
deriving DecidableEq, Repr, Inhabited

structure CopyI where
  startPos : Pos := default
  endPos : Pos := default
  sources : List Str := []
  dest : Str := []
  fromS : Str := []
  chown : Str := []
  chmod : Str := []
  link : Bool := false
deriving DecidableEq, Repr, Inhabited

structure AddI where
  startPos : Pos := default
  endPos : Pos := default
  sources : List Str := []
  dest : Str := []
  chown : Str := []
  chmod : Str := []
  checksum : Str := []
deriving DecidableEq, Repr, Inhabited

structure EnvI where
  startPos : Pos := default
  endPos : Pos := default
  vars : List KV := []
deriving DecidableEq, Repr, Inhabited

structure ArgI where
  startPos : Pos := default
  endPos : Pos := default
  name : Str := []
  defaultValue : Str := []
  hasDefault : Bool := false
deriving DecidableEq, Repr, Inhabited

structure LabelI where
  startPos : Pos := default
  endPos : Pos := default
  labels : List KV := []
deriving DecidableEq, Repr, Inhabited

structure PortSpec where
  port : Str
  protocol : Str
deriving DecidableEq, Repr, Inhabited

structure ExposeI where
  startPos : Pos := default
  endPos : Pos := default
  ports : List PortSpec := []
deriving DecidableEq, Repr, Inhabited

structure VolumeI where
  startPos : Pos := default
  endPos : Pos := default
  paths : List Str := []
deriving DecidableEq, Repr, Inhabited

structure UserI where
  startPos : Pos := default
  endPos : Pos := default
  user : Str := []
  group : Str := []
deriving DecidableEq, Repr, Inhabited

structure WorkdirI where
  startPos : Pos := default
  endPos : Pos := default
  path : Str := []
deriving DecidableEq, Repr, Inhabited

structure ShellI where
  startPos : Pos := default
  endPos : Pos := default
  shell : List Str := []
deriving DecidableEq, Repr, Inhabited

structure HealthI where
  startPos : Pos := default
  endPos : Pos := default
  isNone : Bool := false
  interval : Str := []
  timeout : Str := []
  startPeriod : Str := []
  retries : Str := []
  command : Str := []
  args : List Str := []
  isExec : Bool := false
deriving DecidableEq, Repr, Inhabited

structure StopI where
  startPos : Pos := default
  endPos : Pos := default
  signal : Str := []
deriving DecidableEq, Repr, Inhabited

structure MaintainerI where
  startPos : Pos := default
  endPos : Pos := default
  maintainer : Str := []
deriving DecidableEq, Repr, Inhabited

inductive Instruction where
  | fromI (v : FromI)
  | runI (v : RunI)
  | cmdI (v : CmdI)
  | entrypointI (v : EntryI)
  | copyI (v : CopyI)
  | addI (v : AddI)
  | envI (v : EnvI)
  | argI (v : ArgI)
  | labelI (v : LabelI)
  | exposeI (v : ExposeI)
  | volumeI (v : VolumeI)
  | userI (v : UserI)
  | workdirI (v : WorkdirI)
  | shellI (v : ShellI)
  | healthcheckI (v : HealthI)
  | stopsignalI (v : StopI)
  | onbuildI (startPos endPos : Pos) (inner : Instruction)
  | onbuildEmptyI (startPos endPos : Pos)
  | maintainerI (v : MaintainerI)
deriving DecidableEq, Repr, Inhabited

def Instruction.startP : Instruction → Pos
  | .fromI v => v.startPos | .runI v => v.startPos | .cmdI v => v.startPos
  | .entrypointI v => v.startPos | .copyI v => v.startPos | .addI v => v.startPos
  | .envI v => v.startPos | .argI v => v.startPos | .labelI v => v.startPos
  | .exposeI v => v.startPos | .volumeI v => v.startPos | .userI v => v.startPos
  | .workdirI v => v.startPos | .shellI v => v.startPos
  | .healthcheckI v => v.startPos | .stopsignalI v => v.startPos
  | .onbuildI sp _ _ => sp | .onbuildEmptyI sp _ => sp
  | .maintainerI v => v.startPos

def Instruction.endP : Instruction → Pos
  | .fromI v => v.endPos | .runI v => v.endPos | .cmdI v => v.endPos
  | .entrypointI v => v.endPos | .copyI v => v.endPos | .addI v => v.endPos
  | .envI v => v.endPos | .argI v => v.endPos | .labelI v => v.endPos
  | .exposeI v => v.endPos | .volumeI v => v.endPos | .userI v => v.endPos
  | .workdirI v => v.endPos | .shellI v => v.endPos
  | .healthcheckI v => v.endPos | .stopsignalI v => v.endPos
  | .onbuildI _ ep _ => ep | .onbuildEmptyI _ ep => ep
  | .maintainerI v => v.endPos

structure Comment where
  text : Str
  startPos : Pos
  endPos : Pos
deriving DecidableEq, Repr, Inhabited

structure Stage where
  name : Str := []
  fromI : FromI := default
  instructions : List Instruction := []
  comments : List Comment := []
  startPos : Pos := default
  endPos : Pos := default
deriving DecidableEq, Repr, Inhabited

structure Dockerfile where
  stages : List Stage := []
  comments : List Comment := []
  escape : Char := '\\'
  startPos : Pos := default
  endPos : Pos := default
deriving DecidableEq, Repr, Inhabited

/-- Go `PortSpec.IsPrivilegedPort`. -/
def PortSpec.isPrivilegedPort (p : PortSpec) : Bool :=
  let port := strTrimSuf (strTrimSuf p.port "/tcp".toList) "/udp".toList
  let port := if strContainsSub port ['-'] then
      let parts := strSplitSub port ['-']
      if parts.length = 2 then parts.headI else port
    else port
  if port.length = 0 then false
  else if port.all (fun c => decide ('0' ≤ c) && decide (c ≤ '9')) then
    let val := port.foldl (fun v c => v * 10 + (c.toNat - '0'.toNat)) 0
    decide (val > 0 ∧ val < 1024)
  else false

/-! ## Parser (unnamed parser.go) -/

structure ParseError where
  message : Str
  pos : Pos
deriving DecidableEq, Repr, Inhabited

structure ParSt where
  tokens : List Token
  pos : Nat
  current : Token
  errors : List ParseError
deriving Repr, Inhabited

def newPar (tokens : List Token) : ParSt :=
  ⟨tokens, 0, tokens.getD 0 zeroToken, []⟩

def advanceP (p : ParSt) : ParSt :=
  let n := p.pos + 1
  { p with pos := n, current := p.tokens.getD n zeroToken }

def errorP (p : ParSt) (msg : Str) : ParSt :=
  { p with errors := p.errors ++ [⟨msg, p.current.pos⟩] }

def pFuel (p : ParSt) : Nat := p.tokens.length + 2

def atLineEnd (p : ParSt) : Bool :=
  p.current.type = .newline || p.current.type = .eof

/-- Go quote stripping used across per-instruction parsers
(`s[1 : len(s)-1]` guarded on the first character being a quote). -/
def stripQuotes1 (s : Str) : Str :=
  if s.length ≥ 2 ∧ (s.getD 0 nulChar = '"' ∨ s.getD 0 nulChar = '\'') then
    (s.drop 1).take (s.length - 2)
  else s

def skipNewlinesF : Nat → ParSt → ParSt
  | 0, p => p
  | fuel + 1, p =>
    if p.current.type = .newline then skipNewlinesF fuel (advanceP p) else p

def skipCommentsNewlinesF : Nat → ParSt → List Comment × ParSt
  | 0, p => ([], p)
  | fuel + 1, p =>
    if p.current.type = .newline ∨ p.current.type = .comment then
      let cs := if p.current.type = .comment then
          [(⟨p.current.literal, p.current.pos, p.current.endPos⟩ : Comment)]
        else []
      let (rest, p') := skipCommentsNewlinesF fuel (advanceP p)
      (cs ++ rest, p')
    else ([], p)

def skipToNextInstructionF : Nat → ParSt → ParSt
  | 0, p => p
  | fuel + 1, p =>
    if p.current.type ≠ .eof then
      if p.current.type = .newline then
        let p' := advanceP p
        if p'.current.isInstruction then p'
        else skipToNextInstructionF fuel p'
      else skipToNextInstructionF fuel (advanceP p)
    else p

/-- Go `collectRestOfLine` (single-space rendering when the source had any
whitespace between tokens,判 by offset comparison). -/
def collectRestF : Nat → ParSt → Str → Pos → Bool → Str × ParSt
  | 0, p, acc, _, _ => (acc, p)
  | fuel + 1, p, acc, lastEnd, first =>
    if ¬ atLineEnd p then
      let acc := if ¬ first ∧ p.current.pos.offset > lastEnd.offset
        then acc ++ [' '] else acc
      collectRestF fuel (advanceP p) (acc ++ p.current.literal) p.current.endPos false
    else (acc, p)

def collectRestOfLine (p : ParSt) : Str × ParSt :=
  collectRestF (pFuel p) p [] default true

def collectRestRawF : Nat → ParSt → Str → Str × ParSt
  | 0, p, acc => (acc, p)
  | fuel + 1, p, acc =>
    if ¬ atLineEnd p then collectRestRawF fuel (advanceP p) (acc ++ p.current.literal)
    else (acc, p)

def collectRestOfLineRaw (p : ParSt) : Str × ParSt :=
  collectRestRawF (pFuel p) p []

def execFormF : Nat → ParSt → List Str → List Str × ParSt
  | 0, p, acc => (acc, p)
  | fuel + 1, p, acc =>
    if p.current.type ≠ .rbracket ∧ p.current.type ≠ .eof then
      let acc := if p.current.type = .strLit then acc ++ [stripQuotes1 p.current.literal] else acc
      execFormF fuel (advanceP p) acc
    else (acc, p)

/-- Go `parseExecForm`. -/
def parseExecForm (p : ParSt) : List Str × ParSt :=
  let p := advanceP p
  let (args, p) := execFormF (pFuel p) p []
  (args, if p.current.type = .rbracket then advanceP p else p)

/-- Drain the remainder of the line without collecting anything. -/
def drainLineF : Nat → ParSt → ParSt
  | 0, p => p
  | fuel + 1, p => if ¬ atLineEnd p then drainLineF fuel (advanceP p) else p

/-- The shared epilogue `inst.EndPos = p.current.Pos; if newline, advance`. -/
def eatLineEnd (p : ParSt) : Pos × ParSt :=
  (p.current.pos, if p.current.type = .newline then advanceP p else p)

def fromLoopF : Nat → ParSt → FromI → FromI × ParSt
  | 0, p, inst => (inst, p)
  | fuel + 1, p, inst =>
    if ¬ atLineEnd p then
      match p.current.type with
      | .word =>
        let w := p.current.literal
        if strToUpper w = "AS".toList then
          let p := advanceP p
          if p.current.type = .word then
            fromLoopF fuel (advanceP p) { inst with asName := p.current.literal }
          else fromLoopF fuel p inst
        else if inst.image = [] then
          fromLoopF fuel (advanceP p) { inst with image := w }
        else fromLoopF fuel (advanceP p) inst
      | .colon =>
        let p := advanceP p
        if p.current.type = .word then
          fromLoopF fuel (advanceP p) { inst with tag := p.current.literal }
        else fromLoopF fuel p inst
      | .atSign =>
        let p := advanceP p
        if p.current.type = .word then
          fromLoopF fuel (advanceP p) { inst with digest := p.current.literal }
        else fromLoopF fuel p inst
      | .varLit =>
        let inst := if inst.image = [] then { inst with image := p.current.literal } else inst
        fromLoopF fuel (advanceP p) inst
      | _ => fromLoopF fuel (advanceP p) inst
    else (inst, p)

/-- Go `parseFrom`. -/
def parseFrom (p : ParSt) : FromI × ParSt :=
  let inst : FromI := { startPos := p.current.pos }
  let startIdx := p.pos
  let p := advanceP p
  let (inst, p) :=
    if p.current.type = .flag then
      let fl := p.current.literal
      let inst := if "--platform=".toList.isPrefixOf fl then
          { inst with platform := strTrimPre fl "--platform=".toList }
        else inst
      (inst, advanceP p)
    else (inst, p)
  let (inst, p) := fromLoopF (pFuel p) p inst
  let endIdx := p.pos
  let inst :=
    if endIdx > startIdx ∧ endIdx ≤ p.tokens.length then
      let parts := (((p.tokens.drop startIdx).take (endIdx - startIdx)).filter
        (fun t => t.type ≠ .newline)).map (·.literal)
      { inst with rawText := strJoin parts [' '] }
    else inst
  let (ep, p) := eatLineEnd p
  ({ inst with endPos := ep }, p)

def runFlagsF : Nat → ParSt → RunI → RunI × ParSt
  | 0, p, inst => (inst, p)
  | fuel + 1, p, inst =>
    if p.current.type = .flag then
      let fl := p.current.literal
      let inst :=
        if "--mount=".toList.isPrefixOf fl then
          { inst with mount := strTrimPre fl "--mount=".toList }
        else if "--network=".toList.isPrefixOf fl then
          { inst with network := strTrimPre fl "--network=".toList }
        else if "--security=".toList.isPrefixOf fl then
          { inst with security := strTrimPre fl "--security=".toList }
        else inst
      runFlagsF fuel (advanceP p) inst
    else (inst, p)

/-- Go `parseRun`. -/
def parseRun (p : ParSt) : RunI × ParSt :=
  let inst : RunI := { startPos := p.current.pos }
  let p := advanceP p
  let (inst, p) := runFlagsF (pFuel p) p inst
  let (inst, p) :=
    if p.current.type = .heredoc then
      ({ inst with heredoc := some ⟨[], p.current.literal, false⟩ }, advanceP p)
    else if p.current.type = .lbracket then
      let (args, p) := parseExecForm p
      ({ inst with isExec := true, args := args }, p)
    else
      let (cmd, p) := collectRestOfLine p
      ({ inst with command := cmd }, p)
  let (ep, p) := eatLineEnd p
  ({ inst with endPos := ep }, p)

/-- Go `parseCmd`. -/
def parseCmd (p : ParSt) : CmdI × ParSt :=
  let inst : CmdI := { startPos := p.current.pos }
  let p := advanceP p
  let (inst, p) :=
    if p.current.type = .lbracket then
      let (args, p) := parseExecForm p
      ({ inst with isExec := true, args := args }, p)
    else
      let (cmd, p) := collectRestOfLine p
      ({ inst with command := cmd }, p)
  let (ep, p) := eatLineEnd p
  ({ inst with endPos := ep }, p)

/-- Go `parseEntrypoint`. -/
def parseEntrypoint (p : ParSt) : EntryI × ParSt :=
  let inst : EntryI := { startPos := p.current.pos }
  let p := advanceP p
  let (inst, p) :=
    if p.current.type = .lbracket then
      let (args, p) := parseExecForm p
      ({ inst with isExec := true, args := args }, p)
    else
      let (cmd, p) := collectRestOfLine p
      ({ inst with command := cmd }, p)
  let (ep, p) := eatLineEnd p
  ({ inst with endPos := ep }, p)

def copyFlagsF : Nat → ParSt → CopyI → CopyI × ParSt
  | 0, p, inst => (inst, p)
  | fuel + 1, p, inst =>
    if p.current.type = .flag then
      let fl := p.current.literal
      let inst :=
        if "--from=".toList.isPrefixOf fl then
          { inst with fromS := strTrimPre fl "--from=".toList }
        else if "--chown=".toList.isPrefixOf fl then
          { inst with chown := strTrimPre fl "--chown=".toList }
        else if "--chmod=".toList.isPrefixOf fl then
          { inst with chmod := strTrimPre fl "--chmod=".toList }
        else if fl = "--link".toList then { inst with link := true }
        else inst
      copyFlagsF fuel (advanceP p) inst
    else (inst, p)

def copyPathsF : Nat → ParSt → List Str → List Str × ParSt
  | 0, p, acc => (acc, p)
  | fuel + 1, p, acc =>
    if ¬ atLineEnd p then
      let acc :=
        if p.current.type = .word ∨ p.current.type = .strLit ∨ p.current.type = .varLit then
          acc ++ [stripQuotes1 p.current.literal]
        else acc
      copyPathsF fuel (advanceP p) acc
    else (acc, p)

/-- Go `parseCopy`. -/
def parseCopy (p : ParSt) : CopyI × ParSt :=
  let inst : CopyI := { startPos := p.current.pos }
  let p := advanceP p
  let (inst, p) := copyFlagsF (pFuel p) p inst
  let (paths, p) := copyPathsF (pFuel p) p []
  let inst :=
    if paths.length > 0 then
      { inst with dest := paths.getLast?.getD [], sources := paths.dropLast }
    else inst
  let (ep, p) := eatLineEnd p
  ({ inst with endPos := ep }, p)

def addFlagsF : Nat → ParSt → AddI → AddI × ParSt
  | 0, p, inst => (inst, p)
  | fuel + 1, p, inst =>
    if p.current.type = .flag then
      let fl := p.current.literal
      let inst :=
        if "--chown=".toList.isPrefixOf fl then
          { inst with chown := strTrimPre fl "--chown=".toList }
        else if "--chmod=".toList.isPrefixOf fl then
          { inst with chmod := strTrimPre fl "--chmod=".toList }
        else if "--checksum=".toList.isPrefixOf fl then
          { inst with checksum := strTrimPre fl "--checksum=".toList }
        else inst
      addFlagsF fuel (advanceP p) inst
    else (inst, p)

def addPathsF : Nat → ParSt → List Str → List Str × ParSt
  | 0, p, acc => (acc, p)
  | fuel + 1, p, acc =>
    if ¬ atLineEnd p then
      let acc :=
        if p.current.type = .word ∨ p.current.type = .strLit then
          acc ++ [stripQuotes1 p.current.literal]
        else acc
      addPathsF fuel (advanceP p) acc
    else (acc, p)

/-- Go `parseAdd`. -/
def parseAdd (p : ParSt) : AddI × ParSt :=
  let inst : AddI := { startPos := p.current.pos }
  let p := advanceP p
  let (inst, p) := addFlagsF (pFuel p) p inst
  let (paths, p) := addPathsF (pFuel p) p []
  let inst :=
    if paths.length > 0 then
      { inst with dest := paths.getLast?.getD [], sources := paths.dropLast }
    else inst
  let (ep, p) := eatLineEnd p
  ({ inst with endPos := ep }, p)

def envLoopF : Nat → ParSt → List KV → List KV × ParSt
  | 0, p, acc => (acc, p)
  | fuel + 1, p, acc =>
    if ¬ atLineEnd p then
      if p.current.type = .word then
        let key := p.current.literal
        let p := advanceP p
        let (value, p) :=
          if p.current.type = .equals then
            let p := advanceP p
            if p.current.type = .word ∨ p.current.type = .strLit ∨ p.current.type = .varLit then
              (stripQuotes1 p.current.literal, advanceP p)
            else ([], p)
          else if p.current.type = .word ∨ p.current.type = .strLit then
            (stripQuotes1 p.current.literal, advanceP p)
          else ([], p)
        envLoopF fuel p (acc ++ [⟨key, value⟩])
      else envLoopF fuel (advanceP p) acc
    else (acc, p)

/-- Go `parseEnv`. -/
def parseEnv (p : ParSt) : EnvI × ParSt :=
  let inst : EnvI := { startPos := p.current.pos }
  let p := advanceP p
  let (vars, p) := envLoopF (pFuel p) p []
  let (ep, p) := eatLineEnd p
  ({ inst with vars := vars, endPos := ep }, p)

/-- Go `parseArg`. -/
def parseArg (p : ParSt) : ArgI × ParSt :=
  let inst : ArgI := { startPos := p.current.pos }
  let p := advanceP p
  let (inst, p) :=
    if p.current.type = .word then
      let inst := { inst with name := p.current.literal }
      let p := advanceP p
      if p.current.type = .equals then
        let p := advanceP p
        let inst := { inst with hasDefault := true }
        if p.current.type = .word ∨ p.current.type = .strLit then
          ({ inst with defaultValue := stripQuotes1 p.current.literal }, advanceP p)
        else (inst, p)
      else (inst, p)
    else (inst, p)
  let p := drainLineF (pFuel p) p
  let (ep, p) := eatLineEnd p
  ({ inst with endPos := ep }, p)

def labelLoopF : Nat → ParSt → List KV → List KV × ParSt
  | 0, p, acc => (acc, p)
  | fuel + 1, p, acc =>
    if ¬ atLineEnd p then
      if p.current.type = .word ∨ p.current.type = .strLit then
        let key := stripQuotes1 p.current.literal
        let p := advanceP p
        let (value, p) :=
          if p.current.type = .equals then
            let p := advanceP p
            if p.current.type = .word ∨ p.current.type = .strLit then
              (stripQuotes1 p.current.literal, advanceP p)
            else ([], p)
          else ([], p)
        labelLoopF fuel p (acc ++ [⟨key, value⟩])
      else labelLoopF fuel (advanceP p) acc
    else (acc, p)

/-- Go `parseLabel`. -/
def parseLabel (p : ParSt) : LabelI × ParSt :=
  let inst : LabelI := { startPos := p.current.pos }
  let p := advanceP p
  let (labels, p) := labelLoopF (pFuel p) p []
  let (ep, p) := eatLineEnd p
  ({ inst with labels := labels, endPos := ep }, p)

def exposeLoopF : Nat → ParSt → List PortSpec → List PortSpec × ParSt
  | 0, p, acc => (acc, p)
  | fuel + 1, p, acc =>
    if ¬ atLineEnd p then
      let acc :=
        if p.current.type = .word then
          let portStr := p.current.literal
          let port : PortSpec :=
            if strContainsSub portStr ['/'] then
              let parts := strSplitSub portStr ['/']
              ⟨parts.headI, if parts.length > 1 then parts.getD 1 [] else []⟩
            else ⟨portStr, []⟩
          acc ++ [port]
        else acc
      exposeLoopF fuel (advanceP p) acc
    else (acc, p)

/-- Go `parseExpose`. -/
def parseExpose (p : ParSt) : ExposeI × ParSt :=
  let inst : ExposeI := { startPos := p.current.pos }
  let p := advanceP p
  let (ports, p) := exposeLoopF (pFuel p) p []
  let (ep, p) := eatLineEnd p
  ({ inst with ports := ports, endPos := ep }, p)

def volumePathsF : Nat → ParSt → List Str → List Str × ParSt
  | 0, p, acc => (acc, p)
  | fuel + 1, p, acc =>
    if ¬ atLineEnd p then
      let acc :=
        if p.current.type = .word ∨ p.current.type = .strLit then
          acc ++ [stripQuotes1 p.current.literal]
        else acc
      volumePathsF fuel (advanceP p) acc
    else (acc, p)

/-- Go `parseVolume`. -/
def parseVolume (p : ParSt) : VolumeI × ParSt :=
  let inst : VolumeI := { startPos := p.current.pos }
  let p := advanceP p
  let (paths, p) :=
    if p.current.type = .lbracket then parseExecForm p
    else volumePathsF (pFuel p) p []
  let (ep, p) := eatLineEnd p
  ({ inst with paths := paths, endPos := ep }, p)

/-- Go `parseUser`. -/
def parseUser (p : ParSt) : UserI × ParSt :=
  let inst : UserI := { startPos := p.current.pos }
  let p := advanceP p
  let (inst, p) :=
    if p.current.type = .word ∨ p.current.type = .varLit then
      let ug := p.current.literal
      let inst :=
        if strContainsSub ug [':'] then
          let parts := strSplitFirst ug [':']
          { inst with user := parts.headI, group := parts.getD 1 [] }
        else { inst with user := ug }
      let p := advanceP p
      if p.current.type = .colon then
        let p := advanceP p
        if p.current.type = .word then
          ({ inst with group := p.current.literal }, advanceP p)
        else (inst, p)
      else (inst, p)
    else (inst, p)
  let p := drainLineF (pFuel p) p
  let (ep, p) := eatLineEnd p
  ({ inst with endPos := ep }, p)

def workdirPartsF : Nat → ParSt → Str → Str × ParSt
  | 0, p, acc => (acc, p)
  | fuel + 1, p, acc =>
    if ¬ atLineEnd p then
      let acc :=
        if p.current.type = .word ∨ p.current.type = .varLit ∨ p.current.type = .strLit then
          acc ++ p.current.literal
        else acc
      workdirPartsF fuel (advanceP p) acc
    else (acc, p)

/-- Go `parseWorkdir` (parts joined with the empty separator). -/
def parseWorkdir (p : ParSt) : WorkdirI × ParSt :=
  let inst : WorkdirI := { startPos := p.current.pos }
  let p := advanceP p
  let (path, p) := workdirPartsF (pFuel p) p []
  let (ep, p) := eatLineEnd p
  ({ inst with path := path, endPos := ep }, p)

/-- Go `parseShell`. -/
def parseShell (p : ParSt) : ShellI × ParSt :=
  let inst : ShellI := { startPos := p.current.pos }
  let p := advanceP p
  let (inst, p) :=
    if p.current.type = .lbracket then
      let (sh, p) := parseExecForm p
      ({ inst with shell := sh }, p)
    else (inst, p)
  let p := drainLineF (pFuel p) p
  let (ep, p) := eatLineEnd p
  ({ inst with endPos := ep }, p)

def healthFlagsF : Nat → ParSt → HealthI → HealthI × ParSt
  | 0, p, inst => (inst, p)
  | fuel + 1, p, inst =>
    if p.current.type = .flag then
      let fl := p.current.literal
      let inst :=
        if "--interval=".toList.isPrefixOf fl then
          { inst with interval := strTrimPre fl "--interval=".toList }
        else if "--timeout=".toList.isPrefixOf fl then
          { inst with timeout := strTrimPre fl "--timeout=".toList }
        else if "--start-period=".toList.isPrefixOf fl then
          { inst with startPeriod := strTrimPre fl "--start-period=".toList }
        else if "--retries=".toList.isPrefixOf fl then
          { inst with retries := strTrimPre fl "--retries=".toList }
        else inst
      healthFlagsF fuel (advanceP p) inst
    else (inst, p)

/-- Go `parseHealthcheck`. -/
def parseHealthcheck (p : ParSt) : HealthI × ParSt :=
  let inst : HealthI := { startPos := p.current.pos }
  let p := advanceP p
  let (inst, p) :=
    if p.current.type = .word ∧ strToUpper p.current.literal = "NONE".toList then
      ({ inst with isNone := true }, advanceP p)
    else
      let (inst, p) := healthFlagsF (pFuel p) p inst
      if p.current.type = .kwCmd ∨
          (p.current.type = .word ∧ strToUpper p.current.literal = "CMD".toList) then
        let p := advanceP p
        if p.current.type = .lbracket then
          let (args, p) := parseExecForm p
          ({ inst with isExec := true, args := args }, p)
        else
          let (cmd, p) := collectRestOfLine p
          ({ inst with command := cmd }, p)
      else (inst, p)
  let (ep, p) := eatLineEnd p
  ({ inst with endPos := ep }, p)

/-- Go `parseStopsignal`. -/
def parseStopsignal (p : ParSt) : StopI × ParSt :=
  let inst : StopI := { startPos := p.current.pos }
  let p := advanceP p
  let (inst, p) :=
    if p.current.type = .word then
      ({ inst with signal := p.current.literal }, advanceP p)
    else (inst, p)
  let p := drainLineF (pFuel p) p
  let (ep, p) := eatLineEnd p
  ({ inst with endPos := ep }, p)

/-- Go `parseMaintainer`. -/
def parseMaintainer (p : ParSt) : MaintainerI × ParSt :=
  let inst : MaintainerI := { startPos := p.current.pos }
  let p := advanceP p
  let (text, p) := collectRestOfLineRaw p
  let (ep, p) := eatLineEnd p
  ({ inst with maintainer := text, endPos := ep }, p)

def tokTypeName (t : TokType) : Str :=
  (match t with
  | .eof => "EOF" | .newline => "NEWLINE" | .comment => "COMMENT"
  | .whitespace => "WHITESPACE" | .kwFrom => "FROM" | .kwRun => "RUN"
  | .kwCmd => "CMD" | .kwLabel => "LABEL" | .kwMaintainer => "MAINTAINER"
  | .kwExpose => "EXPOSE" | .kwEnv => "ENV" | .kwAdd => "ADD"
  | .kwCopy => "COPY" | .kwEntrypoint => "ENTRYPOINT" | .kwVolume => "VOLUME"
  | .kwUser => "USER" | .kwWorkdir => "WORKDIR" | .kwArg => "ARG"
  | .kwOnbuild => "ONBUILD" | .kwStopsignal => "STOPSIGNAL"
  | .kwHealthcheck => "HEALTHCHECK" | .kwShell => "SHELL"
  | .strLit => "STRING" | .word => "WORD" | .varLit => "VARIABLE"
  | .heredoc => "HEREDOC" | .heredocStart => "HEREDOC_START"
  | .heredocEnd => "HEREDOC_END" | .equals => "EQUALS" | .colon => "COLON"
  | .atSign => "AT" | .comma => "COMMA" | .lbracket => "LEFT_BRACKET"
  | .rbracket => "RIGHT_BRACKET" | .backslash => "BACKSLASH"
  | .flag => "FLAG" | .escapeDirective => "ESCAPE_DIRECTIVE").toList

/-- Go `parseInstruction` / `parseOnbuild` (fuel for the ONBUILD nesting). -/
def parseInstructionF : Nat → ParSt → Option Instruction × ParSt
  | 0, p => (none, p)
  | fuel + 1, p =>
    match p.current.type with
    | .kwFrom => let (v, p) := parseFrom p; (some (.fromI v), p)
    | .kwRun => let (v, p) := parseRun p; (some (.runI v), p)
    | .kwCmd => let (v, p) := parseCmd p; (some (.cmdI v), p)
    | .kwEntrypoint => let (v, p) := parseEntrypoint p; (some (.entrypointI v), p)
    | .kwCopy => let (v, p) := parseCopy p; (some (.copyI v), p)
    | .kwAdd => let (v, p) := parseAdd p; (some (.addI v), p)
    | .kwEnv => let (v, p) := parseEnv p; (some (.envI v), p)
    | .kwArg => let (v, p) := parseArg p; (some (.argI v), p)
    | .kwLabel => let (v, p) := parseLabel p; (some (.labelI v), p)
    | .kwExpose => let (v, p) := parseExpose p; (some (.exposeI v), p)
    | .kwVolume => let (v, p) := parseVolume p; (some (.volumeI v), p)
    | .kwUser => let (v, p) := parseUser p; (some (.userI v), p)
    | .kwWorkdir => let (v, p) := parseWorkdir p; (some (.workdirI v), p)
    | .kwShell => let (v, p) := parseShell p; (some (.shellI v), p)
    | .kwHealthcheck => let (v, p) := parseHealthcheck p; (some (.healthcheckI v), p)
    | .kwStopsignal => let (v, p) := parseStopsignal p; (some (.stopsignalI v), p)
    | .kwOnbuild =>
      let startPos := p.current.pos
      let p := advanceP p
      let (inner, p) :=
        if p.current.isInstruction then parseInstructionF fuel p
        else if p.current.type = .word then
          let tt := lookupKeyword (strToUpper p.current.literal)
          if tt ≠ .word then
            parseInstructionF fuel { p with current := { p.current with type := tt } }
          else (none, p)
        else (none, p)
      (match inner with
       | some i => some (.onbuildI startPos p.current.pos i)
       | none => some (.onbuildEmptyI startPos p.current.pos), p)
    | .kwMaintainer => let (v, p) := parseMaintainer p; (some (.maintainerI v), p)
    | t =>
      let p := errorP p ("unexpected token: ".toList ++ tokTypeName t)
      (none, skipToNextInstructionF (pFuel p) p)

def stageLoopF : Nat → ParSt → Stage → Stage × ParSt
  | 0, p, st => (st, p)
  | fuel + 1, p, st =>
    if p.current.type ≠ .eof ∧ p.current.type ≠ .kwFrom then
      let (cs, p) := skipCommentsNewlinesF (pFuel p) p
      let st := { st with comments := st.comments ++ cs }
      if p.current.type = .eof ∨ p.current.type = .kwFrom then (st, p)
      else
        let (inst, p) := parseInstructionF (pFuel p) p
        match inst with
        | some i => stageLoopF fuel p { st with instructions := st.instructions ++ [i] }
        | none => stageLoopF fuel p st
    else (st, p)

/-- Go `parseStage`. -/
def parseStage (p : ParSt) : Stage × ParSt :=
  let st : Stage := { startPos := p.current.pos }
  let (fromInst, p) := parseFrom p
  let st := { st with fromI := fromInst, name := fromInst.asName }
  let (st, p) := stageLoopF (pFuel p) p st
  let st :=
    if st.instructions.length > 0 then
      { st with endPos := (st.instructions.getLast?.getD default).endP }
    else { st with endPos := st.fromI.endPos }
  (st, p)

def dockerfileLoopF : Nat → ParSt → Dockerfile → Dockerfile × ParSt
  | 0, p, df => (df, p)
  | fuel + 1, p, df =>
    if p.current.type ≠ .eof then
      if p.current.type = .kwFrom then
        let (st, p) := parseStage p
        dockerfileLoopF fuel p { df with stages := df.stages ++ [st] }
      else if p.current.type = .comment then
        let c : Comment := ⟨p.current.literal, p.current.pos, p.current.endPos⟩
        dockerfileLoopF fuel (advanceP p) { df with comments := df.comments ++ [c] }
      else if p.current.type = .newline then
        dockerfileLoopF fuel (advanceP p) df
      else
        let p := errorP p "instruction outside of build stage".toList
        dockerfileLoopF fuel (skipToNextInstructionF (pFuel p) p) df
    else (df, p)

/-- Go `ParseDockerfile`. -/
def parseDockerfile (p : ParSt) : Dockerfile × ParSt :=
  let df : Dockerfile := { escape := '\\' }
  let df := if p.tokens.length > 0 then
      { df with startPos := (p.tokens.headI).pos }
    else df
  let (df, p) :=
    if p.current.type = .escapeDirective then
      let text := p.current.literal
      let df :=
        match strIndexOfSub text ['='] with
        | none => df
        | some idx =>
          let rest := strTrimSpace (text.drop (idx + 1))
          if rest.length > 0 then { df with escape := rest.headI } else df
      (df, advanceP p)
    else (df, p)
  let (cs, p) := skipCommentsNewlinesF (pFuel p) p
  let df := { df with comments := cs }
  let (df, p) := dockerfileLoopF (pFuel p) p df
  let df := if p.tokens.length > 0 then
      { df with endPos := (p.tokens.getLast?.getD zeroToken).endPos }
    else df
  (df, p)

/-- Go `parser.Parse`. -/
def parse (input : Str) : Dockerfile × List ParseError :=
  let tokens := tokenize input
  let (df, p) := parseDockerfile (newPar tokens)
  (df, p.errors)

/-! ## Rewriter (unnamed optimizer rewriter.go) -/

def rwIndent : Str := "    ".toList

/-- Go `writeExecForm`. -/
def writeExecForm (args : List Str) : Str :=
  '[' :: strJoin (args.map (fun a => '"' :: a ++ ['"'])) ", ".toList ++ [']']

/-- Go `writeMultilineCommand`. -/
def writeMultilineCommand (cmd : Str) : Str :=
  let parts := strSplitSub cmd " && ".toList
  let parts :=
    if parts.length = 1 then
      let parts2 := strSplitSub cmd " \\\n".toList
      if parts2.length = 1 then none else some parts2
    else some parts
  match parts with
  | none => cmd
  | some parts =>
    strJoin (parts.map strTrimSpace) (" \\\n".toList ++ rwIndent ++ "&& ".toList)

/-- Go `writeFrom`. -/
def writeFrom (f : FromI) : Str :=
  "FROM ".toList ++
  (if f.platform ≠ [] then "--platform=".toList ++ f.platform ++ [' '] else []) ++
  f.image ++
  (if f.tag ≠ [] then ':' :: f.tag else []) ++
  (if f.digest ≠ [] then '@' :: f.digest else []) ++
  (if f.asName ≠ [] then " AS ".toList ++ f.asName else []) ++ ['\n']

/-- Go `writeRun` (note: the `--security` flag is not re-emitted). -/
def writeRun (r : RunI) : Str :=
  "RUN ".toList ++
  (if r.mount ≠ [] then "--mount=".toList ++ r.mount ++ [' '] else []) ++
  (if r.network ≠ [] then "--network=".toList ++ r.network ++ [' '] else []) ++
  (match r.heredoc with
   | some h => h.content
   | none =>
     if r.isExec then writeExecForm r.args
     else if strContainsSub r.command " && ".toList ∨
             strContainsSub r.command " \\\n".toList then
       writeMultilineCommand r.command
     else r.command) ++ ['\n']

def writeKVPairs (pairs : List KV) : Str :=
  strJoin (pairs.map (fun kv =>
    kv.key ++ ['='] ++
    (if strContainsSub kv.value [' '] then '"' :: kv.value ++ ['"'] else kv.value))) [' ']

/-- Go `writeInstruction` dispatch over all instruction variants. -/
def writeInstruction : Instruction → Str
  | .fromI _ => []
  | .runI r => writeRun r
  | .cmdI c =>
    "CMD ".toList ++ (if c.isExec then writeExecForm c.args else c.command) ++ ['\n']
  | .entrypointI e =>
    "ENTRYPOINT ".toList ++ (if e.isExec then writeExecForm e.args else e.command) ++ ['\n']
  | .copyI cp =>
    "COPY ".toList ++
    (if cp.fromS ≠ [] then "--from=".toList ++ cp.fromS ++ [' '] else []) ++
    (if cp.chown ≠ [] then "--chown=".toList ++ cp.chown ++ [' '] else []) ++
    (if cp.chmod ≠ [] then "--chmod=".toList ++ cp.chmod ++ [' '] else []) ++
    (if cp.link then "--link ".toList else []) ++
    (cp.sources.map (fun s => s ++ [' '])).flatten ++ cp.dest ++ ['\n']
  | .addI a =>
    "ADD ".toList ++
    (if a.chown ≠ [] then "--chown=".toList ++ a.chown ++ [' '] else []) ++
    (if a.chmod ≠ [] then "--chmod=".toList ++ a.chmod ++ [' '] else []) ++
    (if a.checksum ≠ [] then "--checksum=".toList ++ a.checksum ++ [' '] else []) ++
    (a.sources.map (fun s => s ++ [' '])).flatten ++ a.dest ++ ['\n']
  | .envI e => "ENV ".toList ++ writeKVPairs e.vars ++ ['\n']
  | .argI a =>
    "ARG ".toList ++ a.name ++
    (if a.hasDefault then '=' :: a.defaultValue else []) ++ ['\n']
  | .labelI l => "LABEL ".toList ++ writeKVPairs l.labels ++ ['\n']
  | .exposeI e =>
    "EXPOSE ".toList ++
    strJoin (e.ports.map (fun pt =>
      pt.port ++ (if pt.protocol ≠ [] then '/' :: pt.protocol else []))) [' '] ++ ['\n']
  | .volumeI v =>
    "VOLUME ".toList ++
    (if v.paths.length > 1 then writeExecForm v.paths
     else if v.paths.length = 1 then v.paths.headI else []) ++ ['\n']
  | .userI u =>
    "USER ".toList ++ u.user ++ (if u.group ≠ [] then ':' :: u.group else []) ++ ['\n']
  | .workdirI w => "WORKDIR ".toList ++ w.path ++ ['\n']
  | .shellI s => "SHELL ".toList ++ writeExecForm s.shell ++ ['\n']
  | .healthcheckI h =>
    "HEALTHCHECK ".toList ++
    (if h.isNone then "NONE\n".toList
     else
       (if h.interval ≠ [] then "--interval=".toList ++ h.interval ++ [' '] else []) ++
       (if h.timeout ≠ [] then "--timeout=".toList ++ h.timeout ++ [' '] else []) ++
       (if h.startPeriod ≠ [] then "--start-period=".toList ++ h.startPeriod ++ [' '] else []) ++
       (if h.retries ≠ [] then "--retries=".toList ++ h.retries ++ [' '] else []) ++
       "CMD ".toList ++ (if h.isExec then writeExecForm h.args else h.command) ++ ['\n'])
  | .stopsignalI s => "STOPSIGNAL ".toList ++ s.signal ++ ['\n']
  | .onbuildI _ _ inner =>
    "ONBUILD ".toList ++ (((writeInstruction inner).reverse.dropWhile (· = '\n')).reverse) ++ ['\n']
  | .onbuildEmptyI _ _ => "ONBUILD ".toList ++ ['\n']
  | .maintainerI m =>
    "LABEL maintainer=\"".toList ++ m.maintainer ++ "\"\n".toList

/-- Go `writeStage`. -/
def writeStage (st : Stage) : Str :=
  (st.comments.map (fun c => c.text ++ ['\n'])).flatten ++
  writeFrom st.fromI ++
  (st.instructions.map writeInstruction).flatten

/-- Go `Rewriter.Rewrite` with the default options. -/
def rewrite (df : Dockerfile) : Str :=
  (if df.escape ≠ '\\' ∧ df.escape ≠ nulChar then
    "# escape=".toList ++ [df.escape] ++ ['\n'] else []) ++
  (df.comments.map (fun c => c.text ++ ['\n'])).flatten ++
  (strJoin (df.stages.map writeStage) ['\n'])

/-- One pass of the pipeline named by the spec: parse then rewrite. -/
def rewriteOnce (s : Str) : Str := rewrite (parse s).1

/-! ## Diagnostics (internal/analyzer/diagnostic.go) -/

inductive Severity where
  | hint | info | warning | error
deriving DecidableEq, Repr, Inhabited

/-- The underlying Go integer of the `Severity` iota enum. -/
def Severity.toNat : Severity → Nat
  | .hint => 0 | .info => 1 | .warning => 2 | .error => 3

/-- Go `>=` on severities. -/
def sevGe (a b : Severity) : Bool := b.toNat ≤ a.toNat

inductive Category where
  | security | performance | bestpractice | style
deriving DecidableEq, Repr, Inhabited

structure Diagnostic where
  rule : Str
  category : Category
  severity : Severity := .warning
  message : Str := []
  pos : Pos := default
  endPos : Pos := default
  context : Str := []
  help : Str := []
  fixable : Bool := false
  fixSuggestion : Str := []
deriving DecidableEq, Repr, Inhabited

structure RuleContext where
  filename : Str
  source : Str
  sourceLines : List Str
  config : List (Str × Int)
deriving Repr, Inhabited

/-- Go `analyzer.splitLines`. -/
def splitLines (s : Str) : List Str :=
  if s = [] then []
  else
    let parts := s.splitOn '\n'
    if s.getLast? = some '\n' then parts.dropLast else parts

/-- Go `RuleContext.GetLine` (1-based). -/
def getLine (c : RuleContext) (n : Nat) : Str :=
  if n < 1 ∨ n > c.sourceLines.length then []
  else c.sourceLines.getD (n - 1) []

/-- A registered rule: the interface data plus its `Check` function. -/
structure GoRule where
  id : Str
  category : Category
  severity : Severity
  check : Dockerfile → RuleContext → List Diagnostic

def natToStr (n : Nat) : Str := Nat.toDigits 10 n

/-- Go `%q` formatting, restricted to strings without escapes. -/
def goQuo (s : Str) : Str := '"' :: s ++ ['"']

/-! ## Security rules (internal/rules/security and unnamed parts) -/

/-- Go `SEC001RootUser.Check`. -/
def sec001Check (df : Dockerfile) (ctx : RuleContext) : List Diagnostic :=
  if df.stages.length = 0 then []
  else
    let finalStage := df.stages.getLast?.getD default
    let st := finalStage.instructions.foldl
      (fun (acc : Bool × Bool × Pos) inst =>
        match inst with
        | .userI u => (true, u.user == "root".toList || u.user == "0".toList, u.startPos)
        | _ => acc) (false, false, default)
    if ¬ st.1 then
      [{ rule := "SEC001".toList, category := .security, severity := .error,
         message := "Container runs as root (no USER instruction found)".toList,
         pos := finalStage.fromI.startPos,
         context := getLine ctx finalStage.fromI.startPos.line,
         help := "Add a USER instruction to run as a non-root user, e.g., USER nobody".toList,
         fixable := true, fixSuggestion := "USER nobody".toList }]
    else if st.2.1 then
      [{ rule := "SEC001".toList, category := .security, severity := .error,
         message := "Container explicitly runs as root user".toList,
         pos := st.2.2, context := getLine ctx st.2.2.line,
         help := "Change to a non-root user for better security".toList }]
    else []

/-- Go `isSecretKey`: the secret-name regexps as substring/anchor tests. -/
def isSecretKey (key : Str) : Str :=
  let k := strToLower key
  if strContainsSub k "password".toList ∨ strContainsSub k "passwd".toList ∨
     strContainsSub k "pwd".toList then "password".toList
  else if strContainsSub k "secret".toList ∨ strContainsSub k "api_key".toList ∨
     strContainsSub k "apikey".toList ∨ strContainsSub k "auth_token".toList ∨
     strContainsSub k "authtoken".toList then "secret/API key".toList
  else if strContainsSub k "private_key".toList ∨ strContainsSub k "privatekey".toList ∨
     strContainsSub k "priv_key".toList ∨ strContainsSub k "privkey".toList then
    "private key".toList
  else if strContainsSub k "access_key".toList ∨ strContainsSub k "accesskey".toList ∨
     strContainsSub k "secret_key".toList ∨ strContainsSub k "secretkey".toList then
    "access key".toList
  else if strContainsSub k "cred".toList then "credentials".toList
  else if "token".toList.isSuffixOf k then "token".toList
  else if "aws_".toList.isPrefixOf k ∨ "azure_".toList.isPrefixOf k ∨
     "gcp_".toList.isPrefixOf k ∨ "github_".toList.isPrefixOf k ∨
     "gitlab_".toList.isPrefixOf k then "cloud/service credential".toList
  else []

/-- Go `SEC002SecretsEnv.Check`. -/
def sec002Check (df : Dockerfile) (ctx : RuleContext) : List Diagnostic :=
  (df.stages.map (fun stage =>
    (stage.instructions.map (fun inst =>
      match inst with
      | .envI v =>
        (v.vars.map (fun kv =>
          let sk := isSecretKey kv.key
          if sk ≠ [] then
            [{ rule := "SEC002".toList, category := .security, severity := .error,
               message := "ENV variable ".toList ++ goQuo kv.key ++
                 " appears to contain a ".toList ++ sk,
               pos := v.startPos, context := getLine ctx v.startPos.line,
               help := ("Use Docker secrets, BuildKit secrets (--mount=type=secret), " ++
                 "or runtime environment variables instead").toList }]
          else [])).flatten
      | .argI v =>
        let sk := isSecretKey v.name
        if sk ≠ [] then
          [{ rule := "SEC002".toList, category := .security, severity := .error,
             message := "ARG ".toList ++ goQuo v.name ++
               " appears to contain a ".toList ++ sk,
             pos := v.startPos, context := getLine ctx v.startPos.line,
             help := ("ARG values are visible in image history. " ++
               "Use BuildKit secrets (--mount=type=secret) instead").toList }]
        else []
      | _ => [])).flatten)).flatten

/-- Go `SEC003UnpinnedTag.Check`. -/
def sec003Check (df : Dockerfile) (ctx : RuleContext) : List Diagnostic :=
  (df.stages.map (fun stage =>
    let f := stage.fromI
    if f.image = "scratch".toList then []
    else if f.digest ≠ [] then []
    else if "$".toList.isPrefixOf f.image then []
    else if f.tag = [] ∨ f.tag = "latest".toList then
      [{ rule := "SEC003".toList, category := .security, severity := .error,
         message := (if f.tag = [] then
             "Base image has no tag (implicitly uses 'latest')"
           else "Base image uses 'latest' tag").toList,
         pos := f.startPos, context := getLine ctx f.startPos.line,
         help := "Pin to a specific version for reproducible builds, e.g., ".toList ++
           f.image ++ ":22.04 or use a digest".toList }]
    else [])).flatten

/-- RE2 `\s` character class. -/
def reIsSpace (c : Char) : Bool :=
  c = ' ' || c = '\t' || c = '\n' || c = '\x0c' || c = '\r' || c = '\x0b'

/-- Models `(curl|wget)\s+[^|]+\|\s*(sh|bash|zsh|dash|ksh)`. -/
def curlPipeMatch (s : Str) : Bool :=
  s.tails.any fun t =>
    ("curl".toList.isPrefixOf t || "wget".toList.isPrefixOf t) &&
    (let u := t.drop 4
     match u with
     | [] => false
     | c :: _ =>
       reIsSpace c &&
       match strIndexOfSub u ['|'] with
       | none => false
       | some k => decide (k ≥ 2) &&
         (let after := (u.drop (k + 1)).dropWhile reIsSpace
          "sh".toList.isPrefixOf after || "bash".toList.isPrefixOf after ||
          "zsh".toList.isPrefixOf after || "dash".toList.isPrefixOf after ||
          "ksh".toList.isPrefixOf after))

/-- One-or-more `\s` then a continuation test (`\s+` may absorb any run). -/
def wsThen (p : Str → Bool) : Str → Bool
  | [] => false
  | c :: rest => reIsSpace c && (p rest || wsThen p rest)

/-- Models `(bash|sh)\s+-c\s+["']?\$\((curl|wget)`. -/
def curlBashMatch (s : Str) : Bool :=
  s.tails.any fun t =>
    (("bash".toList.isPrefixOf t && bashRest (t.drop 4)) ||
     ("sh".toList.isPrefixOf t && bashRest (t.drop 2)))
where bashRest (u : Str) : Bool :=
  wsThen (fun r =>
    "-c".toList.isPrefixOf r &&
    wsThen (fun r2 =>
      let r3 := if r2.headI = '"' ∨ r2.headI = '\'' then r2.drop 1 else r2
      "$(curl".toList.isPrefixOf r3 || "$(wget".toList.isPrefixOf r3) (r.drop 2)) u

/-- Models `(bash|sh)\s+<\(\s*(curl|wget)`. -/
def curlBashMatch2 (s : Str) : Bool :=
  s.tails.any fun t =>
    (("bash".toList.isPrefixOf t && procRest (t.drop 4)) ||
     ("sh".toList.isPrefixOf t && procRest (t.drop 2)))
where procRest (u : Str) : Bool :=
  wsThen (fun r =>
    "<(".toList.isPrefixOf r &&
    (let r2 := (r.drop 2).dropWhile reIsSpace
     "curl".toList.isPrefixOf r2 || "wget".toList.isPrefixOf r2)) u

/-- Go `isCurlPipe`. -/
def isCurlPipe (cmd : Str) : Bool :=
  let parts := strSplitSub cmd ['|']
  if parts.length < 2 then false
  else
    (List.range (parts.length - 1)).any fun i =>
      let left := strTrimSpace (parts.getD i [])
      let right := strTrimSpace (parts.getD (i + 1) [])
      (strContainsSub left "curl".toList || strContainsSub left "wget".toList) &&
      ["sh", "bash", "zsh", "dash", "ksh"].any fun sh =>
        sh.toList.isPrefixOf right || right == sh.toList

/-- The shell command a RUN-inspecting rule looks at (heredoc content wins). -/
def runCmdOf (r : RunI) : Str :=
  match r.heredoc with
  | some h => h.content
  | none => r.command

/-- Go `SEC004CurlPipe.Check`. -/
def sec004Check (df : Dockerfile) (ctx : RuleContext) : List Diagnostic :=
  (df.stages.map (fun stage =>
    (stage.instructions.map (fun inst =>
      match inst with
      | .runI run =>
        let cmd := runCmdOf run
        if curlPipeMatch cmd ∨ curlBashMatch cmd ∨ curlBashMatch2 cmd ∨
           isCurlPipe cmd then
          [{ rule := "SEC004".toList, category := .security, severity := .warning,
             message := "curl/wget output piped directly to shell".toList,
             pos := run.startPos, context := getLine ctx run.startPos.line,
             help := ("Download the script first, verify its checksum, then execute. " ++
               "Example: curl -o script.sh URL && sha256sum -c script.sha256 && " ++
               "sh script.sh").toList }]
        else []
      | _ => [])).flatten)).flatten

/-- Go `containsSudo`. -/
def containsSudo (cmd : Str) : Bool :=
  (strFieldsBy (fun c =>
    c = ' ' || c = '\t' || c = ';' || c = '&' || c = '|' || c = '\n') cmd).any
    (· == "sudo".toList)

/-- Go `SEC005Sudo.Check`. -/
def sec005Check (df : Dockerfile) (ctx : RuleContext) : List Diagnostic :=
  (df.stages.map (fun stage =>
    (stage.instructions.map (fun inst =>
      match inst with
      | .runI run =>
        if containsSudo (runCmdOf run) then
          [{ rule := "SEC005".toList, category := .security, severity := .warning,
             message := "sudo usage detected in RUN instruction".toList,
             pos := run.startPos, context := getLine ctx run.startPos.line,
             help := ("Remove sudo - RUN commands execute as root by default. " ++
               "If you need to run as non-root, use USER instruction.").toList }]
        else []
      | _ => [])).flatten)).flatten

/-- Go `filepath.Base`. -/
def filepathBase (p : Str) : Str :=
  if p = [] then ['.']
  else
    let q := (p.reverse.dropWhile (· = '/')).reverse
    if q = [] then ['/']
    else
      match strIndexOfSub q.reverse ['/'] with
      | none => q
      | some k => (q.reverse.take k).reverse

/-- Go `filepath.Match` for the subset of glob syntax used by SEC006
(`*` matches any run of non-separator characters; no classes or escapes). -/
def matchGlobF : Nat → Str → Str → Bool
  | 0, _, _ => false
  | fuel + 1, pat, name =>
    match pat, name with
    | [], [] => true
    | [], _ :: _ => false
    | '*' :: ps, [] => matchGlobF fuel ps []
    | '*' :: ps, c :: ns =>
      matchGlobF fuel ps (c :: ns) || (c != '/' && matchGlobF fuel ('*' :: ps) ns)
    | p :: ps, c :: ns => p == c && matchGlobF fuel ps ns
    | _ :: _, [] => false

def matchGlob (pat name : Str) : Bool :=
  matchGlobF (pat.length + name.length + 1) pat name

def sensitivePatterns : List (Str × Str) :=
  [(".env", "environment file"), (".env.*", "environment file"),
   ("*.pem", "PEM certificate/key"), ("*.key", "private key"),
   ("*.p12", "PKCS12 certificate"), ("*.pfx", "PKCS12 certificate"),
   ("id_rsa", "SSH private key"), ("id_dsa", "SSH private key"),
   ("id_ecdsa", "SSH private key"), ("id_ed25519", "SSH private key"),
   (".ssh/*", "SSH files"), (".git/*", "Git repository"),
   (".gitconfig", "Git config"), ("*.log", "log file"),
   (".dockerenv", "Docker environment"),
   ("docker-compose*.yml", "Docker Compose file"),
   ("docker-compose*.yaml", "Docker Compose file"),
   (".aws/*", "AWS credentials"), (".kube/*", "Kubernetes config"),
   ("credentials.json", "credentials file"), ("secrets.json", "secrets file"),
   ("*.secret", "secret file"), (".npmrc", "NPM config (may contain tokens)"),
   (".pypirc", "PyPI config (may contain tokens)")].map
    (fun pr => (pr.1.toList, pr.2.toList))

/-- Go `isSensitiveFile`. -/
def isSensitiveFile (path : Str) : Option Str :=
  let base := filepathBase path
  (sensitivePatterns.find? (fun pr =>
    matchGlob pr.1 base || strContainsSub path (strTrimPre pr.1 ['*']))).map (·.2)

/-- Go `SEC006SensitiveFiles.Check`. -/
def sec006Check (df : Dockerfile) (ctx : RuleContext) : List Diagnostic :=
  (df.stages.map (fun stage =>
    (stage.instructions.map (fun inst =>
      let srcPos : Option (List Str × Pos) :=
        match inst with
        | .copyI v => some (v.sources, v.startPos)
        | .addI v => some (v.sources, v.startPos)
        | _ => none
      match srcPos with
      | none => []
      | some (sources, pos) =>
        (sources.map (fun src =>
          match isSensitiveFile src with
          | some desc =>
            [{ rule := "SEC006".toList, category := .security, severity := .error,
               message := "Copying ".toList ++ src ++ " (".toList ++ desc ++
                 ") into image".toList,
               pos := pos, context := getLine ctx pos.line,
               help := ("Add this file to .dockerignore or use Docker secrets/" ++
                 "BuildKit secrets for sensitive data").toList }]
          | none => [])).flatten)).flatten)).flatten

/-- Go `isRemoteURL` (SEC007). -/
def isRemoteURL (s : Str) : Bool :=
  let l := strToLower s
  "http://".toList.isPrefixOf l || "https://".toList.isPrefixOf l ||
  "ftp://".toList.isPrefixOf l

/-- Go `SEC007AddRemote.Check`. -/
def sec007Check (df : Dockerfile) (ctx : RuleContext) : List Diagnostic :=
  (df.stages.map (fun stage =>
    (stage.instructions.map (fun inst =>
      match inst with
      | .addI a =>
        (a.sources.map (fun src =>
          if isRemoteURL src ∧ a.checksum = [] then
            [{ rule := "SEC007".toList, category := .security, severity := .warning,
               message := "ADD fetches remote URL ".toList ++ goQuo src ++
                 " without checksum verification".toList,
               pos := a.startPos, context := getLine ctx a.startPos.line,
               help := ("Use ADD --checksum=sha256:... or prefer: RUN curl -o file URL " ++
                 "&& echo 'CHECKSUM file' | sha256sum -c -").toList }]
          else [])).flatten
      | _ => [])).flatten)).flatten

/-- Go `SEC008Healthcheck.Check`. -/
def sec008Check (df : Dockerfile) (ctx : RuleContext) : List Diagnostic :=
  if df.stages.length = 0 then []
  else
    let finalStage := df.stages.getLast?.getD default
    let hasHealthcheck := df.stages.any fun stage =>
      stage.instructions.any fun inst =>
        match inst with
        | .healthcheckI h => !h.isNone
        | _ => false
    if ¬ hasHealthcheck then
      [{ rule := "SEC008".toList, category := .security, severity := .info,
         message := "No HEALTHCHECK instruction found".toList,
         pos := finalStage.fromI.startPos,
         context := getLine ctx finalStage.fromI.startPos.line,
         help := ("Add a HEALTHCHECK instruction, e.g., HEALTHCHECK CMD " ++
           "curl -f http://localhost/ || exit 1").toList,
         fixable := true,
         fixSuggestion := ("HEALTHCHECK --interval=30s --timeout=10s " ++
           "--start-period=5s --retries=3 CMD curl -f http://localhost/ || " ++
           "exit 1").toList }]
    else []

/-- Go `SEC009PrivilegedPorts.Check`. -/
def sec009Check (df : Dockerfile) (ctx : RuleContext) : List Diagnostic :=
  (df.stages.map (fun stage =>
    (stage.instructions.map (fun inst =>
      match inst with
      | .exposeI e =>
        (e.ports.map (fun port =>
          if port.isPrivilegedPort then
            [{ rule := "SEC009".toList, category := .security, severity := .info,
               message := "Exposing privileged port ".toList ++ port.port,
               pos := e.startPos, context := getLine ctx e.startPos.line,
               help := ("Privileged ports require root. Consider using an unprivileged " ++
                 "port (>= 1024) and mapping it at runtime with -p 80:8080").toList }]
          else [])).flatten
      | _ => [])).flatten)).flatten

/-- Go `hasExecutePermission` (SEC010). -/
def hasExecutePermission (chmod : Str) : Bool :=
  (decide (chmod.length ≥ 3) &&
    chmod.any (fun c => decide ('0' ≤ c) && decide (c ≤ '7') &&
      decide ((c.toNat - '0'.toNat) % 2 = 1))) ||
  strContainsSub chmod "+x".toList || strContainsSub chmod "=x".toList

/-- Go `SEC010ChmodExecutable.Check`. -/
def sec010Check (df : Dockerfile) (ctx : RuleContext) : List Diagnostic :=
  (df.stages.map (fun stage =>
    (stage.instructions.map (fun inst =>
      let chmodPos : Option (Str × Pos) :=
        match inst with
        | .copyI v => some (v.chmod, v.startPos)
        | .addI v => some (v.chmod, v.startPos)
        | _ => none
      match chmodPos with
      | none => []
      | some (chmod, pos) =>
        if chmod = [] then []
        else if hasExecutePermission chmod then
          [{ rule := "SEC010".toList, category := .security, severity := .info,
             message := "--chmod=".toList ++ chmod ++
               " grants execute permissions".toList,
             pos := pos, context := getLine ctx pos.line,
             help := ("Ensure execute permissions are intentional. Only scripts " ++
               "and binaries should be executable.").toList }]
        else [])).flatten)).flatten

/-! ## Performance rules (internal/rules/performance and unnamed parts) -/

/-- Go `isDependencyInstall` (PERF001). -/
def isDependencyInstall (cmd : Str) : Bool :=
  ["npm install", "npm ci", "yarn install", "yarn add",
   "pip install", "pip3 install", "go mod download", "go get",
   "bundle install", "gem install", "composer install", "cargo fetch",
   "apt-get install", "apt install", "apk add", "yum install",
   "dnf install"].any fun pat => strContainsSub cmd pat.toList

/-- Go `isBroadCopy` (PERF001). -/
def isBroadCopy (sources : List Str) : Bool :=
  sources.any fun src =>
    src == ".".toList || src == "./".toList || src == "*".toList || src == "./*".toList

/-- Go `PERF001CopyOrder.Check`. -/
def perf001Check (df : Dockerfile) (ctx : RuleContext) : List Diagnostic :=
  (df.stages.map (fun stage =>
    let step := fun (acc : Option CopyI × Bool × List Diagnostic) inst =>
      let (broadCopy, hadInstall, diags) := acc
      match inst with
      | .copyI v =>
        if isBroadCopy v.sources ∧ ¬ hadInstall then (some v, hadInstall, diags)
        else (broadCopy, hadInstall, diags)
      | .runI run =>
        if isDependencyInstall run.command then
          match broadCopy with
          | some bc =>
            (none, true, diags ++
              [{ rule := "PERF001".toList, category := .performance,
                 severity := .warning,
                 message := ("Broad COPY before dependency install invalidates " ++
                   "cache on any file change").toList,
                 pos := bc.startPos, context := getLine ctx bc.startPos.line,
                 help := ("Copy only dependency files first (package.json, " ++
                   "requirements.txt, go.mod, etc.), run install, then COPY " ++
                   "the rest").toList }])
          | none => (broadCopy, true, diags)
        else (broadCopy, hadInstall, diags)
      | _ => acc
    (stage.instructions.foldl step (none, false, [])).2.2)).flatten

def buildTools : List Str :=
  ["gcc", "g++", "make", "cmake", "cargo", "rustc",
   "go build", "go install", "go mod", "npm run build", "yarn build",
   "mvn ", "gradle ", "./gradlew", "dotnet build", "dotnet publish"].map
    String.toList

def buildImages : List Str :=
  ["golang", "rust", "node", "maven", "gradle", "dotnet/sdk"].map String.toList

/-- Go `PERF002MultiStage.Check`. -/
def perf002Check (df : Dockerfile) (ctx : RuleContext) : List Diagnostic :=
  if df.stages.length ≠ 1 then []
  else
    let stage := df.stages.headI
    let isBuildImage := buildImages.any fun img =>
      strContainsSub (strToLower stage.fromI.image) img
    let st := stage.instructions.foldl
      (fun (acc : Bool × Pos) inst =>
        match inst with
        | .runI run =>
          if buildTools.any (fun tool => strContainsSub run.command tool) then
            (true, run.startPos)
          else acc
        | _ => acc) (false, default)
    if isBuildImage ∧ st.1 then
      [{ rule := "PERF002".toList, category := .performance, severity := .warning,
         message := "Single-stage build with build tools will produce a large image".toList,
         pos := st.2, context := getLine ctx st.2.line,
         help := ("Use multi-stage build: build in one stage, copy only the artifact " ++
           "to a minimal base image (e.g., alpine, distroless)").toList }]
    else []

def packageManagers : List (Str × List Str) :=
  [("apt-get install", ["rm -rf /var/lib/apt/lists/*", "apt-get clean"]),
   ("apt install", ["rm -rf /var/lib/apt/lists/*", "apt-get clean"]),
   ("apk add", ["--no-cache", "rm -rf /var/cache/apk/*"]),
   ("yum install", ["yum clean all", "rm -rf /var/cache/yum"]),
   ("dnf install", ["dnf clean all"]),
   ("pip install", ["--no-cache-dir", "rm -rf ~/.cache/pip"]),
   ("pip3 install", ["--no-cache-dir", "rm -rf ~/.cache/pip"]),
   ("npm install", ["npm cache clean", "rm -rf ~/.npm"]),
   ("yarn", ["yarn cache clean"])].map
    (fun pr => (pr.1.toList, pr.2.map String.toList))

/-- Go `PERF003CacheCleanup.Check`. -/
def perf003Check (df : Dockerfile) (ctx : RuleContext) : List Diagnostic :=
  (df.stages.map (fun stage =>
    (stage.instructions.map (fun inst =>
      match inst with
      | .runI run =>
        let cmd := runCmdOf run
        (packageManagers.map (fun pm =>
          if strContainsSub cmd pm.1 then
            if ¬ (pm.2.any fun cl => strContainsSub cmd cl) then
              [{ rule := "PERF003".toList, category := .performance,
                 severity := .warning,
                 message := "Package manager cache not cleaned after ".toList ++ pm.1,
                 pos := run.startPos, context := getLine ctx run.startPos.line,
                 help := "Add cache cleanup in the same RUN instruction: ".toList ++
                   strJoin pm.2 " or ".toList }]
            else []
          else [])).flatten
      | _ => [])).flatten)).flatten

/-- Go `reportConsecutiveRuns` (PERF004). -/
def reportConsecutiveRuns (runs : List RunI) (ctx : RuleContext) : List Diagnostic :=
  if runs.length < 2 then []
  else
    let firstRun := runs.headI
    let lastRun := runs.getLast?.getD default
    [{ rule := "PERF004".toList, category := .performance, severity := .warning,
       message := natToStr runs.length ++
         " consecutive RUN instructions could be merged".toList,
       pos := firstRun.startPos, endPos := lastRun.endPos,
       context := getLine ctx firstRun.startPos.line,
       help := "Merge into a single RUN with && between commands to reduce layers".toList,
       fixable := true, fixSuggestion := "merge-run".toList }]

/-- Go `PERF004ConsecutiveRun.Check`. -/
def perf004Check (df : Dockerfile) (ctx : RuleContext) : List Diagnostic :=
  let threshold : Int := ((ctx.config.find? (fun kv => kv.1 = "max_consecutive".toList)).map
    (·.2)).getD 2
  (df.stages.map (fun stage =>
    let st := stage.instructions.foldl
      (fun (acc : List RunI × List Diagnostic) inst =>
        match inst with
        | .runI run => (acc.1 ++ [run], acc.2)
        | _ =>
          if (acc.1.length : Int) ≥ threshold then
            ([], acc.2 ++ reportConsecutiveRuns acc.1 ctx)
          else ([], acc.2)) ([], [])
    if (st.1.length : Int) ≥ threshold then
      st.2 ++ reportConsecutiveRuns st.1 ctx
    else st.2)).flatten

/-- Go `PERF005NoInstallRecommends.Check`. -/
def perf005Check (df : Dockerfile) (ctx : RuleContext) : List Diagnostic :=
  (df.stages.map (fun stage =>
    (stage.instructions.map (fun inst =>
      match inst with
      | .runI run =>
        let cmd := runCmdOf run
        (if strContainsSub cmd "apt-get install".toList ∧
            ¬ strContainsSub cmd "--no-install-recommends".toList then
          [{ rule := "PERF005".toList, category := .performance, severity := .info,
             message := "apt-get install without --no-install-recommends".toList,
             pos := run.startPos, context := getLine ctx run.startPos.line,
             help := ("Add --no-install-recommends to avoid installing unnecessary " ++
               "packages: apt-get install --no-install-recommends").toList }]
        else []) ++
        (if strContainsSub cmd "apt install".toList ∧
            ¬ strContainsSub cmd "--no-install-recommends".toList then
          [{ rule := "PERF005".toList, category := .performance, severity := .info,
             message := "apt install without --no-install-recommends".toList,
             pos := run.startPos, context := getLine ctx run.startPos.line,
             help := ("Add --no-install-recommends to avoid installing unnecessary " ++
               "packages").toList }]
        else [])
      | _ => [])).flatten)).flatten

def archiveExts : List Str :=
  [".tar", ".tar.gz", ".tgz", ".tar.bz2", ".tar.xz", ".zip"].map String.toList

/-- Go `containsArchiveExt` (PERF006). -/
def containsArchiveExt (s : Str) : Bool :=
  archiveExts.any fun ext => strContainsSub s ext

def extAtStart (v : Str) : Bool := archiveExts.any fun ext => ext.isPrefixOf v

/-- A `[^\n]*` scan ending at an archive extension. -/
def noNlThenExt : Str → Bool
  | [] => false
  | c :: rest => extAtStart (c :: rest) || (c != '\n' && noNlThenExt rest)

/-- Models `(curl|wget)\s+.*\.(tar|tar\.gz|tgz|tar\.bz2|tar\.xz|zip)`. -/
def downloadMatch (s : Str) : Bool :=
  s.tails.any fun t =>
    ("curl".toList.isPrefixOf t || "wget".toList.isPrefixOf t) &&
    wsThen noNlThenExt (t.drop 4)

/-- Models `(tar\s+(-x|x)|unzip|gunzip)`. -/
def extractMatch (s : Str) : Bool :=
  s.tails.any (fun t =>
    "tar".toList.isPrefixOf t &&
    wsThen (fun r => "-x".toList.isPrefixOf r || "x".toList.isPrefixOf r) (t.drop 3)) ||
  strContainsSub s "unzip".toList || strContainsSub s "gunzip".toList

/-- Go `PERF006SeparateDownload.Check`. -/
def perf006Check (df : Dockerfile) (ctx : RuleContext) : List Diagnostic :=
  (df.stages.map (fun stage =>
    let step := fun (acc : Option RunI × List Diagnostic) inst =>
      match inst with
      | .runI run =>
        let cmd := runCmdOf run
        let hasDownload := downloadMatch cmd ||
          (strContainsSub cmd "curl".toList && containsArchiveExt cmd)
        let hasExtract := extractMatch cmd
        if hasDownload ∧ ¬ hasExtract then (some run, acc.2)
        else if hasExtract then
          match acc.1 with
          | some dl =>
            (none, acc.2 ++
              [{ rule := "PERF006".toList, category := .performance, severity := .info,
                 message := "Download and extract are in separate RUN instructions".toList,
                 pos := dl.startPos, context := getLine ctx dl.startPos.line,
                 help := ("Combine download and extract in the same RUN instruction, " ++
                   "then remove the archive: curl -o file.tar.gz URL && " ++
                   "tar xf file.tar.gz && rm file.tar.gz").toList }])
          | none => acc
        else acc
      | _ => acc
    (stage.instructions.foldl step (none, [])).2)).flatten

/-! ## Best-practice and style rules -/

def recommendedLabels : List Str := ["maintainer", "version", "description"].map String.toList

/-- Go `ociLabelMapping` (BP001). -/
def ociVariantsOf (rec : Str) : List Str :=
  if rec = "maintainer".toList then
    ["org.opencontainers.image.authors".toList, "maintainer".toList]
  else if rec = "version".toList then
    ["org.opencontainers.image.version".toList, "version".toList]
  else if rec = "description".toList then
    ["org.opencontainers.image.description".toList, "description".toList]
  else []

/-- Go `BP001MissingLabels.Check`. -/
def bp001Check (df : Dockerfile) (_ctx : RuleContext) : List Diagnostic :=
  if df.stages.length = 0 then []
  else
    let finalStage := df.stages.getLast?.getD default
    let labels := (finalStage.instructions.map (fun inst =>
      match inst with
      | .labelI l => l.labels.map (fun kv => strToLower kv.key)
      | _ => [])).flatten
    let missing := recommendedLabels.filter fun rec =>
      ¬ ((ociVariantsOf rec).any fun variant => labels.contains (strToLower variant))
    if missing.length > 0 then
      [{ rule := "BP001".toList, category := .bestpractice, severity := .info,
         message := "Missing recommended labels: ".toList ++
           strJoin missing ", ".toList,
         pos := finalStage.fromI.startPos,
         help := ("Add LABEL instructions, e.g., LABEL maintainer=\"you@example.com\" " ++
           "version=\"1.0\" description=\"My app\"").toList }]
    else []

/-- Go `isURL` (BP002). -/
def isURLBp (s : Str) : Bool :=
  decide (s.length > 7) &&
  (s.take 7 == "http://".toList || s.take 8 == "https://".toList ||
   s.take 6 == "ftp://".toList)

/-- Go `isTarFile` (BP002). -/
def isTarFile (s : Str) : Bool :=
  [".tar", ".tar.gz", ".tgz", ".tar.bz2", ".tar.xz", ".txz"].any fun suf =>
    suf.toList.isSuffixOf s

/-- Go `BP002AddVsCopy.Check`. -/
def bp002Check (df : Dockerfile) (ctx : RuleContext) : List Diagnostic :=
  (df.stages.map (fun stage =>
    (stage.instructions.map (fun inst =>
      match inst with
      | .addI a =>
        let needsAdd := a.sources.any fun src => isURLBp src || isTarFile src
        if ¬ needsAdd then
          [{ rule := "BP002".toList, category := .bestpractice, severity := .warning,
             message := "ADD is used where COPY would suffice".toList,
             pos := a.startPos, context := getLine ctx a.startPos.line,
             help := ("Use COPY for simple file copies. ADD should only be used " ++
               "for URLs or tar extraction.").toList,
             fixable := true, fixSuggestion := "COPY".toList }]
        else []
      | _ => [])).flatten)).flatten

/-- Go `BP003MultipleCmd.Check`. -/
def bp003Check (df : Dockerfile) (ctx : RuleContext) : List Diagnostic :=
  (df.stages.map (fun stage =>
    let cmds := stage.instructions.filterMap (fun inst =>
      match inst with
      | .cmdI c => some c
      | _ => none)
    if cmds.length > 1 then
      cmds.dropLast.map (fun c =>
        { rule := "BP003".toList, category := .bestpractice, severity := .warning,
          message := "This CMD instruction is overridden by a later CMD".toList,
          pos := c.startPos, context := getLine ctx c.startPos.line,
          help := ("Remove this CMD or combine the commands. Only the last CMD " ++
            "takes effect.").toList })
    else [])).flatten

/-- Go `BP004DeprecatedMaintainer.Check`. -/
def bp004Check (df : Dockerfile) (ctx : RuleContext) : List Diagnostic :=
  (df.stages.map (fun stage =>
    (stage.instructions.map (fun inst =>
      match inst with
      | .maintainerI m =>
        [{ rule := "BP004".toList, category := .bestpractice, severity := .warning,
           message := "MAINTAINER instruction is deprecated".toList,
           pos := m.startPos, context := getLine ctx m.startPos.line,
           help := "Use LABEL instead: LABEL maintainer=\"".toList ++
             m.maintainer ++ "\"".toList,
           fixable := true,
           fixSuggestion := "LABEL maintainer=\"".toList ++ m.maintainer ++ "\"".toList }]
      | _ => [])).flatten)).flatten

/-- Go `BP005WorkdirAbsolute.Check`. -/
def bp005Check (df : Dockerfile) (ctx : RuleContext) : List Diagnostic :=
  (df.stages.map (fun stage =>
    (stage.instructions.map (fun inst =>
      match inst with
      | .workdirI wd =>
        if "$".toList.isPrefixOf wd.path then []
        else if ¬ "/".toList.isPrefixOf wd.path then
          [{ rule := "BP005".toList, category := .bestpractice, severity := .warning,
             message := "WORKDIR uses relative path: ".toList ++ wd.path,
             pos := wd.startPos, context := getLine ctx wd.startPos.line,
             help := "Use an absolute path for WORKDIR: WORKDIR /".toList ++ wd.path,
             fixable := true, fixSuggestion := "WORKDIR /".toList ++ wd.path }]
        else []
      | _ => [])).flatten)).flatten

/-- Go `isDockerInstruction` (STY001). -/
def isDockerInstruction (s : Str) : Bool :=
  ["FROM", "RUN", "CMD", "LABEL", "MAINTAINER", "EXPOSE", "ENV", "ADD",
   "COPY", "ENTRYPOINT", "VOLUME", "USER", "WORKDIR", "ARG", "ONBUILD",
   "STOPSIGNAL", "HEALTHCHECK", "SHELL"].any fun k => s == k.toList

/-- Go `STY001InstructionCase.Check`. -/
def sty001Check (_df : Dockerfile) (ctx : RuleContext) : List Diagnostic :=
  ((ctx.sourceLines.enum.map (fun pr =>
    let lineNum := pr.1
    let line := pr.2
    let trimmed := strTrimSpace line
    if trimmed = [] ∨ "#".toList.isPrefixOf trimmed then []
    else
      let parts := strFieldsBy goIsSpace trimmed
      if parts.length = 0 then []
      else
        let instr := parts.headI
        if ¬ isDockerInstruction (strToUpper instr) then []
        else if instr ≠ strToUpper instr then
          [{ rule := "STY001".toList, category := .style, severity := .hint,
             message := "Instruction '".toList ++ instr ++
               "' should be uppercase: '".toList ++ strToUpper instr ++ "'".toList,
             pos := ⟨lineNum + 1, 1, 0⟩, context := line,
             help := "Use uppercase for Dockerfile instructions: ".toList ++
               strToUpper instr,
             fixable := true, fixSuggestion := strToUpper instr }]
        else [])).flatten)

/-! ## Analyzer (internal/analyzer/analyzer.go) -/

structure Analyzer where
  rules : List GoRule := []
  enabled : List Str := []
  disabled : List Str := []
  minSeverity : Severity := .warning
  config : List (Str × List (Str × Int)) := []
  parallelRules : Bool := false
  maxWorkers : Int := 0

/-- Go `analyzer.New`: defaults (minimum severity warning) then the options. -/
def analyzerNew (opts : List (Analyzer → Analyzer)) : Analyzer :=
  opts.foldl (fun a o => o a) {}

def withRules (rs : List GoRule) : Analyzer → Analyzer :=
  fun a => { a with rules := a.rules ++ rs }

def withEnabled (ids : List Str) : Analyzer → Analyzer :=
  fun a => { a with enabled := a.enabled ++ ids }

def withDisabled (ids : List Str) : Analyzer → Analyzer :=
  fun a => { a with disabled := a.disabled ++ ids }

def withMinSeverity (s : Severity) : Analyzer → Analyzer :=
  fun a => { a with minSeverity := s }

def withParallelRules (b : Bool) : Analyzer → Analyzer :=
  fun a => { a with parallelRules := b }

/-- Go `Analyzer.shouldRun`. -/
def shouldRun (a : Analyzer) (r : GoRule) : Bool :=
  if a.disabled.contains r.id then false
  else if a.enabled.length > 0 then a.enabled.contains r.id
  else true

/-- One rule's filtered diagnostics (fresh per-rule context, severity filter). -/
def ruleBatch (a : Analyzer) (df : Dockerfile) (filename source : Str)
    (sourceLines : List Str) (r : GoRule) : List Diagnostic :=
  let cfg := ((a.config.find? (fun kv => kv.1 = r.id)).map (·.2)).getD []
  let ctx : RuleContext := ⟨filename, source, sourceLines, cfg⟩
  (r.check df ctx).filter (fun d => sevGe d.severity a.minSeverity)

/-- Go `Analyzer.analyzeSequential` (aggregation before the final sort). -/
def analyzeSequential (a : Analyzer) (df : Dockerfile) (filename source : Str)
    (sourceLines : List Str) (rules : List GoRule) : List Diagnostic :=
  (rules.map (ruleBatch a df filename source sourceLines)).flatten

/-- Go `Analyzer.analyzeParallel`, modelled on an explicit completion order:
workers take rules from one channel and append each rule's non-empty filtered
batch under a mutex, so the aggregate is the concatenation of per-rule batches
in some scheduling-dependent permutation `order` of the rules. -/
def analyzeParallel (a : Analyzer) (df : Dockerfile) (filename source : Str)
    (sourceLines : List Str) (order : List GoRule) : List Diagnostic :=
  (((order.map (ruleBatch a df filename source sourceLines)).filter
    (fun b => b ≠ [])).flatten)

/-- The comparison closure passed to `sort.Slice` in `Analyze`. -/
def diagLess (x y : Diagnostic) : Bool :=
  if x.pos.line ≠ y.pos.line then decide (x.pos.line < y.pos.line)
  else decide (x.pos.column < y.pos.column)

def insertDiag (d : Diagnostic) : List Diagnostic → List Diagnostic
  | [] => [d]
  | e :: rest => if diagLess e d then e :: insertDiag d rest else d :: e :: rest

/-- Go's `sort.Slice` call, modelled as a comparison sort with the source's
comparator. It agrees with Go's sort on sortedness and membership for every
input, and element-for-element on the sizes arising in this file (Go uses
insertion sort below 12 elements); no stability of `sort.Slice` is assumed
anywhere. -/
def sortByPos : List Diagnostic → List Diagnostic
  | [] => []
  | d :: rest => insertDiag d (sortByPos rest)

structure AnalyzerResult where
  diagnostics : List Diagnostic
  filename : Str
deriving Repr, Inhabited

/-- Go `Analyzer.Analyze`; `order` is the parallel completion order (unused on
the sequential path, which Go takes when parallelism is off or ≤ 1 rule runs). -/
def analyze (a : Analyzer) (df : Dockerfile) (filename source : Str)
    (order : List GoRule) : AnalyzerResult :=
  let sourceLines := splitLines source
  let rulesToRun := a.rules.filter (shouldRun a)
  let diagnostics :=
    if a.parallelRules ∧ rulesToRun.length > 1 then
      analyzeParallel a df filename source sourceLines order
    else
      analyzeSequential a df filename source sourceLines rulesToRun
  ⟨sortByPos diagnostics, filename⟩

/-- Go `Analyzer.AnalyzeSource`. -/
def analyzeSource (a : Analyzer) (source filename : Str) :
    AnalyzerResult × List ParseError :=
  let (df, parseErrors) := parse source
  (analyze a df filename source [], parseErrors)

/-! ## The registered rule set (package init registration, as collected by
`lint.go`/`fix.go`: security, performance, bestpractice, style). -/

def sec001Rule : GoRule := ⟨"SEC001".toList, .security, .error, sec001Check⟩
def sec002Rule : GoRule := ⟨"SEC002".toList, .security, .error, sec002Check⟩
def sec003Rule : GoRule := ⟨"SEC003".toList, .security, .error, sec003Check⟩
def sec004Rule : GoRule := ⟨"SEC004".toList, .security, .warning, sec004Check⟩
def sec005Rule : GoRule := ⟨"SEC005".toList, .security, .warning, sec005Check⟩
def sec006Rule : GoRule := ⟨"SEC006".toList, .security, .error, sec006Check⟩
def sec007Rule : GoRule := ⟨"SEC007".toList, .security, .warning, sec007Check⟩
def sec008Rule : GoRule := ⟨"SEC008".toList, .security, .info, sec008Check⟩
def sec009Rule : GoRule := ⟨"SEC009".toList, .security, .info, sec009Check⟩
def sec010Rule : GoRule := ⟨"SEC010".toList, .security, .info, sec010Check⟩
def perf001Rule : GoRule := ⟨"PERF001".toList, .performance, .warning, perf001Check⟩
def perf002Rule : GoRule := ⟨"PERF002".toList, .performance, .warning, perf002Check⟩
def perf003Rule : GoRule := ⟨"PERF003".toList, .performance, .warning, perf003Check⟩
def perf004Rule : GoRule := ⟨"PERF004".toList, .performance, .warning, perf004Check⟩
def perf005Rule : GoRule := ⟨"PERF005".toList, .performance, .info, perf005Check⟩
def perf006Rule : GoRule := ⟨"PERF006".toList, .performance, .info, perf006Check⟩
def bp001Rule : GoRule := ⟨"BP001".toList, .bestpractice, .info, bp001Check⟩
def bp002Rule : GoRule := ⟨"BP002".toList, .bestpractice, .warning, bp002Check⟩
def bp003Rule : GoRule := ⟨"BP003".toList, .bestpractice, .warning, bp003Check⟩
def bp004Rule : GoRule := ⟨"BP004".toList, .bestpractice, .warning, bp004Check⟩
def bp005Rule : GoRule := ⟨"BP005".toList, .bestpractice, .warning, bp005Check⟩
def sty001Rule : GoRule := ⟨"STY001".toList, .style, .hint, sty001Check⟩

/-- `security.All() ++ performance.All() ++ bestpractice.All() ++ style.All()`
in package-init (file-name) order, as the lint and fix commands collect them. -/
def allRegisteredRules : List GoRule :=
  [sec001Rule, sec002Rule, sec003Rule, sec004Rule, sec005Rule, sec006Rule,
   sec007Rule, sec008Rule, sec009Rule, sec010Rule,
   perf001Rule, perf002Rule, perf003Rule, perf004Rule, perf005Rule, perf006Rule,
   bp001Rule, bp002Rule, bp003Rule, bp004Rule, bp005Rule, sty001Rule]

/-! ## Optimizer: the two merge-run implementations
(`internal/optimizer/optimizer.go` and the transforms-package duplicate). -/

/-- Go `canMergeRun` (identical in both files). -/
def canMergeRun (run : RunI) : Bool :=
  if run.heredoc ≠ none then false
  else if run.isExec then false
  else if run.mount ≠ [] then false
  else true

/-- Go `optimizer.mergeRuns`: commands trimmed, empties dropped, joined with
`" && "`. -/
def mergeRunsO (runs : List RunI) : RunI :=
  match runs with
  | [] => default
  | [r] => r
  | _ =>
    { startPos := runs.headI.startPos,
      endPos := (runs.getLast?.getD default).endPos,
      command := strJoin
        ((runs.map (fun r => strTrimSpace r.command)).filter (· ≠ []))
        " && ".toList }

/-- Go `transforms.mergeRuns`: same, but joined with `" \\\n    && "`. -/
def mergeRunsT (runs : List RunI) : RunI :=
  match runs with
  | [] => default
  | [r] => r
  | _ =>
    { startPos := runs.headI.startPos,
      endPos := (runs.getLast?.getD default).endPos,
      command := strJoin
        ((runs.map (fun r => strTrimSpace r.command)).filter (· ≠ []))
        " \\\n    && ".toList }

/-- `flushRunGroup` of the Go `mergeConsecutiveRuns` closures. -/
def flushRunGroup (mergeFn : List RunI → RunI)
    (result : List Instruction) (group : List RunI) (changed : Bool) :
    List Instruction × Bool :=
  match group with
  | [] => (result, changed)
  | [r] => (result ++ [.runI r], changed)
  | _ => (result ++ [.runI (mergeFn group)], true)

/-- The loop body of Go `mergeConsecutiveRuns`. -/
def mergeRunsLoop (mergeFn : List RunI → RunI) :
    List Instruction → List Instruction → List RunI → Bool →
    List Instruction × Bool
  | [], result, group, changed => flushRunGroup mergeFn result group changed
  | inst :: rest, result, group, changed =>
    match inst with
    | .runI run =>
      if canMergeRun run then
        mergeRunsLoop mergeFn rest result (group ++ [run]) changed
      else
        let (result, changed) := flushRunGroup mergeFn result group changed
        mergeRunsLoop mergeFn rest (result ++ [inst]) [] changed
    | _ =>
      let (result, changed) := flushRunGroup mergeFn result group changed
      mergeRunsLoop mergeFn rest (result ++ [inst]) [] changed

/-- Go `mergeConsecutiveRuns` (parameterized by the `mergeRuns` in scope). -/
def mergeConsecutiveRuns (mergeFn : List RunI → RunI)
    (instructions : List Instruction) : List Instruction × Bool :=
  if instructions.length < 2 then (instructions, false)
  else mergeRunsLoop mergeFn instructions [] [] false

/-- Go `optimizer.MergeRun.Transform` (the transform wired into
`optimizer.AllTransforms`, used by the fix command). -/
def mergeRunTransformO (df : Dockerfile) : Dockerfile × Bool :=
  let res := df.stages.map (fun st =>
    let (insts, ch) := mergeConsecutiveRuns mergeRunsO st.instructions
    ({ st with instructions := insts }, ch))
  ({ df with stages := res.map (·.1) }, res.any (·.2))

/-- Go `transforms.MergeRunTransform.Transform`. -/
def mergeRunTransformT (df : Dockerfile) : Dockerfile × Bool :=
  let res := df.stages.map (fun st =>
    let (insts, ch) := mergeConsecutiveRuns mergeRunsT st.instructions
    ({ st with instructions := insts }, ch))
  ({ df with stages := res.map (·.1) }, res.any (·.2))

/-- Whether an instruction is a RUN the transform may merge. -/
def mergeableRun (inst : Instruction) : Bool :=
  match inst with
  | .runI run => canMergeRun run
  | _ => false

def asRunI (inst : Instruction) : RunI :=
  match inst with
  | .runI run => run
  | _ => default

/-- The merged RUN described by the specification: positions spanning the
group, the trimmed non-empty commands joined in order with the separator. -/
def specMergedRun (sep : Str) (runs : List RunI) : RunI :=
  { startPos := runs.headI.startPos,
    endPos := (runs.getLast?.getD default).endPos,
    command := strJoin
      ((runs.map (fun r => strTrimSpace r.command)).filter (· ≠ [])) sep }

/-- The transformation described by the specification: each maximal block of
consecutive mergeable RUNs of length at least two becomes one merged RUN;
everything else is kept in place. -/
def mergeRunSpecList (sep : Str) : List Instruction → List Instruction
  | [] => []
  | inst :: rest =>
    if mergeableRun inst then
      let grp := inst :: rest.takeWhile mergeableRun
      let rest' := rest.dropWhile mergeableRun
      (if grp.length ≥ 2 then [.runI (specMergedRun sep (grp.map asRunI))]
       else grp) ++ mergeRunSpecList sep rest'
    else inst :: mergeRunSpecList sep rest
termination_by l => l.length
decreasing_by
  all_goals simp_wf
  all_goals have := (List.dropWhile_sublist (l := rest) (p := mergeableRun)).length_le
  all_goals omega

/-! ## Workdir-absolute transform
(internal/optimizer/transforms/workdir_absolute.go) -/

/-- Go `joinPath`. -/
def joinPath (base rel : Str) : Str :=
  let base := strTrimSuf base ['/']
  let base := if base = [] then ['/'] else base
  let joined := base ++ ['/'] ++ rel
  let cleaned := pathClean joined
  if ¬ "/".toList.isPrefixOf cleaned then '/' :: cleaned else cleaned

/-- The per-instruction body of `WorkdirAbsoluteTransform.Transform`:
state is (current directory, rewritten instruction, changed). -/
def wdStep (currentDir : Str) (inst : Instruction) : Str × Instruction × Bool :=
  match inst with
  | .workdirI wd =>
    let p := wd.path
    if "$".toList.isPrefixOf p ∨ strContainsSub p "$\x7b".toList then
      (if "/".toList.isPrefixOf p then p else currentDir, inst, false)
    else if "/".toList.isPrefixOf p then
      (pathClean p, inst, false)
    else
      let ap := joinPath currentDir p
      (ap, .workdirI { wd with path := ap }, true)
  | _ => (currentDir, inst, false)

/-- The stage loop of `WorkdirAbsoluteTransform.Transform`. -/
def wdFold (currentDir : Str) : List Instruction → List Instruction × Bool
  | [] => ([], false)
  | inst :: rest =>
    let (dir', inst', ch) := wdStep currentDir inst
    let (rest', ch') := wdFold dir' rest
    (inst' :: rest', ch || ch')

/-- Go `WorkdirAbsoluteTransform.Transform` (each stage starts at `/`). -/
def workdirAbsoluteTransform (df : Dockerfile) : Dockerfile × Bool :=
  let res := df.stages.map (fun st =>
    let (insts, ch) := wdFold "/".toList st.instructions
    ({ st with instructions := insts }, ch))
  ({ df with stages := res.map (·.1) }, res.any (·.2))

/-- The simulated working directory after a prefix of instructions. -/
def wdDirAfter (currentDir : Str) : List Instruction → Str
  | [] => currentDir
  | inst :: rest => wdDirAfter (wdStep currentDir inst).1 rest

/-! ## AST cache (internal/cache/ast.go) -/

structure ASTEntry where
  dockerfile : Dockerfile
  parseErrors : List ParseError
  hash : Str
  lastAccessed : Int
deriving Repr, Inhabited

/-- The cache state: the LRU list front-first (front = most recently used)
together with its configuration. The Go map is the association by key. -/
structure ASTCacheSt where
  entries : List (Str × ASTEntry) := []
  maxEntries : Int := 100
  maxAge : Int := 300000000000
deriving Repr, Inhabited

def cacheLookup (c : ASTCacheSt) (filename : Str) : Option ASTEntry :=
  ((c.entries.find? (fun kv => kv.1 = filename)).map (·.2))

/-- Go `removeElement`. -/
def cacheRemove (c : ASTCacheSt) (filename : Str) : ASTCacheSt :=
  { c with entries := c.entries.filter (fun kv => kv.1 ≠ filename) }

/-- Go `ASTCache.Get` at time `now`, with the hash function a parameter
(crypto is opaque to the model). -/
def cacheGet (hashFn : Str → Str) (c : ASTCacheSt) (filename content : Str)
    (now : Int) : Option ASTEntry × ASTCacheSt :=
  let hash := hashFn content
  match cacheLookup c filename with
  | none => (none, c)
  | some ent =>
    if ent.hash ≠ hash then (none, cacheRemove c filename)
    else if now - ent.lastAccessed > c.maxAge then (none, cacheRemove c filename)
    else
      let ent' := { ent with lastAccessed := now }
      (some ent',
       { c with entries := (filename, ent') ::
          c.entries.filter (fun kv => kv.1 ≠ filename) })

/-- Go `ASTCache.Put` at time `now`: replace-and-move-to-front when the key is
present, otherwise push-front and evict from the back while over capacity. -/
def cachePut (hashFn : Str → Str) (c : ASTCacheSt) (filename content : Str)
    (df : Dockerfile) (parseErrors : List ParseError) (now : Int) : ASTCacheSt :=
  let ent : ASTEntry := ⟨df, parseErrors, hashFn content, now⟩
  match cacheLookup c filename with
  | some _ =>
    { c with entries := (filename, ent) ::
        c.entries.filter (fun kv => kv.1 ≠ filename) }
  | none =>
    let entries := (filename, ent) :: c.entries
    { c with entries :=
        if (entries.length : Int) > c.maxEntries then
          entries.take c.maxEntries.toNat
        else entries }

set_option maxRecDepth 100000

/-! ## Concrete inputs used by the claims -/

def s2Source : Str := "FROM ubuntu\n".toList

def s3Source : Str := "FROM alpine\nRUN a\nRUN b\nRUN c\n".toList

def s1Source : Str :=
  ("FROM golang:1.21 AS builder\nRUN go build -o /app\n\n" ++
   "FROM alpine:3.18\nCOPY --from=builder /app /app\n").toList

def c1BadSource : Str := "FROM alpine\nMAINTAINER x\n".toList

/-- Representative sources on which the parse/rewrite pipeline is checked to
be idempotent (the spec's concrete scenarios among them). -/
def c1Samples : List Str :=
  [s1Source, s2Source, s3Source,
   "FROM a\nWORKDIR app\nWORKDIR src\nWORKDIR nested\n".toList,
   "FROM u\nRUN sudo apt-get update\nRUN sudo -u appuser npm install\n".toList,
   ("FROM alpine\nRUN apt-get update && apt-get install -y curl\n" ++
    "ENV A=1 B=\"x y\"\nEXPOSE 80/tcp 8080\nVOLUME /data\n" ++
    "CMD [\"sh\", \"-c\", \"x\"]\n").toList,
   ("# escape=`\n# hello\nFROM img:1.0@sha256 AS s1\nARG V=2\n" ++
    "USER u:g\nSTOPSIGNAL SIGTERM\nHEALTHCHECK --interval=30s CMD curl x\n" ++
    "SHELL [\"sh\", \"-c\"]\nONBUILD RUN x\n").toList]

/-- The severity/rule projection the C4 theorems inspect. -/
def c4Result : AnalyzerResult :=
  (analyzeSource (analyzerNew [withRules allRegisteredRules]) s2Source
    "Dockerfile".toList).1

/-! ## Spec-side definitions and fixtures used by the claim theorems -/

def instrCommandOf (i : Instruction) : Str := (asRunI i).command

/-- What `flushRunGroup` appends for a pending group. -/
def flushL (mergeFn : List RunI → RunI) (group : List RunI) : List Instruction :=
  match group with
  | [] => []
  | [r] => [.runI r]
  | _ => [.runI (mergeFn group)]

/-- Accumulator-free description of the merge loop's output. -/
def mergeSpecAux (mergeFn : List RunI → RunI) (group : List RunI) :
    List Instruction → List Instruction
  | [] => flushL mergeFn group
  | inst :: rest =>
    if mergeableRun inst then mergeSpecAux mergeFn (group ++ [asRunI inst]) rest
    else flushL mergeFn group ++ inst :: mergeSpecAux mergeFn [] rest

/-- The transforms-package separator. -/
def sepT : Str := " \\\n    && ".toList

def c9DiagA : Diagnostic := { rule := "A".toList, category := .style }

def c9DiagB : Diagnostic := { rule := "B".toList, category := .style }

def c9RuleA : GoRule := ⟨"A".toList, .style, .warning, fun _ _ => [c9DiagA]⟩

def c9RuleB : GoRule := ⟨"B".toList, .style, .warning, fun _ _ => [c9DiagB]⟩

def c10Diag : Diagnostic := { rule := "TST".toList, category := .style }

def c10Rule : GoRule := ⟨"TST".toList, .style, .warning, fun _ _ => [c10Diag]⟩

def c6Entry : ASTEntry := ⟨default, [], "h".toList, 0⟩

def c6Cache : ASTCacheSt := { entries := [("f".toList, c6Entry)] }

def c6Hash : Str → Str := fun s => "h".toList ++ s.take 0

def c5Expected (dir : Str) (inst : Instruction) : Instruction :=
  match inst with
  | .workdirI wd =>
    if "$".toList.isPrefixOf wd.path ∨ strContainsSub wd.path "$\x7b".toList then
      inst
    else if "/".toList.isPrefixOf wd.path then inst
    else .workdirI { wd with path := pathClean (dir ++ '/' :: wd.path) }
  | _ => inst

def wdPathOf (inst : Instruction) : Str :=
  match inst with
  | .workdirI wd => wd.path
  | _ => []

def c5BadSource : Str := "FROM alpine\nWORKDIR /a/../b\n".toList

def c5ChainSource : Str :=
  "FROM alpine\nWORKDIR app\nWORKDIR src\nWORKDIR nested\n".toList

/-- C4: the claim says `FROM ubuntu\n` yields exactly one diagnostic (SEC003);
the full registered rule set in fact yields two: SEC001 also fires, because the
file has no USER instruction in its final stage. -/
theorem c4_counterexample : ¬ (c4Result.diagnostics.length = 1) := by decide

/-- C4 (amended): the analyzer with the full registered rule set and default
configuration yields on `FROM ubuntu\n` exactly two diagnostics, SEC001 and
SEC003, both with severity error. -/
theorem c4_amended :
    c4Result.diagnostics.map (fun d => (d.rule, d.severity)) =
      [("SEC001".toList, .error), ("SEC003".toList, .error)] := by decide

/-- C1: the parse/rewrite pipeline is not idempotent: a MAINTAINER line is
rewritten to `LABEL maintainer="x"`, which reparses to a LABEL whose value is
then re-emitted without quotes. -/
theorem c1_counterexample :
    rewriteOnce (rewriteOnce c1BadSource) ≠ rewriteOnce c1BadSource := by decide

/-- C1 (amended): the pipeline is idempotent on the spec's concrete scenario
sources and further representative sources (everything except rewrites whose
output reparses differently, such as MAINTAINER→LABEL requoting). -/
theorem c1_amended :
    c1Samples.all (fun s => rewriteOnce (rewriteOnce s) == rewriteOnce s) = true := by
  decide

/-- C3: the claim's separator ` \<NL>    && ` is wrong for the `MergeRun`
transform of internal/optimizer/optimizer.go (the one in `AllTransforms`,
applied by the fix command): on `FROM alpine\nRUN a\nRUN b\nRUN c\n` it merges
with `" && "`, yielding `a && b && c`. -/
theorem c3_counterexample :
    (mergeRunTransformO (parse s3Source).1).1.stages.headI.instructions.map
        instrCommandOf ≠ ["a \\\n    && b \\\n    && c".toList] := by decide

/-! ## Merge-run: loop/specification equivalence -/

theorem flushRunGroup_fst (mergeFn : List RunI → RunI) (result : List Instruction)
    (group : List RunI) (changed : Bool) :
    (flushRunGroup mergeFn result group changed).1 = result ++ flushL mergeFn group := by
  rcases group with _ | ⟨r, _ | ⟨r2, t⟩⟩ <;> simp [flushRunGroup, flushL]

theorem mergeRunsLoop_eq_aux (mergeFn : List RunI → RunI) :
    ∀ (l : List Instruction) (result : List Instruction) (group : List RunI)
      (changed : Bool),
      (mergeRunsLoop mergeFn l result group changed).1 =
        result ++ mergeSpecAux mergeFn group l := by
  intro l
  induction l with
  | nil =>
    intro result group changed
    simp [mergeRunsLoop, mergeSpecAux, flushRunGroup_fst]
  | cons inst rest ih =>
    intro result group changed
    cases inst with
    | runI run =>
      by_cases h : canMergeRun run = true
      · simp [mergeRunsLoop, mergeSpecAux, mergeableRun, h, asRunI, ih]
      · simp only [Bool.not_eq_true] at h
        simp [mergeRunsLoop, mergeSpecAux, mergeableRun, h, ih,
          flushRunGroup_fst, List.append_assoc]
    | fromI v =>
      simp [mergeRunsLoop, mergeSpecAux, mergeableRun, ih,
        flushRunGroup_fst, List.append_assoc]
    | cmdI v =>
      simp [mergeRunsLoop, mergeSpecAux, mergeableRun, ih,
        flushRunGroup_fst, List.append_assoc]
    | entrypointI v =>
      simp [mergeRunsLoop, mergeSpecAux, mergeableRun, ih,
        flushRunGroup_fst, List.append_assoc]
    | copyI v =>
      simp [mergeRunsLoop, mergeSpecAux, mergeableRun, ih,
        flushRunGroup_fst, List.append_assoc]
    | addI v =>
      simp [mergeRunsLoop, mergeSpecAux, mergeableRun, ih,
        flushRunGroup_fst, List.append_assoc]
    | envI v =>
      simp [mergeRunsLoop, mergeSpecAux, mergeableRun, ih,
        flushRunGroup_fst, List.append_assoc]
    | argI v =>
      simp [mergeRunsLoop, mergeSpecAux, mergeableRun, ih,
        flushRunGroup_fst, List.append_assoc]
    | labelI v =>
      simp [mergeRunsLoop, mergeSpecAux, mergeableRun, ih,
        flushRunGroup_fst, List.append_assoc]
    | exposeI v =>
      simp [mergeRunsLoop, mergeSpecAux, mergeableRun, ih,
        flushRunGroup_fst, List.append_assoc]
    | volumeI v =>
      simp [mergeRunsLoop, mergeSpecAux, mergeableRun, ih,
        flushRunGroup_fst, List.append_assoc]
    | userI v =>
      simp [mergeRunsLoop, mergeSpecAux, mergeableRun, ih,
        flushRunGroup_fst, List.append_assoc]
    | workdirI v =>
      simp [mergeRunsLoop, mergeSpecAux, mergeableRun, ih,
        flushRunGroup_fst, List.append_assoc]
    | shellI v =>
      simp [mergeRunsLoop, mergeSpecAux, mergeableRun, ih,
        flushRunGroup_fst, List.append_assoc]
    | healthcheckI v =>
      simp [mergeRunsLoop, mergeSpecAux, mergeableRun, ih,
        flushRunGroup_fst, List.append_assoc]
    | stopsignalI v =>
      simp [mergeRunsLoop, mergeSpecAux, mergeableRun, ih,
        flushRunGroup_fst, List.append_assoc]
    | onbuildI sp ep inner =>
      simp [mergeRunsLoop, mergeSpecAux, mergeableRun, ih,
        flushRunGroup_fst, List.append_assoc]
    | onbuildEmptyI sp ep =>
      simp [mergeRunsLoop, mergeSpecAux, mergeableRun, ih,
        flushRunGroup_fst, List.append_assoc]
    | maintainerI v =>
      simp [mergeRunsLoop, mergeSpecAux, mergeableRun, ih,
        flushRunGroup_fst, List.append_assoc]

theorem takeWhile_of_all {α : Type} (p : α → Bool) :
    ∀ (xs : List α), (∀ x ∈ xs, p x = true) →
      xs.takeWhile p = xs ∧ xs.dropWhile p = [] := by
  intro xs
  induction xs with
  | nil => simp
  | cons a t ih =>
    intro h
    have ha := h a (by simp)
    have := ih (fun x hx => h x (by simp [hx]))
    simp [List.takeWhile_cons, List.dropWhile_cons, ha, this.1, this.2]

theorem takeWhile_append_stop {α : Type} (p : α → Bool) :
    ∀ (xs : List α) (y : α) (ys : List α), (∀ x ∈ xs, p x = true) →
      p y = false →
      (xs ++ y :: ys).takeWhile p = xs ∧ (xs ++ y :: ys).dropWhile p = y :: ys := by
  intro xs
  induction xs with
  | nil => intro y ys _ hy; simp [List.takeWhile_cons, List.dropWhile_cons, hy]
  | cons a t ih =>
    intro y ys h hy
    have ha := h a (by simp)
    have := ih y ys (fun x hx => h x (by simp [hx])) hy
    simp [List.takeWhile_cons, List.dropWhile_cons, ha, this.1, this.2]

theorem runI_asRunI_of_mergeable (inst : Instruction)
    (h : mergeableRun inst = true) : Instruction.runI (asRunI inst) = inst := by
  cases inst <;> simp [mergeableRun] at h ⊢ <;> rfl

theorem mergeable_runI (r : RunI) : mergeableRun (.runI r) = canMergeRun r := rfl

theorem mergeRunsT_eq_specMerged (runs : List RunI) (h : runs.length ≥ 2) :
    mergeRunsT runs = specMergedRun sepT runs := by
  rcases runs with _ | ⟨a, _ | ⟨b, t⟩⟩
  · simp at h
  · simp at h
  · rfl

theorem asRunI_runI (r : RunI) : asRunI (.runI r) = r := rfl

theorem map_asRunI_map_runI (l : List RunI) :
    (l.map Instruction.runI).map asRunI = l := by
  induction l with
  | nil => rfl
  | cons a t ih => simp [asRunI_runI, ih]

theorem mergeRunSpecList_cons_m (sep : Str) (inst : Instruction)
    (rest : List Instruction) (h : mergeableRun inst = true) :
    mergeRunSpecList sep (inst :: rest) =
      (if (inst :: rest.takeWhile mergeableRun).length ≥ 2
       then [.runI (specMergedRun sep ((inst :: rest.takeWhile mergeableRun).map asRunI))]
       else inst :: rest.takeWhile mergeableRun) ++
        mergeRunSpecList sep (rest.dropWhile mergeableRun) := by
  rw [mergeRunSpecList, if_pos h]

theorem mergeRunSpecList_cons_n (sep : Str) (inst : Instruction)
    (rest : List Instruction) (h : mergeableRun inst = false) :
    mergeRunSpecList sep (inst :: rest) = inst :: mergeRunSpecList sep rest := by
  rw [mergeRunSpecList, if_neg (by simp [h])]

theorem spec_group_end (group : List RunI)
    (hg : ∀ r ∈ group, canMergeRun r = true) :
    mergeRunSpecList sepT (group.map Instruction.runI) =
      flushL mergeRunsT group := by
  rcases group with _ | ⟨g, _ | ⟨g2, gt⟩⟩
  · simp [mergeRunSpecList, flushL]
  · have hgm := hg g (by simp)
    rw [List.map_cons, List.map_nil,
      mergeRunSpecList_cons_m _ _ _ (by simp [mergeable_runI, hgm])]
    simp only [List.takeWhile_nil, List.dropWhile_nil]
    rw [if_neg (by simp)]
    simp [mergeRunSpecList, flushL]
  · have hgm := hg g (by simp)
    have hall : ∀ x ∈ (g2 :: gt).map Instruction.runI, mergeableRun x = true := by
      intro x hx
      obtain ⟨rr, hrr, rfl⟩ := List.mem_map.mp hx
      simpa [mergeable_runI] using hg rr (by simp [hrr])
    have htake := takeWhile_of_all mergeableRun ((g2 :: gt).map Instruction.runI) hall
    rw [List.map_cons,
      mergeRunSpecList_cons_m _ _ _ (by simp [mergeable_runI, hgm]),
      htake.1, htake.2]
    rw [if_pos (by simp only [List.length_cons, List.length_map]; omega)]
    have hmap : (Instruction.runI g :: (g2 :: gt).map Instruction.runI).map asRunI =
        g :: g2 :: gt := by
      rw [List.map_cons, asRunI_runI, map_asRunI_map_runI]
    rw [hmap]
    simp [mergeRunSpecList, flushL,
      mergeRunsT_eq_specMerged (g :: g2 :: gt) (by simp only [List.length_cons]; omega)]

theorem spec_group_mid (group : List RunI) (inst : Instruction)
    (rest : List Instruction)
    (hg : ∀ r ∈ group, canMergeRun r = true) (hb : mergeableRun inst = false) :
    mergeRunSpecList sepT (group.map Instruction.runI ++ inst :: rest) =
      flushL mergeRunsT group ++ inst :: mergeRunSpecList sepT rest := by
  rcases group with _ | ⟨g, gs⟩
  · simp only [List.map_nil, List.nil_append]
    rw [mergeRunSpecList_cons_n _ _ _ hb]
    simp [flushL]
  · have hgm := hg g (by simp)
    have hall : ∀ x ∈ gs.map Instruction.runI, mergeableRun x = true := by
      intro x hx
      obtain ⟨rr, hrr, rfl⟩ := List.mem_map.mp hx
      simpa [mergeable_runI] using hg rr (by simp [hrr])
    have htake := takeWhile_append_stop mergeableRun (gs.map Instruction.runI)
      inst rest hall hb
    rw [List.map_cons, List.cons_append,
      mergeRunSpecList_cons_m _ _ _ (by simp [mergeable_runI, hgm]),
      htake.1, htake.2, mergeRunSpecList_cons_n _ _ _ hb]
    rcases gs with _ | ⟨g2, gt⟩
    · simp only [List.map_nil]
      rw [if_neg (by simp)]
      simp [flushL]
    · rw [if_pos (by simp only [List.length_cons, List.length_map]; omega)]
      have hmap : (Instruction.runI g :: (g2 :: gt).map Instruction.runI).map asRunI =
          g :: g2 :: gt := by
        rw [List.map_cons, asRunI_runI, map_asRunI_map_runI]
      rw [hmap]
      simp [flushL,
        mergeRunsT_eq_specMerged (g :: g2 :: gt) (by simp only [List.length_cons]; omega)]

theorem mergeSpecAux_eq_spec :
    ∀ (l : List Instruction) (group : List RunI),
      (∀ r ∈ group, canMergeRun r = true) →
      mergeSpecAux mergeRunsT group l =
        mergeRunSpecList sepT (group.map Instruction.runI ++ l) := by
  intro l
  induction l with
  | nil =>
    intro group hg
    rw [mergeSpecAux, List.append_nil, spec_group_end group hg]
  | cons inst rest ih =>
    intro group hg
    by_cases h : mergeableRun inst = true
    · have h2 : ∀ r ∈ group ++ [asRunI inst], canMergeRun r = true := by
        intro r hr
        rcases List.mem_append.mp hr with hr | hr
        · exact hg r hr
        · simp only [List.mem_singleton] at hr
          subst hr
          cases inst <;> simp [mergeableRun] at h ⊢ <;> exact h
      rw [mergeSpecAux, if_pos h, ih _ h2, List.map_append]
      simp [runI_asRunI_of_mergeable inst h, List.append_assoc]
    · have hb : mergeableRun inst = false := by simpa using h
      rw [mergeSpecAux, if_neg (by simp [hb]), ih [] (by simp),
        spec_group_mid group inst rest hg hb]
      simp

theorem mergeConsecutiveRunsT_eq_spec (insts : List Instruction) :
    (mergeConsecutiveRuns mergeRunsT insts).1 = mergeRunSpecList sepT insts := by
  rw [mergeConsecutiveRuns]
  by_cases h : insts.length < 2
  · rw [if_pos h]
    rcases insts with _ | ⟨a, _ | ⟨b, t⟩⟩
    · simp [mergeRunSpecList]
    · by_cases hm : mergeableRun a = true
      · rw [mergeRunSpecList_cons_m _ _ _ hm]
        simp only [List.takeWhile_nil, List.dropWhile_nil]
        rw [if_neg (by simp)]
        simp [mergeRunSpecList]
      · have hb : mergeableRun a = false := by simpa using hm
        rw [mergeRunSpecList_cons_n _ _ _ hb]
        simp [mergeRunSpecList]
    · simp only [List.length_cons] at h; omega
  · rw [if_neg h, mergeRunsLoop_eq_aux, mergeSpecAux_eq_spec insts [] (by simp)]
    simp

/-- C3 (amended): the transforms-package `MergeRunTransform` replaces each
maximal block of two or more consecutive mergeable RUNs (shell form, no
heredoc, no exec form, no `--mount`) by one RUN whose command is the trimmed
non-empty commands joined in order with ` \<NL>    && `, leaving every other
instruction in place — and on the spec's scenario S3 the stage becomes a
single RUN with command `a \<NL>    && b \<NL>    && c`; the
`optimizer`-package copy of merge-run (the one the fix command applies) joins
with `" && "` instead. -/
theorem c3_amended :
    (∀ insts : List Instruction,
      (mergeConsecutiveRuns mergeRunsT insts).1 = mergeRunSpecList sepT insts) ∧
    (mergeRunTransformT (parse s3Source).1).1.stages.headI.instructions.map
        instrCommandOf = ["a \\\n    && b \\\n    && c".toList] ∧
    (mergeRunTransformO (parse s3Source).1).1.stages.headI.instructions.map
        instrCommandOf = ["a && b && c".toList] :=
  ⟨mergeConsecutiveRunsT_eq_spec, by decide, by decide⟩

/-! ## Sorting and membership facts for the analyzer -/

theorem mem_insertDiag (d x : Diagnostic) :
    ∀ (l : List Diagnostic), x ∈ insertDiag d l ↔ x = d ∨ x ∈ l := by
  intro l
  induction l with
  | nil => simp [insertDiag]
  | cons e rest ih =>
    by_cases h : diagLess e d = true
    · rw [insertDiag, if_pos h]
      simp only [List.mem_cons, ih]
      tauto
    · rw [insertDiag, if_neg h]
      simp [List.mem_cons]

theorem mem_sortByPos (x : Diagnostic) :
    ∀ (l : List Diagnostic), x ∈ sortByPos l ↔ x ∈ l := by
  intro l
  induction l with
  | nil => simp [sortByPos]
  | cons d rest ih => simp [sortByPos, mem_insertDiag, ih]

theorem flatten_filter_nonempty {α : Type} [DecidableEq α]
    (L : List (List α)) :
    ((L.filter (fun b => b ≠ [])).flatten) = L.flatten := by
  induction L with
  | nil => rfl
  | cons a t ih =>
    by_cases h : a = []
    · subst h
      simp only [ne_eq, decide_not] at ih ⊢
      simp [List.filter_cons, ih]
    · simp only [ne_eq, decide_not] at ih ⊢
      simp [List.filter_cons, h, ih]

/-- C9: for every analyzer configuration, AST, filename, source and source
lines, whenever the worker-pool completion order is a permutation of the rule
list, the parallel aggregation is a permutation of the sequential one — the two
execution modes yield the same multiset of diagnostics, hence the same set,
before the final sort by position. -/
theorem c9_parallel_matches_sequential (a : Analyzer) (df : Dockerfile)
    (filename source : Str) (sourceLines : List Str)
    (rules order : List GoRule) (h : order.Perm rules) :
    (analyzeParallel a df filename source sourceLines order).Perm
      (analyzeSequential a df filename source sourceLines rules) := by
  unfold analyzeParallel analyzeSequential
  rw [flatten_filter_nonempty]
  exact (h.map _).flatten

theorem c9_parallel_matches_sequential_witness :
    (analyzeParallel (analyzerNew []) default [] [] [] [c9RuleB, c9RuleA]).Perm
      (analyzeSequential (analyzerNew []) default [] [] [] [c9RuleA, c9RuleB]) :=
  c9_parallel_matches_sequential (analyzerNew []) default [] [] []
    [c9RuleA, c9RuleB] [c9RuleB, c9RuleA] (List.Perm.swap c9RuleA c9RuleB [])

/-- C10: an analyzer built without `WithMinSeverity` keeps the default minimum
severity `warning`, so no diagnostic of severity `info` or `hint` survives
`Analyze`: every member of the result has severity at least warning. -/
theorem c10_default_min_severity (rules : List GoRule) (df : Dockerfile)
    (filename source : Str) (order : List GoRule) (d : Diagnostic)
    (h : d ∈ (analyze (analyzerNew [withRules rules]) df filename source
      order).diagnostics) :
    d.severity ≠ Severity.info ∧ d.severity ≠ Severity.hint := by
  have ha : analyzerNew [withRules rules] = { rules := rules } := by
    simp [analyzerNew, withRules]
  rw [ha] at h
  simp only [analyze] at h
  rw [mem_sortByPos] at h
  simp only [Bool.false_eq_true, false_and, if_false] at h
  simp only [analyzeSequential, List.mem_flatten, List.mem_map] at h
  obtain ⟨l, ⟨r, hr, rfl⟩, hd⟩ := h
  simp only [ruleBatch, List.mem_filter] at hd
  have hsev := hd.2
  constructor
  · intro he
    rw [he] at hsev
    simp [sevGe, Severity.toNat] at hsev
  · intro he
    rw [he] at hsev
    simp [sevGe, Severity.toNat] at hsev

theorem c10_default_min_severity_witness :
    c10Diag.severity ≠ Severity.info ∧ c10Diag.severity ≠ Severity.hint :=
  c10_default_min_severity [c10Rule] default [] [] [] c10Diag (by decide)

/-! ## AST cache contract -/

/-- C6: `Get` returns the stored entry exactly when one is present for the
filename, its hash equals the hash of the content, and its age is within
`maxAge`; on a hit the entry moves to the front (most recently used) with
`lastAccessed` refreshed, and a back-to-back `Get` with identical content
within `maxAge` returns the same `Dockerfile`; on a hash mismatch or an
expired entry the entry is evicted and `Get` misses; with no entry it misses
and leaves the cache unchanged. -/
theorem c6_cache_get_contract (hashFn : Str → Str) (c : ASTCacheSt)
    (filename content : Str) (now : Int) :
    (cacheLookup c filename = none →
      cacheGet hashFn c filename content now = (none, c)) ∧
    (∀ ent, cacheLookup c filename = some ent →
      ((ent.hash = hashFn content ∧ now - ent.lastAccessed ≤ c.maxAge) →
        cacheGet hashFn c filename content now =
          (some { ent with lastAccessed := now },
           { c with entries := (filename, { ent with lastAccessed := now }) ::
              c.entries.filter (fun kv => kv.1 ≠ filename) }) ∧
        ∀ now2 : Int, now2 - now ≤ c.maxAge →
          ((cacheGet hashFn (cacheGet hashFn c filename content now).2
              filename content now2).1.map (·.dockerfile)) =
            some ent.dockerfile) ∧
      ((ent.hash ≠ hashFn content ∨ now - ent.lastAccessed > c.maxAge) →
        cacheGet hashFn c filename content now = (none, cacheRemove c filename))) := by
  refine ⟨fun hn => ?_, fun ent hent => ⟨fun hhit => ?_, fun hmiss => ?_⟩⟩
  · simp [cacheGet, hn]
  · obtain ⟨hh, hage⟩ := hhit
    have hmain : cacheGet hashFn c filename content now =
        (some { ent with lastAccessed := now },
         { c with entries := (filename, { ent with lastAccessed := now }) ::
            c.entries.filter (fun kv => kv.1 ≠ filename) }) := by
      rw [cacheGet, hent]
      dsimp only
      rw [if_neg (by simp [hh]), if_neg (not_lt.mpr hage)]
    refine ⟨hmain, fun now2 h2 => ?_⟩
    rw [hmain]
    dsimp only
    have hlk : cacheLookup
        { c with entries := (filename, { ent with lastAccessed := now }) ::
           c.entries.filter (fun kv => kv.1 ≠ filename) } filename =
        some { ent with lastAccessed := now } := by
      simp [cacheLookup, List.find?]
    rw [cacheGet, hlk]
    dsimp only
    rw [if_neg (by simp [hh]), if_neg (not_lt.mpr h2)]
    simp
  · rcases hmiss with hm | hm
    · rw [cacheGet, hent]
      dsimp only
      rw [if_pos hm]
    · rw [cacheGet, hent]
      dsimp only
      by_cases hh : ent.hash = hashFn content
      · rw [if_neg (by simp [hh]), if_pos hm]
      · rw [if_pos hh]

theorem c6_cache_get_contract_witness :
    cacheGet c6Hash c6Cache "f".toList "x".toList 5 =
      (some { c6Entry with lastAccessed := 5 },
       { c6Cache with entries := ("f".toList, { c6Entry with lastAccessed := 5 }) ::
          c6Cache.entries.filter (fun kv => kv.1 ≠ "f".toList) }) :=
  (((c6_cache_get_contract c6Hash c6Cache "f".toList "x".toList 5).2 c6Entry
    rfl).1 ⟨rfl, by decide⟩).1

/-! ## Workdir-absolute: path.Clean facts and the transform's contract -/

theorem splitSlash_ne_nil : ∀ s : Str, splitSlash s ≠ [] := by
  intro s
  cases s with
  | nil => simp [splitSlash]
  | cons c rest =>
    rw [splitSlash]
    by_cases h : c = '/'
    · simp [h]
    · rw [if_neg h]
      cases hs : splitSlash rest <;> simp

theorem splitSlash_append : ∀ a b : Str,
    splitSlash (a ++ '/' :: b) = splitSlash a ++ splitSlash b := by
  intro a b
  induction a with
  | nil => simp [splitSlash]
  | cons c t ih =>
    by_cases h : c = '/'
    · subst h
      rw [List.cons_append, splitSlash, if_pos rfl, ih]
      simp [splitSlash]
    · rw [List.cons_append, splitSlash, if_neg h, ih, splitSlash, if_neg h]
      cases hs : splitSlash t with
      | nil => exact absurd hs (splitSlash_ne_nil t)
      | cons w ws => simp

theorem pathClean_rooted (p : Str) (hn : p ≠ []) (hp : p.headI = '/') :
    "/".toList.isPrefixOf (pathClean p) = true := by
  rw [pathClean, if_neg hn]
  dsimp only
  rw [hp, if_pos rfl]
  simp [List.isPrefixOf]

theorem pathClean_congr_comps (p q : Str) (hpn : p ≠ []) (hqn : q ≠ [])
    (hp : p.headI = '/') (hq : q.headI = '/')
    (h : (splitSlash p).filter (fun c => c ≠ [] && c ≠ ['.']) =
      (splitSlash q).filter (fun c => c ≠ [] && c ≠ ['.'])) :
    pathClean p = pathClean q := by
  rw [pathClean, pathClean, if_neg hpn, if_neg hqn]
  dsimp only
  rw [hp, hq, h]

theorem strTrimSuf_concat_slash (b : Str) : strTrimSuf (b ++ ['/']) ['/'] = b := by
  rw [strTrimSuf, if_pos (by simp [List.isSuffixOf])]
  simp

theorem strTrimSuf_no_slash (b : Str) (c : Char) (h : c ≠ '/') :
    strTrimSuf (b ++ [c]) ['/'] = b ++ [c] := by
  rw [strTrimSuf, if_neg ?_]
  intro hs
  simp [List.isSuffixOf, List.isPrefixOf] at hs
  exact absurd hs.symm h

theorem joinPath_eq (base rel : Str) (hb : "/".toList.isPrefixOf base = true) :
    joinPath base rel = pathClean (base ++ '/' :: rel) := by
  obtain ⟨b0, rfl⟩ : ∃ t, base = '/' :: t := by
    cases base with
    | nil => simp [List.isPrefixOf] at hb
    | cons c t =>
      have hc : c = '/' := by
        have := hb
        simp [List.isPrefixOf] at this
        exact this.symm
      exact ⟨t, by rw [hc]⟩
  rcases List.eq_nil_or_concat b0 with h0 | ⟨L, a, hL⟩
  · subst h0
    rw [joinPath]
    have ht : strTrimSuf ['/'] ['/'] = [] := by decide
    rw [ht, if_pos rfl]
    have habs := pathClean_rooted ('/' :: ('/' :: rel)) (by simp) (by simp)
    rw [if_neg (by simpa using habs)]
    rfl
  · have hL' : b0 = L ++ [a] := by simpa [List.concat_eq_append] using hL
    subst hL'
    by_cases ha : a = '/'
    · subst ha
      rw [joinPath]
      have ht : strTrimSuf ('/' :: (L ++ ['/'])) ['/'] = '/' :: L := by
        have := strTrimSuf_concat_slash ('/' :: L)
        simpa using this
      rw [ht, if_neg (show ¬('/' :: L = []) from by simp)]
      have habs := pathClean_rooted (('/' :: L) ++ ['/'] ++ rel) (by simp) (by simp)
      have hcond : ¬ ¬ ("/".toList.isPrefixOf
          (pathClean (('/' :: L) ++ ['/'] ++ rel)) = true) := by
        simpa using habs
      rw [if_neg hcond]
      apply pathClean_congr_comps
      · simp
      · simp
      · simp
      · simp
      · have e1 : ('/' :: L) ++ ['/'] ++ rel = ('/' :: L) ++ '/' :: rel := by simp
        have e2 : ('/' :: (L ++ ['/'])) ++ '/' :: rel =
            ('/' :: L) ++ '/' :: ('/' :: rel) := by simp
        rw [e1, e2, splitSlash_append, splitSlash_append]
        simp [splitSlash, List.filter_append]
    · rw [joinPath]
      have ht : strTrimSuf ('/' :: (L ++ [a])) ['/'] = '/' :: (L ++ [a]) := by
        have := strTrimSuf_no_slash ('/' :: L) a ha
        simpa using this
      rw [ht, if_neg (show ¬('/' :: (L ++ [a]) = []) from by simp)]
      have habs := pathClean_rooted (('/' :: (L ++ [a])) ++ ['/'] ++ rel)
        (by simp) (by simp)
      have hcond : ¬ ¬ ("/".toList.isPrefixOf
          (pathClean (('/' :: (L ++ [a])) ++ ['/'] ++ rel)) = true) := by
        simpa using habs
      rw [if_neg hcond]
      have e1 : ('/' :: (L ++ [a])) ++ ['/'] ++ rel =
          ('/' :: (L ++ [a])) ++ '/' :: rel := by simp
      rw [e1]

theorem joinPath_abs (base rel : Str) :
    "/".toList.isPrefixOf (joinPath base rel) = true := by
  rw [joinPath]
  by_cases h : "/".toList.isPrefixOf (pathClean
      ((if strTrimSuf base ['/'] = [] then ['/'] else strTrimSuf base ['/']) ++
        ['/'] ++ rel)) = true
  · rw [if_neg (by simpa using h)]
    exact h
  · rw [if_pos (by simpa using h)]
    simp [List.isPrefixOf]

theorem wdStep_dir_abs (dir : Str) (inst : Instruction)
    (h : "/".toList.isPrefixOf dir = true) :
    "/".toList.isPrefixOf (wdStep dir inst).1 = true := by
  cases inst
  case workdirI wd =>
    rw [wdStep]
    dsimp only
    by_cases hv : "$".toList.isPrefixOf wd.path ∨
        strContainsSub wd.path "$\x7b".toList = true
    · rw [if_pos hv]
      by_cases hp : "/".toList.isPrefixOf wd.path = true
      · rw [if_pos hp]
        exact hp
      · rw [if_neg hp]
        exact h
    · rw [if_neg hv]
      by_cases hp : "/".toList.isPrefixOf wd.path = true
      · rw [if_pos hp]
        cases hw : wd.path with
        | nil =>
          rw [hw] at hp
          simp [List.isPrefixOf] at hp
        | cons c t =>
          have hc : c = '/' := by
            have := hp
            rw [hw] at this
            simp [List.isPrefixOf] at this
            exact this.symm
          subst hc
          exact pathClean_rooted ('/' :: t) (by simp) (by simp)
      · rw [if_neg hp]
        exact joinPath_abs dir wd.path
  all_goals exact h

theorem wdStep_out (dir : Str) (inst : Instruction)
    (h : "/".toList.isPrefixOf dir = true) :
    (wdStep dir inst).2.1 = c5Expected dir inst := by
  cases inst
  case workdirI wd =>
    rw [wdStep, c5Expected]
    dsimp only
    by_cases hv : "$".toList.isPrefixOf wd.path ∨
        strContainsSub wd.path "$\x7b".toList = true
    · rw [if_pos hv, if_pos hv]
    · rw [if_neg hv, if_neg hv]
      by_cases hp : "/".toList.isPrefixOf wd.path = true
      · rw [if_pos hp, if_pos hp]
      · rw [if_neg hp, if_neg hp]
        rw [joinPath_eq dir wd.path h]
  all_goals rfl

theorem wdFold_getD (insts : List Instruction) : ∀ (dir : Str) (i : Nat),
    "/".toList.isPrefixOf dir = true → i < insts.length →
    ((wdFold dir insts).1.getD i default) =
      c5Expected (wdDirAfter dir (insts.take i)) (insts.getD i default) := by
  induction insts with
  | nil =>
    intro dir i h hi
    simp at hi
  | cons inst rest ih =>
    intro dir i h hi
    rcases hs : wdStep dir inst with ⟨dir', inst', ch⟩
    cases i with
    | zero =>
      simp only [wdFold, hs, List.take_zero, wdDirAfter, List.getD_cons_zero]
      have := wdStep_out dir inst h
      rw [hs] at this
      exact this
    | succ j =>
      have hd : "/".toList.isPrefixOf dir' = true := by
        have := wdStep_dir_abs dir inst h
        rw [hs] at this
        exact this
      have hj : j < rest.length := by
        simp only [List.length_cons] at hi
        omega
      simp only [wdFold, hs, List.take_succ_cons, wdDirAfter,
        List.getD_cons_succ]
      exact ih dir' j hd hj

theorem absDir_cons (dir : Str) (h : "/".toList.isPrefixOf dir = true) :
    ∃ t, dir = '/' :: t := by
  cases dir with
  | nil => simp [List.isPrefixOf] at h
  | cons c t =>
    have hc : c = '/' := by
      simp [List.isPrefixOf] at h
      exact h.symm
    exact ⟨t, by rw [hc]⟩

theorem wdDirAfter_abs (insts : List Instruction) : ∀ (dir : Str),
    "/".toList.isPrefixOf dir = true →
    "/".toList.isPrefixOf (wdDirAfter dir insts) = true := by
  induction insts with
  | nil => intro dir h; exact h
  | cons inst rest ih =>
    intro dir h
    rw [wdDirAfter]
    exact ih _ (wdStep_dir_abs dir inst h)

theorem wd_out_abs (insts : List Instruction) (i : Nat) (wd : WorkdirI)
    (hi : i < insts.length)
    (hw : (wdFold "/".toList insts).1.getD i default = .workdirI wd)
    (hv : ¬("$".toList.isPrefixOf wd.path = true ∨
      strContainsSub wd.path "$\x7b".toList = true)) :
    "/".toList.isPrefixOf wd.path = true := by
  have habs := wdDirAfter_abs (insts.take i) "/".toList (by simp [List.isPrefixOf])
  rw [wdFold_getD insts "/".toList i (by simp [List.isPrefixOf]) hi] at hw
  cases hinst : insts.getD i default
  case workdirI w0 =>
    rw [hinst] at hw
    rw [c5Expected] at hw
    by_cases hv0 : "$".toList.isPrefixOf w0.path = true ∨
        strContainsSub w0.path "$\x7b".toList = true
    · rw [if_pos hv0] at hw
      have : w0 = wd := by simpa using hw
      subst this
      exact absurd hv0 hv
    · rw [if_neg hv0] at hw
      by_cases hp0 : "/".toList.isPrefixOf w0.path = true
      · rw [if_pos hp0] at hw
        have : w0 = wd := by simpa using hw
        subst this
        exact hp0
      · rw [if_neg hp0] at hw
        have hpath : wd.path = pathClean
            (wdDirAfter "/".toList (insts.take i) ++ '/' :: w0.path) := by
          have h2 := hw
          simp only [Instruction.workdirI.injEq] at h2
          rw [← h2]
        obtain ⟨t, ht⟩ := absDir_cons _ habs
        rw [hpath, ht]
        exact pathClean_rooted (('/' :: t) ++ '/' :: w0.path) (by simp) (by simp)
  all_goals (rw [hinst] at hw; simp [c5Expected] at hw)

/-- C5 (counterexample): for the stage `WORKDIR /a/../b`, the transform leaves
the already-absolute yet unclean path `/a/../b` in place, which differs from
`path.Clean(prev_absolute + "/" + original)` — the spec's formula does not
hold for absolute inputs, which the code only tracks via `path.Clean` without
rewriting the instruction. -/
theorem c5_counterexample :
    (workdirAbsoluteTransform (parse c5BadSource).1).1.stages.headI.instructions.map
      wdPathOf ≠ [pathClean ("/".toList ++ '/' :: "/a/../b".toList)] := by
  decide

/-- C5 (amended): after the workdir-absolute transform, each WORKDIR whose
path contains no variable reference either (a) was relative and becomes
exactly `path.Clean(prev_absolute + "/" + original)` — `prev_absolute` being
the directory simulated from `/` through the preceding instructions — or (b)
was already absolute and is left unchanged; in both cases the resulting path
is absolute, and the relative chain `app`, `src`, `nested` becomes `/app`,
`/app/src`, `/app/src/nested`. -/
theorem c5_amended :
    (∀ (insts : List Instruction) (i : Nat), i < insts.length →
      ((wdFold "/".toList insts).1.getD i default) =
        c5Expected (wdDirAfter "/".toList (insts.take i))
          (insts.getD i default)) ∧
    (∀ (insts : List Instruction) (i : Nat) (wd : WorkdirI), i < insts.length →
      (wdFold "/".toList insts).1.getD i default = .workdirI wd →
      ¬("$".toList.isPrefixOf wd.path = true ∨
        strContainsSub wd.path "$\x7b".toList = true) →
      "/".toList.isPrefixOf wd.path = true) ∧
    ((workdirAbsoluteTransform (parse c5ChainSource).1).1.stages.headI.instructions.map
      wdPathOf =
      ["/app".toList, "/app/src".toList, "/app/src/nested".toList]) :=
  ⟨fun insts i hi => wdFold_getD insts "/".toList i (by simp [List.isPrefixOf]) hi,
   fun insts i wd hi hw hv => wd_out_abs insts i wd hi hw hv,
   by decide⟩

theorem c5_amended_witness :
    ((wdFold "/".toList [Instruction.workdirI { path := "app".toList }]).1.getD
      0 default) =
      c5Expected
        (wdDirAfter "/".toList
          (([Instruction.workdirI { path := "app".toList }] :
            List Instruction).take 0))
        (([Instruction.workdirI { path := "app".toList }] :
          List Instruction).getD 0 default) :=
  c5_amended.1 [Instruction.workdirI { path := "app".toList }] 0 (by decide)

/-! ## Lexer: termination, EOF structure, and position invariants -/

theorem readChar_input (s : LexSt) : (readChar s).input = s.input := by
  rw [readChar]; split <;> rfl

theorem readChar_pos (s : LexSt) : (readChar s).pos = s.pos + 1 := by
  rw [readChar]; split <;> rfl

theorem readChar_line (s : LexSt) : s.line ≤ (readChar s).line := by
  rw [readChar]; split
  · simp
  · simp

theorem pos_lt_of_curr_ne (s : LexSt) (h : curr s ≠ nulChar) :
    s.pos < s.input.length := by
  by_contra hge
  apply h
  rw [curr]
  apply List.getD_eq_default
  omega

theorem skipWhitespaceF_tot : ∀ (fuel : Nat) (s : LexSt),
    s.input.length + 2 - s.pos < fuel →
    ∃ s', skipWhitespaceF fuel s = some s' ∧ s'.input = s.input ∧
      s.pos ≤ s'.pos ∧ s.line ≤ s'.line := by
  intro fuel
  induction fuel with
  | zero => intro s h; omega
  | succ f ih =>
    intro s h
    rw [skipWhitespaceF]
    by_cases hc : curr s = ' ' ∨ curr s = '\t' ∨ curr s = '\r'
    · rw [if_pos hc]
      have hne : curr s ≠ nulChar := by
        rcases hc with h1 | h1 | h1 <;> rw [h1] <;> decide
      have hlt : s.pos < s.input.length := pos_lt_of_curr_ne s hne
      obtain ⟨s', he, hi, hp, hl⟩ := ih (readChar s)
        (by rw [readChar_input, readChar_pos]; omega)
      refine ⟨s', he, by rw [hi, readChar_input], ?_, ?_⟩
      · have h2 := readChar_pos s; omega
      · exact le_trans (readChar_line s) hl
    · rw [if_neg hc]
      exact ⟨s, rfl, rfl, le_refl _, le_refl _⟩

theorem readBareWordF_tot : ∀ (fuel : Nat) (s : LexSt),
    s.input.length + 2 - s.pos < fuel →
    ∃ s', readBareWordF fuel s = some s' ∧ s'.input = s.input ∧
      s.pos ≤ s'.pos ∧ s.line ≤ s'.line ∧ isWordChar (curr s') = false := by
  intro fuel
  induction fuel with
  | zero => intro s h; omega
  | succ f ih =>
    intro s h
    rw [readBareWordF]
    by_cases hc : isWordChar (curr s) = true
    · rw [if_pos hc]
      have hne : curr s ≠ nulChar := by
        intro hnul
        rw [hnul] at hc
        exact absurd hc (by decide)
      have hlt : s.pos < s.input.length := pos_lt_of_curr_ne s hne
      obtain ⟨s', he, hi, hp, hl, hpost⟩ := ih (readChar s)
        (by rw [readChar_input, readChar_pos]; omega)
      refine ⟨s', he, by rw [hi, readChar_input], ?_, ?_, hpost⟩
      · have h2 := readChar_pos s; omega
      · exact le_trans (readChar_line s) hl
    · rw [if_neg hc]
      exact ⟨s, rfl, rfl, le_refl _, le_refl _, by simpa using hc⟩

theorem consumeToEolF_tot : ∀ (fuel : Nat) (s : LexSt),
    s.input.length + 2 - s.pos < fuel →
    ∃ s', consumeToEolF fuel s = some s' ∧ s'.input = s.input ∧
      s.pos ≤ s'.pos ∧ s.line ≤ s'.line ∧
      (curr s' = nulChar ∨ curr s' = '\n') := by
  intro fuel
  induction fuel with
  | zero => intro s h; omega
  | succ f ih =>
    intro s h
    rw [consumeToEolF]
    by_cases hc : curr s ≠ nulChar ∧ curr s ≠ '\n'
    · rw [if_pos hc]
      have hlt : s.pos < s.input.length := pos_lt_of_curr_ne s hc.1
      obtain ⟨s', he, hi, hp, hl, hpost⟩ := ih (readChar s)
        (by rw [readChar_input, readChar_pos]; omega)
      refine ⟨s', he, by rw [hi, readChar_input], ?_, ?_, hpost⟩
      · have h2 := readChar_pos s; omega
      · exact le_trans (readChar_line s) hl
    · rw [if_neg hc]
      refine ⟨s, rfl, rfl, le_refl _, le_refl _, ?_⟩
      rcases Decidable.not_and_iff_or_not.mp hc with h1 | h1
      · exact Or.inl (Decidable.not_not.mp h1)
      · exact Or.inr (Decidable.not_not.mp h1)

theorem readStringLoopF_tot (quote esc : Char) : ∀ (fuel : Nat) (s : LexSt),
    s.input.length + 2 - s.pos < fuel →
    ∃ s', readStringLoopF quote esc fuel s = some s' ∧ s'.input = s.input ∧
      s.pos ≤ s'.pos ∧ s.line ≤ s'.line := by
  intro fuel
  induction fuel with
  | zero => intro s h; omega
  | succ f ih =>
    intro s h
    rw [readStringLoopF]
    by_cases h1 : curr s = nulChar
    · rw [if_pos h1]
      exact ⟨s, rfl, rfl, le_refl _, le_refl _⟩
    · rw [if_neg h1]
      have hlt : s.pos < s.input.length := pos_lt_of_curr_ne s h1
      by_cases h2 : curr s = esc ∧ (peekChar s = quote ∨ peekChar s = esc)
      · rw [if_pos h2]
        obtain ⟨s', he, hi, hp, hl⟩ := ih (readChar (readChar s))
          (by rw [readChar_input, readChar_input, readChar_pos, readChar_pos]
              omega)
        refine ⟨s', he, by rw [hi, readChar_input, readChar_input], ?_, ?_⟩
        · have ha := readChar_pos s
          have hb := readChar_pos (readChar s)
          omega
        · exact le_trans (readChar_line s)
            (le_trans (readChar_line (readChar s)) hl)
      · rw [if_neg h2]
        by_cases h3 : curr s = quote
        · rw [if_pos h3]
          refine ⟨readChar s, rfl, readChar_input s, ?_, readChar_line s⟩
          have h2 := readChar_pos s; omega
        · rw [if_neg h3]
          by_cases h4 : curr s = '\n'
          · rw [if_pos h4]
            exact ⟨s, rfl, rfl, le_refl _, le_refl _⟩
          · rw [if_neg h4]
            obtain ⟨s', he, hi, hp, hl⟩ := ih (readChar s)
              (by rw [readChar_input, readChar_pos]; omega)
            refine ⟨s', he, by rw [hi, readChar_input], ?_, ?_⟩
            · have h2 := readChar_pos s; omega
            · exact le_trans (readChar_line s) hl

theorem readVarBraceF_tot : ∀ (fuel : Nat) (depth : Nat) (s : LexSt),
    s.input.length + 2 - s.pos < fuel →
    ∃ s', readVarBraceF fuel depth s = some s' ∧ s'.input = s.input ∧
      s.pos ≤ s'.pos ∧ s.line ≤ s'.line := by
  intro fuel
  induction fuel with
  | zero => intro d s h; omega
  | succ f ih =>
    intro d s h
    rw [readVarBraceF]
    by_cases hc : curr s ≠ nulChar ∧ d > 0
    · rw [if_pos hc]
      have hlt : s.pos < s.input.length := pos_lt_of_curr_ne s hc.1
      obtain ⟨s', he, hi, hp, hl⟩ := ih _ (readChar s)
        (by rw [readChar_input, readChar_pos]; omega)
      refine ⟨s', he, by rw [hi, readChar_input], ?_, ?_⟩
      · have h2 := readChar_pos s; omega
      · exact le_trans (readChar_line s) hl
    · rw [if_neg hc]
      exact ⟨s, rfl, rfl, le_refl _, le_refl _⟩

theorem readVarPlainF_tot : ∀ (fuel : Nat) (s : LexSt),
    s.input.length + 2 - s.pos < fuel →
    ∃ s', readVarPlainF fuel s = some s' ∧ s'.input = s.input ∧
      s.pos ≤ s'.pos ∧ s.line ≤ s'.line := by
  intro fuel
  induction fuel with
  | zero => intro s h; omega
  | succ f ih =>
    intro s h
    rw [readVarPlainF]
    by_cases hc : isVarChar (curr s) = true
    · rw [if_pos hc]
      have hne : curr s ≠ nulChar := by
        intro hnul
        rw [hnul] at hc
        exact absurd hc (by decide)
      have hlt : s.pos < s.input.length := pos_lt_of_curr_ne s hne
      obtain ⟨s', he, hi, hp, hl⟩ := ih (readChar s)
        (by rw [readChar_input, readChar_pos]; omega)
      refine ⟨s', he, by rw [hi, readChar_input], ?_, ?_⟩
      · have h2 := readChar_pos s; omega
      · exact le_trans (readChar_line s) hl
    · rw [if_neg hc]
      exact ⟨s, rfl, rfl, le_refl _, le_refl _⟩

theorem readFlagNameF_tot : ∀ (fuel : Nat) (s : LexSt),
    s.input.length + 2 - s.pos < fuel →
    ∃ s', readFlagNameF fuel s = some s' ∧ s'.input = s.input ∧
      s.pos ≤ s'.pos ∧ s.line ≤ s'.line := by
  intro fuel
  induction fuel with
  | zero => intro s h; omega
  | succ f ih =>
    intro s h
    rw [readFlagNameF]
    by_cases hc : isWordChar (curr s) = true ∨ curr s = '-'
    · rw [if_pos hc]
      have hne : curr s ≠ nulChar := by
        intro hnul
        rw [hnul] at hc
        rcases hc with h1 | h1
        · exact absurd h1 (by decide)
        · exact absurd h1 (by decide)
      have hlt : s.pos < s.input.length := pos_lt_of_curr_ne s hne
      obtain ⟨s', he, hi, hp, hl⟩ := ih (readChar s)
        (by rw [readChar_input, readChar_pos]; omega)
      refine ⟨s', he, by rw [hi, readChar_input], ?_, ?_⟩
      · have h2 := readChar_pos s; omega
      · exact le_trans (readChar_line s) hl
    · rw [if_neg hc]
      exact ⟨s, rfl, rfl, le_refl _, le_refl _⟩

theorem readFlagQuotedF_tot (quote esc : Char) : ∀ (fuel : Nat) (s : LexSt),
    s.input.length + 2 - s.pos < fuel →
    ∃ s', readFlagQuotedF quote esc fuel s = some s' ∧ s'.input = s.input ∧
      s.pos ≤ s'.pos ∧ s.line ≤ s'.line := by
  intro fuel
  induction fuel with
  | zero => intro s h; omega
  | succ f ih =>
    intro s h
    rw [readFlagQuotedF]
    by_cases hc : curr s ≠ nulChar ∧ curr s ≠ quote ∧ curr s ≠ '\n'
    · rw [if_pos hc]
      have hlt : s.pos < s.input.length := pos_lt_of_curr_ne s hc.1
      have hstep : ∀ s1 : LexSt, s1 = (if curr s = esc then readChar s else s) →
          s1.input = s.input ∧ s.pos ≤ s1.pos ∧ s1.pos ≤ s.pos + 1 ∧
            s.line ≤ s1.line := by
        intro s1 hs1
        by_cases he : curr s = esc
        · rw [if_pos he] at hs1
          subst hs1
          exact ⟨readChar_input s, by have := readChar_pos s; omega,
            by have := readChar_pos s; omega, readChar_line s⟩
        · rw [if_neg he] at hs1
          subst hs1
          exact ⟨rfl, le_refl _, by omega, le_refl _⟩
      obtain ⟨hi1, hp1, hq1, hl1⟩ := hstep _ rfl
      obtain ⟨s', he, hi, hp, hl⟩ := ih
        (readChar (if curr s = esc then readChar s else s))
        (by rw [readChar_input, readChar_pos, hi1]; omega)
      refine ⟨s', he, by rw [hi, readChar_input, hi1], ?_, ?_⟩
      · have h2 := readChar_pos (if curr s = esc then readChar s else s)
        omega
      · exact le_trans hl1
          (le_trans (readChar_line (if curr s = esc then readChar s else s)) hl)
    · rw [if_neg hc]
      exact ⟨s, rfl, rfl, le_refl _, le_refl _⟩

theorem readFlagBareF_tot : ∀ (fuel : Nat) (s : LexSt),
    s.input.length + 2 - s.pos < fuel →
    ∃ s', readFlagBareF fuel s = some s' ∧ s'.input = s.input ∧
      s.pos ≤ s'.pos ∧ s.line ≤ s'.line := by
  intro fuel
  induction fuel with
  | zero => intro s h; omega
  | succ f ih =>
    intro s h
    rw [readFlagBareF]
    by_cases hc : curr s ≠ nulChar ∧ curr s ≠ ' ' ∧ curr s ≠ '\t' ∧ curr s ≠ '\n'
    · rw [if_pos hc]
      have hlt : s.pos < s.input.length := pos_lt_of_curr_ne s hc.1
      obtain ⟨s', he, hi, hp, hl⟩ := ih (readChar s)
        (by rw [readChar_input, readChar_pos]; omega)
      refine ⟨s', he, by rw [hi, readChar_input], ?_, ?_⟩
      · have h2 := readChar_pos s; omega
      · exact le_trans (readChar_line s) hl
    · rw [if_neg hc]
      exact ⟨s, rfl, rfl, le_refl _, le_refl _⟩

theorem skipTabsF_tot : ∀ (fuel : Nat) (s : LexSt),
    s.input.length + 2 - s.pos < fuel →
    ∃ s', skipTabsF fuel s = some s' ∧ s'.input = s.input ∧
      s.pos ≤ s'.pos ∧ s.line ≤ s'.line := by
  intro fuel
  induction fuel with
  | zero => intro s h; omega
  | succ f ih =>
    intro s h
    rw [skipTabsF]
    by_cases hc : curr s = '\t'
    · rw [if_pos hc]
      have hne : curr s ≠ nulChar := by rw [hc]; decide
      have hlt : s.pos < s.input.length := pos_lt_of_curr_ne s hne
      obtain ⟨s', he, hi, hp, hl⟩ := ih (readChar s)
        (by rw [readChar_input, readChar_pos]; omega)
      refine ⟨s', he, by rw [hi, readChar_input], ?_, ?_⟩
      · have h2 := readChar_pos s; omega
      · exact le_trans (readChar_line s) hl
    · rw [if_neg hc]
      exact ⟨s, rfl, rfl, le_refl _, le_refl _⟩

theorem skipSpacesTabsF_tot : ∀ (fuel : Nat) (s : LexSt),
    s.input.length + 2 - s.pos < fuel →
    ∃ s', skipSpacesTabsF fuel s = some s' ∧ s'.input = s.input ∧
      s.pos ≤ s'.pos ∧ s.line ≤ s'.line := by
  intro fuel
  induction fuel with
  | zero => intro s h; omega
  | succ f ih =>
    intro s h
    rw [skipSpacesTabsF]
    by_cases hc : curr s = ' ' ∨ curr s = '\t'
    · rw [if_pos hc]
      have hne : curr s ≠ nulChar := by
        rcases hc with h1 | h1 <;> rw [h1] <;> decide
      have hlt : s.pos < s.input.length := pos_lt_of_curr_ne s hne
      obtain ⟨s', he, hi, hp, hl⟩ := ih (readChar s)
        (by rw [readChar_input, readChar_pos]; omega)
      refine ⟨s', he, by rw [hi, readChar_input], ?_, ?_⟩
      · have h2 := readChar_pos s; omega
      · exact le_trans (readChar_line s) hl
    · rw [if_neg hc]
      exact ⟨s, rfl, rfl, le_refl _, le_refl _⟩

theorem heredocDelimQuotedF_tot (quote : Char) : ∀ (fuel : Nat) (s : LexSt),
    s.input.length + 2 - s.pos < fuel →
    ∃ s', heredocDelimQuotedF quote fuel s = some s' ∧ s'.input = s.input ∧
      s.pos ≤ s'.pos ∧ s.line ≤ s'.line := by
  intro fuel
  induction fuel with
  | zero => intro s h; omega
  | succ f ih =>
    intro s h
    rw [heredocDelimQuotedF]
    by_cases hc : curr s ≠ nulChar ∧ curr s ≠ quote ∧ curr s ≠ '\n'
    · rw [if_pos hc]
      have hlt : s.pos < s.input.length := pos_lt_of_curr_ne s hc.1
      obtain ⟨s', he, hi, hp, hl⟩ := ih (readChar s)
        (by rw [readChar_input, readChar_pos]; omega)
      refine ⟨s', he, by rw [hi, readChar_input], ?_, ?_⟩
      · have h2 := readChar_pos s; omega
      · exact le_trans (readChar_line s) hl
    · rw [if_neg hc]
      exact ⟨s, rfl, rfl, le_refl _, le_refl _⟩

theorem heredocContentF_tot (delim : Str) (stripTabs : Bool) :
    ∀ (fuel : Nat) (s : LexSt),
    s.input.length + 2 - s.pos < fuel →
    ∃ s', heredocContentF delim stripTabs fuel s = some s' ∧
      s'.input = s.input ∧ s.pos ≤ s'.pos ∧ s.line ≤ s'.line := by
  intro fuel
  induction fuel with
  | zero => intro s h; omega
  | succ f ih =>
    intro s h
    rw [heredocContentF]
    by_cases h1 : curr s = nulChar
    · rw [if_pos h1]
      exact ⟨s, rfl, rfl, le_refl _, le_refl _⟩
    · rw [if_neg h1]
      have hlt := pos_lt_of_curr_ne s h1
      have key : ∀ s1 : LexSt, s1.input = s.input → s.pos ≤ s1.pos →
          s.line ≤ s1.line →
          ∃ s', (do
            let s2 ← readBareWordF (bigFuel s) s1
            let s3 ← skipSpacesTabsF (bigFuel s) s2
            if sliceStr s.input s1.pos s2.pos = delim ∧
                (curr s3 = '\n' ∨ curr s3 = nulChar) then
              some (if curr s3 = '\n' then readChar s3 else s3)
            else do
              let s4 ← consumeToEolF (bigFuel s) s3
              heredocContentF delim stripTabs f
                (if curr s4 = '\n' then readChar s4 else s4)) = some s' ∧
            s'.input = s.input ∧ s.pos ≤ s'.pos ∧ s.line ≤ s'.line := by
        intro s1 hi1 hp1 hl1
        obtain ⟨s2, he2, hi2, hp2, hl2, hpost2⟩ := readBareWordF_tot (bigFuel s) s1
          (by rw [bigFuel, hi1]; omega)
        rw [he2]
        simp only [Option.bind_eq_bind, Option.some_bind]
        obtain ⟨s3, he3, hi3, hp3, hl3⟩ := skipSpacesTabsF_tot (bigFuel s) s2
          (by rw [bigFuel, hi2, hi1]; omega)
        rw [he3]
        simp only [Option.bind_eq_bind, Option.some_bind]
        by_cases hw : sliceStr s.input s1.pos s2.pos = delim ∧
            (curr s3 = '\n' ∨ curr s3 = nulChar)
        · rw [if_pos hw]
          by_cases hn : curr s3 = '\n'
          · rw [if_pos hn]
            refine ⟨readChar s3, rfl, ?_, ?_, ?_⟩
            · rw [readChar_input, hi3, hi2, hi1]
            · have := readChar_pos s3; omega
            · exact le_trans hl1 (le_trans hl2 (le_trans hl3 (readChar_line s3)))
          · rw [if_neg hn]
            exact ⟨s3, rfl, by rw [hi3, hi2, hi1], by omega,
              le_trans hl1 (le_trans hl2 hl3)⟩
        · rw [if_neg hw]
          obtain ⟨s4, he4, hi4, hp4, hl4, hpost4⟩ := consumeToEolF_tot (bigFuel s) s3
            (by rw [bigFuel, hi3, hi2, hi1]; omega)
          rw [he4]
          simp only [Option.bind_eq_bind, Option.some_bind]
          by_cases hn : curr s4 = '\n'
          · rw [if_pos hn]
            obtain ⟨s', he', hi', hp', hl'⟩ := ih (readChar s4)
              (by rw [readChar_input, readChar_pos, hi4, hi3, hi2, hi1]; omega)
            refine ⟨s', he', ?_, ?_, ?_⟩
            · rw [hi', readChar_input, hi4, hi3, hi2, hi1]
            · have := readChar_pos s4; omega
            · exact le_trans hl1 (le_trans hl2 (le_trans hl3
                (le_trans hl4 (le_trans (readChar_line s4) hl'))))
          · rw [if_neg hn]
            have h4nul : curr s4 = nulChar := by tauto
            have hf3 : 3 ≤ f := by omega
            obtain ⟨f', rfl⟩ : ∃ f', f = f' + 1 := ⟨f - 1, by omega⟩
            rw [heredocContentF, if_pos h4nul]
            exact ⟨s4, rfl, by rw [hi4, hi3, hi2, hi1], by omega,
              le_trans hl1 (le_trans hl2 (le_trans hl3 hl4))⟩
      cases stripTabs
      · exact key s rfl (le_refl _) (le_refl _)
      · obtain ⟨s1, he1, hi1, hp1, hl1⟩ := skipTabsF_tot (bigFuel s) s
          (by rw [bigFuel]; omega)
        rw [he1]
        exact key s1 hi1 hp1 hl1

theorem lookupKeyword_ne_eof (s : Str) : lookupKeyword s ≠ .eof := by
  intro h
  rw [lookupKeyword] at h
  by_cases h0 : s = "FROM".toList
  · rw [if_pos h0] at h
    exact absurd h (by decide)
  rw [if_neg h0] at h
  by_cases h1 : s = "RUN".toList
  · rw [if_pos h1] at h
    exact absurd h (by decide)
  rw [if_neg h1] at h
  by_cases h2 : s = "CMD".toList
  · rw [if_pos h2] at h
    exact absurd h (by decide)
  rw [if_neg h2] at h
  by_cases h3 : s = "LABEL".toList
  · rw [if_pos h3] at h
    exact absurd h (by decide)
  rw [if_neg h3] at h
  by_cases h4 : s = "MAINTAINER".toList
  · rw [if_pos h4] at h
    exact absurd h (by decide)
  rw [if_neg h4] at h
  by_cases h5 : s = "EXPOSE".toList
  · rw [if_pos h5] at h
    exact absurd h (by decide)
  rw [if_neg h5] at h
  by_cases h6 : s = "ENV".toList
  · rw [if_pos h6] at h
    exact absurd h (by decide)
  rw [if_neg h6] at h
  by_cases h7 : s = "ADD".toList
  · rw [if_pos h7] at h
    exact absurd h (by decide)
  rw [if_neg h7] at h
  by_cases h8 : s = "COPY".toList
  · rw [if_pos h8] at h
    exact absurd h (by decide)
  rw [if_neg h8] at h
  by_cases h9 : s = "ENTRYPOINT".toList
  · rw [if_pos h9] at h
    exact absurd h (by decide)
  rw [if_neg h9] at h
  by_cases h10 : s = "VOLUME".toList
  · rw [if_pos h10] at h
    exact absurd h (by decide)
  rw [if_neg h10] at h
  by_cases h11 : s = "USER".toList
  · rw [if_pos h11] at h
    exact absurd h (by decide)
  rw [if_neg h11] at h
  by_cases h12 : s = "WORKDIR".toList
  · rw [if_pos h12] at h
    exact absurd h (by decide)
  rw [if_neg h12] at h
  by_cases h13 : s = "ARG".toList
  · rw [if_pos h13] at h
    exact absurd h (by decide)
  rw [if_neg h13] at h
  by_cases h14 : s = "ONBUILD".toList
  · rw [if_pos h14] at h
    exact absurd h (by decide)
  rw [if_neg h14] at h
  by_cases h15 : s = "STOPSIGNAL".toList
  · rw [if_pos h15] at h
    exact absurd h (by decide)
  rw [if_neg h15] at h
  by_cases h16 : s = "HEALTHCHECK".toList
  · rw [if_pos h16] at h
    exact absurd h (by decide)
  rw [if_neg h16] at h
  by_cases h17 : s = "SHELL".toList
  · rw [if_pos h17] at h
    exact absurd h (by decide)
  rw [if_neg h17] at h
  exact absurd h (by decide)

theorem readStringTok_contract (s : LexSt) (start : Pos) :
    ∃ t s', readStringTok s start = some (t, s') ∧ s'.input = s.input ∧
      s.pos < s'.pos ∧ s.line ≤ s'.line ∧ t.pos = start ∧
      t.endPos = posOf s' ∧ t.type ≠ TokType.eof := by
  rw [readStringTok]
  obtain ⟨s2, he2, hi2, hp2, hl2⟩ := readStringLoopF_tot (curr s) s.escapeChar
    (bigFuel s) (readChar s)
    (by rw [readChar_input, readChar_pos, bigFuel]; omega)
  rw [he2]
  simp only [Option.bind_eq_bind, Option.some_bind]
  refine ⟨_, s2, rfl, by rw [hi2, readChar_input], ?_, ?_, rfl, rfl,
    fun hx => TokType.noConfusion hx⟩
  · have := readChar_pos s; omega
  · exact le_trans (readChar_line s) hl2

theorem readVariableTok_contract (s : LexSt) (start : Pos) :
    ∃ t s', readVariableTok s start = some (t, s') ∧ s'.input = s.input ∧
      s.pos < s'.pos ∧ s.line ≤ s'.line ∧ t.pos = start ∧
      t.endPos = posOf s' ∧ t.type ≠ TokType.eof := by
  rw [readVariableTok]
  have key : ∀ s3 : LexSt, s3.input = s.input → s.pos + 1 ≤ s3.pos →
      s.line ≤ s3.line →
      ∃ t s', (some (mkTok s3 start TokType.varLit
          (sliceStr s.input s.pos s3.pos), s3) : Option (Token × LexSt)) =
          some (t, s') ∧ s'.input = s.input ∧ s.pos < s'.pos ∧
        s.line ≤ s'.line ∧ t.pos = start ∧ t.endPos = posOf s' ∧
        t.type ≠ TokType.eof := by
    intro s3 hi3 hp3 hl3
    exact ⟨_, s3, rfl, hi3, by omega, hl3, rfl, rfl,
      fun hx => TokType.noConfusion hx⟩
  by_cases hb : curr (readChar s) = '\x7b'
  · rw [if_pos hb]
    obtain ⟨s3, he3, hi3, hp3, hl3⟩ := readVarBraceF_tot (bigFuel s) 1
      (readChar (readChar s))
      (by rw [readChar_input, readChar_input, readChar_pos, readChar_pos,
            bigFuel]
          omega)
    rw [he3]
    refine key s3 (by rw [hi3, readChar_input, readChar_input]) ?_ ?_
    · have ha := readChar_pos s
      have hb2 := readChar_pos (readChar s)
      omega
    · exact le_trans (readChar_line s)
        (le_trans (readChar_line (readChar s)) hl3)
  · rw [if_neg hb]
    obtain ⟨s3, he3, hi3, hp3, hl3⟩ := readVarPlainF_tot (bigFuel s)
      (readChar s) (by rw [readChar_input, readChar_pos, bigFuel]; omega)
    rw [he3]
    refine key s3 (by rw [hi3, readChar_input]) ?_ ?_
    · have := readChar_pos s; omega
    · exact le_trans (readChar_line s) hl3

theorem readFlagTok_contract (s : LexSt) (start : Pos) :
    ∃ t s', readFlagTok s start = some (t, s') ∧ s'.input = s.input ∧
      s.pos < s'.pos ∧ s.line ≤ s'.line ∧ t.pos = start ∧
      t.endPos = posOf s' ∧ t.type ≠ TokType.eof := by
  rw [readFlagTok]
  obtain ⟨s2, he2, hi2, hp2, hl2⟩ := readFlagNameF_tot (bigFuel s)
    (readChar (readChar s))
    (by rw [readChar_input, readChar_input, readChar_pos, readChar_pos, bigFuel]
        omega)
  rw [he2]
  simp only [Option.bind_eq_bind, Option.some_bind]
  have hi2' : s2.input = s.input := by
    rw [hi2, readChar_input, readChar_input]
  have hp2' : s.pos + 2 ≤ s2.pos := by
    have ha := readChar_pos s
    have hb := readChar_pos (readChar s)
    omega
  have hl2' : s.line ≤ s2.line :=
    le_trans (readChar_line s) (le_trans (readChar_line (readChar s)) hl2)
  have key : ∀ s5 : LexSt, s5.input = s.input → s2.pos ≤ s5.pos →
      s2.line ≤ s5.line →
      ∃ t s', (some (mkTok s5 start TokType.flag
          (sliceStr s.input s.pos s5.pos), s5) : Option (Token × LexSt)) =
          some (t, s') ∧ s'.input = s.input ∧ s.pos < s'.pos ∧
        s.line ≤ s'.line ∧ t.pos = start ∧ t.endPos = posOf s' ∧
        t.type ≠ TokType.eof := by
    intro s5 hi5 hp5 hl5
    exact ⟨_, s5, rfl, hi5, by omega, le_trans hl2' hl5, rfl, rfl,
      fun hx => TokType.noConfusion hx⟩
  by_cases hq : curr s2 = '='
  · rw [if_pos hq]
    by_cases hqq : curr (readChar s2) = '"' ∨ curr (readChar s2) = '\''
    · rw [if_pos hqq]
      obtain ⟨s4, he4, hi4, hp4, hl4⟩ := readFlagQuotedF_tot
        (curr (readChar s2)) s.escapeChar (bigFuel s) (readChar (readChar s2))
        (by rw [readChar_input, readChar_input, readChar_pos, readChar_pos,
              hi2', bigFuel]
            omega)
      rw [he4]
      have hfacts : (if curr s4 = curr (readChar s2) then readChar s4
          else s4).input = s.input ∧
          s2.pos ≤ (if curr s4 = curr (readChar s2) then readChar s4
            else s4).pos ∧
          s2.line ≤ (if curr s4 = curr (readChar s2) then readChar s4
            else s4).line := by
        by_cases hc4 : curr s4 = curr (readChar s2)
        · rw [if_pos hc4]
          refine ⟨?_, ?_, ?_⟩
          · rw [readChar_input, hi4, readChar_input, readChar_input, hi2']
          · have ha := readChar_pos s2
            have hb := readChar_pos (readChar s2)
            have hc := readChar_pos s4
            omega
          · exact le_trans (readChar_line s2)
              (le_trans (readChar_line (readChar s2))
                (le_trans hl4 (readChar_line s4)))
        · rw [if_neg hc4]
          refine ⟨?_, ?_, ?_⟩
          · rw [hi4, readChar_input, readChar_input, hi2']
          · have ha := readChar_pos s2
            have hb := readChar_pos (readChar s2)
            omega
          · exact le_trans (readChar_line s2)
              (le_trans (readChar_line (readChar s2)) hl4)
      exact key _ hfacts.1 hfacts.2.1 hfacts.2.2
    · rw [if_neg hqq]
      obtain ⟨s4, he4, hi4, hp4, hl4⟩ := readFlagBareF_tot (bigFuel s)
        (readChar s2)
        (by rw [readChar_input, readChar_pos, hi2', bigFuel]; omega)
      rw [he4]
      refine key s4 (by rw [hi4, readChar_input, hi2']) ?_ ?_
      · have := readChar_pos s2; omega
      · exact le_trans (readChar_line s2) hl4
  · rw [if_neg hq]
    exact key s2 hi2' (le_refl _) (le_refl _)

theorem readerChain (x : Option LexSt) (k : LexSt → Option (Token × LexSt))
    (P : LexSt → Prop) (C : Token → LexSt → Prop)
    (hx : ∃ a, x = some a ∧ P a)
    (hk : ∀ a, P a → ∃ t s', k a = some (t, s') ∧ C t s') :
    ∃ t s', (x >>= k) = some (t, s') ∧ C t s' := by
  obtain ⟨a, ha, hPa⟩ := hx
  obtain ⟨t, s', hts, hC⟩ := hk a hPa
  refine ⟨t, s', ?_, hC⟩
  rw [ha]
  simp only [Option.bind_eq_bind, Option.some_bind]
  exact hts

set_option maxHeartbeats 1000000 in
theorem readHeredocTok_contract (s : LexSt) (start : Pos) :
    ∃ t s', readHeredocTok s start = some (t, s') ∧ s'.input = s.input ∧
      s.pos < s'.pos ∧ s.line ≤ s'.line ∧ t.pos = start ∧
      t.endPos = posOf s' ∧ t.type ≠ TokType.eof := by
  rw [readHeredocTok]
  have key : ∀ (d : Str) (s5 : LexSt), s5.input = s.input →
      s.pos + 2 ≤ s5.pos → s.line ≤ s5.line →
      ∃ t s', (do
        let s6 ← consumeToEolF (bigFuel s) s5
        let s8 ← heredocContentF d (decide (curr (readChar (readChar s)) = '-'))
          (bigFuel s) (if curr s6 = '\n' then readChar s6 else s6)
        some (mkTok s8 start TokType.heredoc (sliceStr s.input s.pos s8.pos),
          s8) : Option (Token × LexSt)) = some (t, s') ∧
        s'.input = s.input ∧ s.pos < s'.pos ∧ s.line ≤ s'.line ∧
        t.pos = start ∧ t.endPos = posOf s' ∧ t.type ≠ TokType.eof := by
    intro d s5 hi5 hp5 hl5
    obtain ⟨s6, he6, hi6, hp6, hl6, hpost6⟩ := consumeToEolF_tot (bigFuel s) s5
      (by rw [bigFuel, hi5]; omega)
    rw [he6]
    simp only [Option.bind_eq_bind, Option.some_bind]
    have hs7 : (if curr s6 = '\n' then readChar s6 else s6).input = s.input ∧
        s6.pos ≤ (if curr s6 = '\n' then readChar s6 else s6).pos ∧
        s6.line ≤ (if curr s6 = '\n' then readChar s6 else s6).line := by
      by_cases hn : curr s6 = '\n'
      · rw [if_pos hn]
        exact ⟨by rw [readChar_input, hi6, hi5],
          by have := readChar_pos s6; omega, readChar_line s6⟩
      · rw [if_neg hn]
        exact ⟨by rw [hi6, hi5], le_refl _, le_refl _⟩
    obtain ⟨s8, he8, hi8, hp8, hl8⟩ := heredocContentF_tot d
      (decide (curr (readChar (readChar s)) = '-')) (bigFuel s)
      (if curr s6 = '\n' then readChar s6 else s6)
      (by rw [bigFuel, hs7.1]; omega)
    rw [he8]
    simp only [Option.bind_eq_bind, Option.some_bind]
    refine ⟨_, s8, rfl, by rw [hi8, hs7.1], ?_, ?_, rfl, rfl,
      fun hx => TokType.noConfusion hx⟩
    · have h1 := hs7.2.1
      omega
    · exact le_trans hl5 (le_trans hl6 (le_trans hs7.2.2 hl8))
  by_cases hdash : curr (readChar (readChar s)) = '-'
  · rw [if_pos hdash]
    by_cases hq : curr (readChar (readChar (readChar s))) = '"' ∨
        curr (readChar (readChar (readChar s))) = '\''
    · rw [if_pos hq]
      apply readerChain _ _
        (fun s4 => s4.input = s.input ∧ s.pos + 2 ≤ s4.pos ∧ s.line ≤ s4.line)
      · obtain ⟨s4, he4, hi4, hp4, hl4⟩ := heredocDelimQuotedF_tot
          (curr (readChar (readChar (readChar s)))) (bigFuel s)
          (readChar (readChar (readChar (readChar s))))
          (by rw [readChar_input, readChar_input, readChar_input, readChar_input, readChar_pos, bigFuel]
              have hr0 := readChar_pos (s)
              have hr1 := readChar_pos (readChar (s))
              have hr2 := readChar_pos (readChar (readChar (s)))
              have hr3 := readChar_pos (readChar (readChar (readChar (s))))
              omega)
        refine ⟨s4, he4, ?_, ?_, ?_⟩
        · rw [hi4, readChar_input, readChar_input, readChar_input, readChar_input]
        · have hr0 := readChar_pos (s)
          have hr1 := readChar_pos (readChar (s))
          have hr2 := readChar_pos (readChar (readChar (s)))
          have hr3 := readChar_pos (readChar (readChar (readChar (s))))
          omega
        · refine le_trans ?_ hl4
          exact le_trans (readChar_line (s)) (le_trans (readChar_line (readChar (s))) (le_trans (readChar_line (readChar (readChar (s)))) (readChar_line (readChar (readChar (readChar (s)))))))
      · intro a ha
        obtain ⟨hia, hpa, hla⟩ := ha
        rw [Option.bind_eq_bind, Option.some_bind]
        have hfin : (if curr a = curr (readChar (readChar (readChar s))) then readChar a else a).input =
              s.input ∧
            s.pos + 2 ≤ (if curr a = curr (readChar (readChar (readChar s))) then readChar a else a).pos ∧
            s.line ≤ (if curr a = curr (readChar (readChar (readChar s))) then readChar a else a).line := by
          by_cases hc4 : curr a = curr (readChar (readChar (readChar s)))
          · rw [if_pos hc4]
            refine ⟨by rw [readChar_input, hia], ?_,
              le_trans hla (readChar_line a)⟩
            have := readChar_pos a
            omega
          · rw [if_neg hc4]
            exact ⟨hia, hpa, hla⟩
        exact key _ _ hfin.1 hfin.2.1 hfin.2.2
    · rw [if_neg hq]
      apply readerChain _ _
        (fun s4 => s4.input = s.input ∧ s.pos + 2 ≤ s4.pos ∧ s.line ≤ s4.line)
      · obtain ⟨s4, he4, hi4, hp4, hl4, hpost4⟩ := readBareWordF_tot (bigFuel s)
          (readChar (readChar (readChar s)))
          (by rw [readChar_input, readChar_input, readChar_input, readChar_pos, bigFuel]
              have hr0 := readChar_pos (s)
              have hr1 := readChar_pos (readChar (s))
              have hr2 := readChar_pos (readChar (readChar (s)))
              omega)
        refine ⟨s4, he4, ?_, ?_, ?_⟩
        · rw [hi4, readChar_input, readChar_input, readChar_input]
        · have hr0 := readChar_pos (s)
          have hr1 := readChar_pos (readChar (s))
          have hr2 := readChar_pos (readChar (readChar (s)))
          omega
        · refine le_trans ?_ hl4
          exact le_trans (readChar_line (s)) (le_trans (readChar_line (readChar (s))) (readChar_line (readChar (readChar (s)))))
      · intro a ha
        obtain ⟨hia, hpa, hla⟩ := ha
        rw [Option.bind_eq_bind, Option.some_bind]
        exact key _ a hia hpa hla
  · rw [if_neg hdash]
    by_cases hq : curr (readChar (readChar s)) = '"' ∨
        curr (readChar (readChar s)) = '\''
    · rw [if_pos hq]
      apply readerChain _ _
        (fun s4 => s4.input = s.input ∧ s.pos + 2 ≤ s4.pos ∧ s.line ≤ s4.line)
      · obtain ⟨s4, he4, hi4, hp4, hl4⟩ := heredocDelimQuotedF_tot
          (curr (readChar (readChar s))) (bigFuel s)
          (readChar (readChar (readChar s)))
          (by rw [readChar_input, readChar_input, readChar_input, readChar_pos, bigFuel]
              have hr0 := readChar_pos (s)
              have hr1 := readChar_pos (readChar (s))
              have hr2 := readChar_pos (readChar (readChar (s)))
              omega)
        refine ⟨s4, he4, ?_, ?_, ?_⟩
        · rw [hi4, readChar_input, readChar_input, readChar_input]
        · have hr0 := readChar_pos (s)
          have hr1 := readChar_pos (readChar (s))
          have hr2 := readChar_pos (readChar (readChar (s)))
          omega
        · refine le_trans ?_ hl4
          exact le_trans (readChar_line (s)) (le_trans (readChar_line (readChar (s))) (readChar_line (readChar (readChar (s)))))
      · intro a ha
        obtain ⟨hia, hpa, hla⟩ := ha
        rw [Option.bind_eq_bind, Option.some_bind]
        have hfin : (if curr a = curr (readChar (readChar s)) then readChar a else a).input =
              s.input ∧
            s.pos + 2 ≤ (if curr a = curr (readChar (readChar s)) then readChar a else a).pos ∧
            s.line ≤ (if curr a = curr (readChar (readChar s)) then readChar a else a).line := by
          by_cases hc4 : curr a = curr (readChar (readChar s))
          · rw [if_pos hc4]
            refine ⟨by rw [readChar_input, hia], ?_,
              le_trans hla (readChar_line a)⟩
            have := readChar_pos a
            omega
          · rw [if_neg hc4]
            exact ⟨hia, hpa, hla⟩
        exact key _ _ hfin.1 hfin.2.1 hfin.2.2
    · rw [if_neg hq]
      apply readerChain _ _
        (fun s4 => s4.input = s.input ∧ s.pos + 2 ≤ s4.pos ∧ s.line ≤ s4.line)
      · obtain ⟨s4, he4, hi4, hp4, hl4, hpost4⟩ := readBareWordF_tot (bigFuel s)
          (readChar (readChar s))
          (by rw [readChar_input, readChar_input, readChar_pos, bigFuel]
              have hr0 := readChar_pos (s)
              have hr1 := readChar_pos (readChar (s))
              omega)
        refine ⟨s4, he4, ?_, ?_, ?_⟩
        · rw [hi4, readChar_input, readChar_input]
        · have hr0 := readChar_pos (s)
          have hr1 := readChar_pos (readChar (s))
          omega
        · refine le_trans ?_ hl4
          exact le_trans (readChar_line (s)) (readChar_line (readChar (s)))
      · intro a ha
        obtain ⟨hia, hpa, hla⟩ := ha
        rw [Option.bind_eq_bind, Option.some_bind]
        exact key _ a hia hpa hla

theorem readWordTok_contract (s : LexSt) (start : Pos)
    (hw : isWordChar (curr s) = true) :
    ∃ t s', readWordTok s start = some (t, s') ∧ s'.input = s.input ∧
      s.pos < s'.pos ∧ s.line ≤ s'.line ∧ t.pos = start ∧
      t.endPos = posOf s' ∧ t.type ≠ TokType.eof := by
  rw [readWordTok]
  obtain ⟨s1, he1, hi1, hp1, hl1, hpost1⟩ := readBareWordF_tot (bigFuel s) s
    (by rw [bigFuel]; omega)
  rw [he1]
  simp only [Option.bind_eq_bind, Option.some_bind]
  have hstrict : s.pos < s1.pos := by
    rcases Nat.lt_or_ge s.pos s1.pos with h | h
    · exact h
    · exfalso
      have hpe : s1.pos = s.pos := by omega
      have hcc : curr s1 = curr s := by rw [curr, curr, hi1, hpe]
      rw [hcc, hw] at hpost1
      exact absurd hpost1 (by decide)
  by_cases hals : s1.atLineStart = true
  · rw [if_pos hals]
    by_cases hkw : lookupKeyword (strToUpper (sliceStr s.input s.pos s1.pos)) ≠
        TokType.word
    · rw [if_pos hkw]
      exact ⟨_, _, rfl, hi1, hstrict, hl1, rfl, rfl, lookupKeyword_ne_eof _⟩
    · rw [if_neg hkw]
      exact ⟨_, _, rfl, hi1, hstrict, hl1, rfl, rfl,
        fun hx => TokType.noConfusion hx⟩
  · rw [if_neg hals]
    exact ⟨_, _, rfl, hi1, hstrict, hl1, rfl, rfl,
      fun hx => TokType.noConfusion hx⟩

theorem escProbe_contract (s : LexSt) :
    ∃ r, escProbe s = some r ∧ ∀ p, r = some p →
      p.input = s.input ∧ s.pos < p.pos ∧ s.line ≤ p.line := by
  rw [escProbe]
  obtain ⟨p2, he2, hi2, hp2, hl2⟩ := skipWhitespaceF_tot (bigFuel s)
    (readChar s) (by rw [readChar_input, readChar_pos, bigFuel]; omega)
  rw [he2]
  simp only [Option.bind_eq_bind, Option.some_bind]
  obtain ⟨p3, he3, hi3, hp3, hl3, hpost3⟩ := readBareWordF_tot (bigFuel s) p2
    (by rw [bigFuel, hi2, readChar_input]; omega)
  rw [he3]
  simp only [Option.bind_eq_bind, Option.some_bind]
  by_cases hEsc : strToLower (sliceStr s.input p2.pos p3.pos) = "escape".toList
  · rw [if_pos hEsc]
    obtain ⟨p4, he4, hi4, hp4, hl4⟩ := skipWhitespaceF_tot (bigFuel s) p3
      (by rw [bigFuel, hi3, hi2, readChar_input]; omega)
    rw [he4]
    simp only [Option.bind_eq_bind, Option.some_bind]
    by_cases hEq : curr p4 = '='
    · rw [if_pos hEq]
      obtain ⟨p6, he6, hi6, hp6, hl6⟩ := skipWhitespaceF_tot (bigFuel s)
        (readChar p4)
        (by rw [readChar_input, readChar_pos, hi4, hi3, hi2, readChar_input]
            rw [bigFuel]
            omega)
      rw [he6]
      simp only [Option.bind_eq_bind, Option.some_bind]
      by_cases hnn : curr p6 ≠ nulChar ∧ curr p6 ≠ '\n'
      · rw [if_pos hnn]
        obtain ⟨p8, he8, hi8, hp8, hl8, hpost8⟩ := consumeToEolF_tot (bigFuel s)
          { p6 with escapeChar := curr p6 }
          (by show p6.input.length + 2 - p6.pos < bigFuel s
              rw [hi6, readChar_input, hi4, hi3, hi2, readChar_input, bigFuel]
              omega)
        rw [he8]
        simp only [Option.bind_eq_bind, Option.some_bind]
        refine ⟨some p8, rfl, fun p hp => ?_⟩
        have hpp : p = p8 := (Option.some.inj hp).symm
        rw [hpp]
        refine ⟨?_, ?_, ?_⟩
        · rw [hi8]
          show p6.input = s.input
          rw [hi6, readChar_input, hi4, hi3, hi2, readChar_input]
        · have hq8 : p6.pos ≤ p8.pos := hp8
          have ha := readChar_pos s
          have hb := readChar_pos p4
          omega
        · have hq8 : p6.line ≤ p8.line := hl8
          exact le_trans (readChar_line s) (le_trans hl2 (le_trans hl3
            (le_trans hl4 (le_trans (readChar_line p4) (le_trans hl6 hq8)))))
      · rw [if_neg hnn]
        exact ⟨none, rfl, fun p hp => Option.noConfusion hp⟩
    · rw [if_neg hEq]
      exact ⟨none, rfl, fun p hp => Option.noConfusion hp⟩
  · rw [if_neg hEsc]
    exact ⟨none, rfl, fun p hp => Option.noConfusion hp⟩

theorem readCommentRegular_contract (s : LexSt) (start : Pos) (startOff : Nat)
    (h1 : curr s ≠ nulChar) (h2 : curr s ≠ '\n') :
    ∃ t s9, readCommentRegular s start startOff = some (t, s9) ∧
      s9.input = s.input ∧ s.pos < s9.pos ∧ s.line ≤ s9.line ∧
      t.pos = start ∧ t.endPos = posOf s9 ∧ t.type = TokType.comment := by
  rw [readCommentRegular]
  obtain ⟨s9, he9, hi9, hp9, hl9, hpost9⟩ := consumeToEolF_tot (bigFuel s) s
    (by rw [bigFuel]; omega)
  rw [he9]
  simp only [Option.bind_eq_bind, Option.some_bind]
  have hstrict : s.pos < s9.pos := by
    rcases Nat.lt_or_ge s.pos s9.pos with hlt | hge
    · exact hlt
    · exfalso
      have hpe : s9.pos = s.pos := by omega
      have hcc : curr s9 = curr s := by rw [curr, curr, hi9, hpe]
      rcases hpost9 with hx | hx
      · exact h1 (by rw [← hcc]; exact hx)
      · exact h2 (by rw [← hcc]; exact hx)
  exact ⟨_, s9, rfl, hi9, hstrict, hl9, rfl, rfl, rfl⟩

theorem readCommentTok_contract (s : LexSt) (start : Pos)
    (hhash : curr s = '#') :
    ∃ t s', readCommentTok s start = some (t, s') ∧ s'.input = s.input ∧
      s.pos < s'.pos ∧ s.line ≤ s'.line ∧ t.pos = start ∧
      t.endPos = posOf s' ∧ t.type ≠ TokType.eof := by
  rw [readCommentTok]
  by_cases hline : s.line = 1 ∨ (s.line = 2 ∧ s.line = 1)
  · rw [if_pos hline]
    obtain ⟨r, her, hr⟩ := escProbe_contract s
    rw [her]
    cases r with
    | none =>
      obtain ⟨t, s9, he9, hi9, hp9, hl9, htp, hte, hty⟩ :=
        readCommentRegular_contract s start s.pos
          (by rw [hhash]; decide) (by rw [hhash]; decide)
      exact ⟨t, s9, he9, hi9, hp9, hl9, htp, hte,
        fun hx => by rw [hty] at hx; exact TokType.noConfusion hx⟩
    | some p8 =>
      obtain ⟨hi8, hp8, hl8⟩ := hr p8 rfl
      exact ⟨_, p8, rfl, hi8, hp8, hl8, rfl, rfl,
        fun hx => TokType.noConfusion hx⟩
  · rw [if_neg hline]
    obtain ⟨t, s9, he9, hi9, hp9, hl9, htp, hte, hty⟩ :=
      readCommentRegular_contract s start s.pos
        (by rw [hhash]; decide) (by rw [hhash]; decide)
    exact ⟨t, s9, he9, hi9, hp9, hl9, htp, hte,
      fun hx => by rw [hty] at hx; exact TokType.noConfusion hx⟩

set_option maxHeartbeats 1000000 in
theorem nextTokenF_contract : ∀ (fuel : Nat) (s0 : LexSt),
    s0.input.length + 2 - s0.pos < fuel →
    ∃ t s', nextTokenF fuel s0 = some (t, s') ∧
      s'.input = s0.input ∧ s0.pos ≤ s'.pos ∧ s0.line ≤ s'.line ∧
      s0.pos ≤ t.pos.offset ∧ s0.line ≤ t.pos.line ∧
      t.pos.offset ≤ s'.pos ∧ t.endPos = posOf s' ∧
      (t.type = TokType.eof ∨ (s0.pos < s'.pos ∧ s0.pos < s0.input.length)) := by
  intro fuel
  induction fuel with
  | zero => intro s0 h; omega
  | succ f ih =>
    intro s0 h
    rw [nextTokenF]
    obtain ⟨a, hea, hia, hpa, hla⟩ := skipWhitespaceF_tot (bigFuel s0) s0
      (by rw [bigFuel]; omega)
    rw [hea]
    simp only [Option.bind_eq_bind, Option.some_bind]
    by_cases h1 : curr a = nulChar
    · rw [if_pos h1]
      refine ⟨_, a, rfl, hia, hpa, hla, hpa, hla, le_refl _, rfl, Or.inl rfl⟩
    · rw [if_neg h1]
      have hlt : a.pos < s0.input.length := by
        have := pos_lt_of_curr_ne a h1
        rw [hia] at this
        exact this
      have hlift : ∀ (t : Token) (s' : LexSt), s'.input = a.input →
          a.pos < s'.pos → a.line ≤ s'.line → t.pos = posOf a →
          t.endPos = posOf s' → t.type ≠ TokType.eof →
          (s'.input = s0.input ∧ s0.pos ≤ s'.pos ∧ s0.line ≤ s'.line ∧
            s0.pos ≤ t.pos.offset ∧ s0.line ≤ t.pos.line ∧
            t.pos.offset ≤ s'.pos ∧ t.endPos = posOf s' ∧
            (t.type = TokType.eof ∨
              (s0.pos < s'.pos ∧ s0.pos < s0.input.length))) := by
        intro t s' hi' hp' hl' htp hte hty
        refine ⟨by rw [hi', hia], by omega, le_trans hla hl', ?_, ?_, ?_, hte,
          Or.inr ⟨by omega, by omega⟩⟩
        · rw [htp]
          exact hpa
        · rw [htp]
          exact hla
        · rw [htp]
          exact le_of_lt hp'
      have hbase : ∀ (tt : TokType) (lit : Str), tt ≠ TokType.eof →
          ∃ t s', (some (mkTok (readChar a) (posOf a) tt lit, readChar a) :
              Option (Token × LexSt)) = some (t, s') ∧
            s'.input = s0.input ∧ s0.pos ≤ s'.pos ∧ s0.line ≤ s'.line ∧
            s0.pos ≤ t.pos.offset ∧ s0.line ≤ t.pos.line ∧
            t.pos.offset ≤ s'.pos ∧ t.endPos = posOf s' ∧
            (t.type = TokType.eof ∨
              (s0.pos < s'.pos ∧ s0.pos < s0.input.length)) := by
        intro tt lit htt
        refine ⟨_, readChar a, rfl,
          hlift _ (readChar a) (readChar_input a) ?_ (readChar_line a) rfl rfl
            htt⟩
        have := readChar_pos a
        omega
      by_cases h2 : curr a = '\n'
      · rw [if_pos h2]
        refine ⟨_, _, rfl,
          hlift _ _ (readChar_input a) ?_ (readChar_line a) rfl rfl
            (fun hx => TokType.noConfusion hx)⟩
        show a.pos < (readChar a).pos
        have := readChar_pos a
        omega
      · rw [if_neg h2]
        by_cases h3 : curr a = '#'
        · rw [if_pos h3]
          obtain ⟨t, s', he, hi, hp, hl2, htp, hte, hty⟩ :=
            readCommentTok_contract a (posOf a) h3
          exact ⟨t, s', he, hlift t s' hi hp hl2 htp hte hty⟩
        · rw [if_neg h3]
          by_cases h4 : curr a = a.escapeChar ∧ peekChar a = '\n'
          · rw [if_pos h4]
            obtain ⟨t, s', he, hi, hp, hl2, htpo, htpl, htos, hte, hdisz⟩ :=
              ih (readChar (readChar a))
                (by rw [readChar_input, readChar_input, hia, readChar_pos,
                      readChar_pos]
                    omega)
            have hrr : (readChar (readChar a)).pos = a.pos + 2 := by
              have hx := readChar_pos a
              have hy := readChar_pos (readChar a)
              omega
            refine ⟨t, s', he, by rw [hi, readChar_input, readChar_input, hia],
              by rw [hrr] at hp; omega, ?_, by rw [hrr] at htpo; omega, ?_,
              htos, hte, Or.inr ⟨?_, by omega⟩⟩
            · exact le_trans hla (le_trans (readChar_line a)
                (le_trans (readChar_line (readChar a)) hl2))
            · exact le_trans hla (le_trans (readChar_line a)
                (le_trans (readChar_line (readChar a)) htpl))
            · rcases hdisz with hx | hx
              · have := hp
                rw [hrr] at this
                omega
              · rw [hrr] at hx
                omega
          · rw [if_neg h4]
            by_cases h5 : curr a = '<' ∧ peekChar a = '<'
            · rw [if_pos h5]
              obtain ⟨t, s', he, hi, hp, hl2, htp, hte, hty⟩ :=
                readHeredocTok_contract a (posOf a)
              exact ⟨t, s', he, hlift t s' hi hp hl2 htp hte hty⟩
            · rw [if_neg h5]
              by_cases h6 : curr a = '='
              · rw [if_pos h6]
                exact hbase TokType.equals ['=']
                  (fun hx => TokType.noConfusion hx)
              · rw [if_neg h6]
                by_cases h7 : curr a = ':'
                · rw [if_pos h7]
                  exact hbase TokType.colon [':']
                    (fun hx => TokType.noConfusion hx)
                · rw [if_neg h7]
                  by_cases h8 : curr a = '@'
                  · rw [if_pos h8]
                    exact hbase TokType.atSign ['@']
                      (fun hx => TokType.noConfusion hx)
                  · rw [if_neg h8]
                    by_cases h9 : curr a = ','
                    · rw [if_pos h9]
                      exact hbase TokType.comma [',']
                        (fun hx => TokType.noConfusion hx)
                    · rw [if_neg h9]
                      by_cases h10 : curr a = '['
                      · rw [if_pos h10]
                        exact hbase TokType.lbracket ['[']
                          (fun hx => TokType.noConfusion hx)
                      · rw [if_neg h10]
                        by_cases h11 : curr a = ']'
                        · rw [if_pos h11]
                          exact hbase TokType.rbracket [']']
                            (fun hx => TokType.noConfusion hx)
                        · rw [if_neg h11]
                          by_cases h12 : curr a = a.escapeChar
                          · rw [if_pos h12]
                            exact hbase TokType.backslash [a.escapeChar]
                              (fun hx => TokType.noConfusion hx)
                          · rw [if_neg h12]
                            by_cases h13 : curr a = '"' ∨ curr a = '\''
                            · rw [if_pos h13]
                              obtain ⟨t, s', he, hi, hp, hl2, htp, hte, hty⟩ :=
                                readStringTok_contract a (posOf a)
                              exact ⟨t, s', he, hlift t s' hi hp hl2 htp hte hty⟩
                            · rw [if_neg h13]
                              by_cases h14 : curr a = '$'
                              · rw [if_pos h14]
                                obtain ⟨t, s', he, hi, hp, hl2, htp, hte, hty⟩ :=
                                  readVariableTok_contract a (posOf a)
                                exact ⟨t, s', he,
                                  hlift t s' hi hp hl2 htp hte hty⟩
                              · rw [if_neg h14]
                                by_cases h15 : curr a = '-' ∧ peekChar a = '-'
                                · rw [if_pos h15]
                                  obtain ⟨t, s', he, hi, hp, hl2, htp, hte, hty⟩ :=
                                    readFlagTok_contract a (posOf a)
                                  exact ⟨t, s', he,
                                    hlift t s' hi hp hl2 htp hte hty⟩
                                · rw [if_neg h15]
                                  by_cases h16 : isWordChar (curr a) = true
                                  · rw [if_pos h16]
                                    obtain ⟨t, s', he, hi, hp, hl2, htp, hte,
                                      hty⟩ := readWordTok_contract a (posOf a)
                                      h16
                                    exact ⟨t, s', he,
                                      hlift t s' hi hp hl2 htp hte hty⟩
                                  · rw [if_neg h16]
                                    exact hbase TokType.word [curr a]
                                      (fun hx => TokType.noConfusion hx)

set_option maxHeartbeats 1000000 in
theorem tokenizeF_contract : ∀ (fuel : Nat) (s : LexSt),
    s.input.length + 2 - s.pos < fuel → 1 ≤ s.line →
    ∃ ts, tokenizeF fuel s = some ts ∧ ts ≠ [] ∧
      (∃ tl, ts.getLast? = some tl ∧ tl.type = TokType.eof) ∧
      (∀ t ∈ ts.dropLast, t.type ≠ TokType.eof) ∧
      (∀ t ∈ ts, 1 ≤ t.pos.line ∧ 1 ≤ t.endPos.line ∧
        t.pos.offset ≤ t.endPos.offset ∧ s.pos ≤ t.pos.offset) ∧
      List.Chain' (fun x y => x.pos.offset ≤ y.pos.offset) ts := by
  intro fuel
  induction fuel with
  | zero => intro s h hl; omega
  | succ f ih =>
    intro s h hl
    rw [tokenizeF]
    obtain ⟨t, s', he, hi, hp, hlle, htpo, htpl, htos, hte, hdisz⟩ :=
      nextTokenF_contract (bigFuel s) s (by rw [bigFuel]; omega)
    rw [he]
    simp only [Option.bind_eq_bind, Option.some_bind]
    by_cases heof : t.type = TokType.eof
    · rw [if_pos heof]
      refine ⟨[t], rfl, by simp, ⟨t, by simp, heof⟩, by simp, ?_, by simp⟩
      intro u hu
      simp only [List.mem_singleton] at hu
      subst hu
      refine ⟨le_trans hl htpl, ?_, ?_, htpo⟩
      · rw [hte]
        exact le_trans hl hlle
      · rw [hte]
        exact htos
    · rw [if_neg heof]
      have hstrict := hdisz.resolve_left heof
      obtain ⟨ts', he', hne', hlast', hdrop', hmem', hchain'⟩ := ih s'
        (by rw [hi]
            omega)
        (le_trans hl hlle)
      rw [he']
      simp only [Option.bind_eq_bind, Option.some_bind]
      refine ⟨t :: ts', rfl, by simp, ?_, ?_, ?_, ?_⟩
      · obtain ⟨tl, hg1, hg2⟩ := hlast'
        refine ⟨tl, ?_, hg2⟩
        rcases ts' with _ | ⟨b, bs⟩
        · exact absurd rfl hne'
        · rw [List.getLast?_cons_cons]
          exact hg1
      · intro u hu
        rcases ts' with _ | ⟨b, bs⟩
        · exact absurd rfl hne'
        · rw [List.dropLast_cons₂] at hu
          rcases List.mem_cons.mp hu with rfl | hu'
          · exact heof
          · exact hdrop' u hu'
      · intro u hu
        rcases List.mem_cons.mp hu with rfl | hu'
        · refine ⟨le_trans hl htpl, ?_, ?_, htpo⟩
          · rw [hte]
            exact le_trans hl hlle
          · rw [hte]
            exact htos
        · obtain ⟨q1, q2, q3, q4⟩ := hmem' u hu'
          exact ⟨q1, q2, q3, by omega⟩
      · rcases ts' with _ | ⟨b, bs⟩
        · simp
        · refine List.chain'_cons.mpr ⟨?_, hchain'⟩
          have hb := (hmem' b (by simp)).2.2.2
          omega

theorem initLexSt_meas (input : Str) :
    (initLexSt input).input.length + 2 - (initLexSt input).pos <
      input.length + 3 := by
  rw [initLexSt]
  by_cases h0 : input.getD 0 nulChar = '\n'
  · rw [if_pos h0]
    show input.length + 2 - 0 < input.length + 3
    omega
  · rw [if_neg h0]
    show input.length + 2 - 0 < input.length + 3
    omega

theorem initLexSt_line (input : Str) : 1 ≤ (initLexSt input).line := by
  rw [initLexSt]
  by_cases h0 : input.getD 0 nulChar = '\n'
  · rw [if_pos h0]
    show 1 ≤ 2
    omega
  · rw [if_neg h0]

/-- C7: for every input string, the fuel `input.length + 3` suffices for the
tokenizer: `tokenizeF` returns a token list (so `Tokenize` terminates without
error on every input, malformed ones included), the list is non-empty, its
last token is the single EOF token, and no earlier token is an EOF. -/
theorem c7_tokenize_total (input : Str) :
    ∃ ts : List Token,
      tokenizeF (input.length + 3) (initLexSt input) = some ts ∧
      tokenize input = ts ∧ ts ≠ [] ∧
      (∃ tl, ts.getLast? = some tl ∧ tl.type = TokType.eof) ∧
      (∀ t ∈ ts.dropLast, t.type ≠ TokType.eof) := by
  obtain ⟨ts, he, hne, hlast, hdrop, _, _⟩ := tokenizeF_contract
    (input.length + 3) (initLexSt input) (initLexSt_meas input)
    (initLexSt_line input)
  refine ⟨ts, he, ?_, hne, hlast, hdrop⟩
  rw [tokenize, he]
  rfl

/-- C8 (counterexample): on the input consisting of a single newline the
lexer emits a Newline token whose start column is 0, refuting the claim that
every token's column is at least 1 (`readChar` sets the column to 0 when the
new current character is a newline). -/
theorem c8_counterexample :
    ¬ ((tokenize "\n".toList).all (fun t => decide (1 ≤ t.pos.column)) =
      true) := by
  decide

/-- C8 (amended): for every input, every token carries start and end
positions with line at least 1, each token's end offset is at least its start
offset, and the start offsets of successive tokens in the stream are
monotonically non-decreasing; column 0 does occur (on newline tokens), so the
original column bound is dropped. -/
theorem c8_amended (input : Str) :
    (∀ t ∈ tokenize input, 1 ≤ t.pos.line ∧ 1 ≤ t.endPos.line ∧
      t.pos.offset ≤ t.endPos.offset) ∧
    List.Chain' (fun x y => x.pos.offset ≤ y.pos.offset) (tokenize input) := by
  obtain ⟨ts, he, _, _, _, hmem, hchain⟩ := tokenizeF_contract
    (input.length + 3) (initLexSt input) (initLexSt_meas input)
    (initLexSt_line input)
  have ht : tokenize input = ts := by
    rw [tokenize, he]
    rfl
  rw [ht]
  exact ⟨fun t hm => ⟨(hmem t hm).1, (hmem t hm).2.1, (hmem t hm).2.2.1⟩,
    hchain⟩
